import Mathlib

/-!
# CHIP-8 interpreter: shallow embedding of `chip8.cpp` / `chip8.hpp`

The C++ class `Chip8` becomes the structure `Chip8`; every member function becomes a
function on that structure.  Fixed-size arrays are functions `Nat → Nat` together with the
array size from `chip8.hpp`; an access whose index is outside the array, or a call through
a dispatch-table slot that `setupTable` never assigns, has no defined behaviour in C++ and
is modelled by the result `none`.  Unsigned machine integers are natural numbers reduced
modulo `2^w` wherever the C++ type truncates.
-/

/-! ## Constants (chip8.hpp, chip8.cpp) -/

abbrev KEY_COUNT : Nat := 16
abbrev MEMORY_SIZE : Nat := 4096
abbrev REGISTER_COUNT : Nat := 16
abbrev STACK_LEVELS : Nat := 16
abbrev VIDEO_HEIGHT : Nat := 32
abbrev VIDEO_WIDTH : Nat := 64
abbrev FONTSET_SIZE : Nat := 80
abbrev FONTSET_START_ADDRESS : Nat := 0x50
abbrev START_ADDRESS : Nat := 0x200

/-- The 80-byte glyph table `fontSet`. -/
def fontSet : List Nat :=
  [0xF0, 0x90, 0x90, 0x90, 0xF0,
   0x20, 0x60, 0x20, 0x20, 0x70,
   0xF0, 0x10, 0xF0, 0x80, 0xF0,
   0xF0, 0x10, 0xF0, 0x10, 0xF0,
   0x90, 0x90, 0xF0, 0x10, 0x10,
   0xF0, 0x80, 0xF0, 0x10, 0xF0,
   0xF0, 0x80, 0xF0, 0x90, 0xF0,
   0xF0, 0x10, 0x20, 0x40, 0x40,
   0xF0, 0x90, 0xF0, 0x90, 0xF0,
   0xF0, 0x90, 0xF0, 0x10, 0xF0,
   0xF0, 0x90, 0xF0, 0x90, 0x90,
   0xE0, 0x90, 0xE0, 0x90, 0xE0,
   0xF0, 0x80, 0x80, 0x80, 0xF0,
   0xE0, 0x90, 0x90, 0x90, 0xE0,
   0xF0, 0x80, 0xF0, 0x80, 0xF0,
   0xF0, 0x80, 0xF0, 0x80, 0x80]

/-- The members of `class Chip8`.  `randGen` is the sequence of values the random engine
will deliver on its next draws; `cerr` collects the lines written to `std::cerr`. -/
structure Chip8 where
  drawFlag : Bool
  delayTimer : Nat
  soundTimer : Nat
  keypad : Nat → Nat
  video : Nat → Nat
  memory : Nat → Nat
  registers : Nat → Nat
  index : Nat
  pc : Nat
  stack : Nat → Nat
  sp : Nat
  opcode : Nat
  randGen : Nat → Nat
  cerr : List String

namespace Chip8

/-- Array assignment `arr[i] = v`. -/
def store (arr : Nat → Nat) (i v : Nat) : Nat → Nat :=
  fun j => if j = i then v else arr j

/-- Conversion of an `int` result to `uint8_t` after the subtraction `a - b`. -/
def sub8 (a b : Nat) : Nat :=
  Int.toNat (((a : Int) - (b : Int)) % 256)

/-- The loop `for (i = 0; i < n; ++i) mem[base + i] = bytes[i]`, given the bytes still
to be copied. -/
def copyBytes : List Nat → Nat → (Nat → Nat) → (Nat → Nat)
  | [], _, mem => mem
  | b :: bs, a, mem => copyBytes bs (a + 1) (store mem a b)

/-! ## Operand fields of the instruction word -/

/-- Local `Vx = (opcode & 0x0F00) >> 8`. -/
def Vx (s : Chip8) : Nat := (s.opcode &&& 0x0F00) >>> 8

/-- Local `Vy = (opcode & 0x00F0) >> 4`. -/
def Vy (s : Chip8) : Nat := (s.opcode &&& 0x00F0) >>> 4

/-- Local `kk = opcode & 0x00FF`. -/
def kk (s : Chip8) : Nat := s.opcode &&& 0x00FF

/-- Local `address = opcode & 0x0FFF`. -/
def address (s : Chip8) : Nat := s.opcode &&& 0x0FFF

/-! ## Instructions -/

def op_00E0 (s : Chip8) : Chip8 :=
  { s with video := fun _ => 0 }

def op_00EE (s : Chip8) : Option Chip8 :=
  if s.sp = 0 then
    some { s with cerr := s.cerr ++ ["Error: Stack underflow"] }
  else if s.sp < STACK_LEVELS then
    some { s with pc := s.stack s.sp, sp := s.sp - 1 }
  else none

def op_1nnn (s : Chip8) : Chip8 :=
  { s with pc := s.address }

def op_2nnn (s : Chip8) : Chip8 :=
  if s.sp ≥ STACK_LEVELS - 1 then
    { s with cerr := s.cerr ++ ["Error: Stack overflow"] }
  else
    { s with sp := (s.sp + 1) % 256,
             stack := store s.stack ((s.sp + 1) % 256) s.pc,
             pc := s.address }

def op_3xkk (s : Chip8) : Chip8 :=
  if s.registers s.Vx = s.kk then { s with pc := (s.pc + 2) % 65536 } else s

def op_4xkk (s : Chip8) : Chip8 :=
  if s.registers s.Vx ≠ s.kk then { s with pc := (s.pc + 2) % 65536 } else s

def op_5xy0 (s : Chip8) : Chip8 :=
  if s.registers s.Vx = s.registers s.Vy then { s with pc := (s.pc + 2) % 65536 } else s

def op_6xkk (s : Chip8) : Chip8 :=
  { s with registers := store s.registers s.Vx s.kk }

def op_7xkk (s : Chip8) : Chip8 :=
  { s with registers := store s.registers s.Vx ((s.registers s.Vx + s.kk) % 256) }

def op_8xy0 (s : Chip8) : Chip8 :=
  { s with registers := store s.registers s.Vx (s.registers s.Vy) }

def op_8xy1 (s : Chip8) : Chip8 :=
  { s with registers := store s.registers s.Vx (s.registers s.Vx ||| s.registers s.Vy) }

def op_8xy2 (s : Chip8) : Chip8 :=
  { s with registers := store s.registers s.Vx (s.registers s.Vx &&& s.registers s.Vy) }

def op_8xy3 (s : Chip8) : Chip8 :=
  { s with registers := store s.registers s.Vx (s.registers s.Vx ^^^ s.registers s.Vy) }

def op_8xy4 (s : Chip8) : Chip8 :=
  let sum := (s.registers s.Vx + s.registers s.Vy) % 65536
  let r1 := store s.registers 0xF (if sum > 255 then 1 else 0)
  { s with registers := store r1 s.Vx (sum &&& 0xFF) }

def op_8xy5 (s : Chip8) : Chip8 :=
  let r1 := store s.registers 0xF (if s.registers s.Vx ≥ s.registers s.Vy then 1 else 0)
  { s with registers := store r1 s.Vx (sub8 (r1 s.Vx) (r1 s.Vy)) }

def op_8xy6 (s : Chip8) : Chip8 :=
  let r1 := store s.registers 0xF (if s.registers s.Vx &&& 0x1 ≠ 0 then 1 else 0)
  { s with registers := store r1 s.Vx (r1 s.Vx >>> 1) }

def op_8xy7 (s : Chip8) : Chip8 :=
  let r1 := store s.registers 0xF (if s.registers s.Vy > s.registers s.Vx then 1 else 0)
  { s with registers := store r1 s.Vx (sub8 (r1 s.Vy) (r1 s.Vx)) }

def op_8xyE (s : Chip8) : Chip8 :=
  let r1 := store s.registers 0xF ((s.registers s.Vx &&& 0x80) >>> 7)
  { s with registers := store r1 s.Vx ((r1 s.Vx <<< 1) % 256) }

def op_9xy0 (s : Chip8) : Chip8 :=
  { s with pc := (s.pc + (if s.registers s.Vx ≠ s.registers s.Vy then 2 else 0)) % 65536 }

def op_Annn (s : Chip8) : Chip8 :=
  { s with index := s.address }

def op_Bnnn (s : Chip8) : Chip8 :=
  { s with pc := (s.registers 0 + s.address) % 65536 }

def op_Cxkk (s : Chip8) : Chip8 :=
  { s with registers := store s.registers s.Vx (s.kk &&& (s.randGen 0 % 256)),
           randGen := fun n => s.randGen (n + 1) }

/-- Body of the inner loop of `op_Dxyn` for one `(row, col)`, acting on the framebuffer
and on register `0xF`. -/
def drawPixel (spriteByte xPos yPos row : Nat) (st : (Nat → Nat) × Nat) (col : Nat) :
    (Nat → Nat) × Nat :=
  let spritePixel := spriteByte &&& (0x80 >>> col)
  if xPos + col < VIDEO_WIDTH ∧ yPos + row < VIDEO_HEIGHT then
    let i := (yPos + row) * VIDEO_WIDTH + (xPos + col)
    if spritePixel ≠ 0 then
      (store st.1 i (st.1 i ^^^ 0xFFFFFFFF), if st.1 i = 0xFFFFFFFF then 1 else st.2)
    else st
  else st

/-- The inner loop `for (col = 0; col < 8; ++col)`. -/
def drawRow (spriteByte xPos yPos row : Nat) (st : (Nat → Nat) × Nat) : (Nat → Nat) × Nat :=
  (List.range 8).foldl (drawPixel spriteByte xPos yPos row) st

/-- The outer loop `for (row = ...; row < height; ++row)`, with `todo` iterations left. -/
def drawRows (memory : Nat → Nat) (index xPos yPos : Nat) :
    Nat → Nat → (Nat → Nat) × Nat → Option ((Nat → Nat) × Nat)
  | 0, _, st => some st
  | todo + 1, row, st =>
    if index + row < MEMORY_SIZE then
      drawRows memory index xPos yPos todo (row + 1)
        (drawRow (memory (index + row)) xPos yPos row st)
    else none

def op_Dxyn (s : Chip8) : Option Chip8 :=
  let height := s.opcode &&& 0x000F
  let xPos := s.registers s.Vx % VIDEO_WIDTH
  let yPos := s.registers s.Vy % VIDEO_HEIGHT
  match drawRows s.memory s.index xPos yPos height 0 (s.video, 0) with
  | some st =>
    some { s with video := st.1, registers := store s.registers 0xF st.2, drawFlag := true }
  | none => none

def op_Ex9E (s : Chip8) : Chip8 :=
  let key := s.registers s.Vx
  if key ≥ KEY_COUNT then
    { s with cerr := s.cerr ++ ["Error: Invalid key value " ++ toString key ++ " in op_Ex9E"] }
  else if s.keypad key ≠ 0 then { s with pc := (s.pc + 2) % 65536 }
  else s

def op_ExA1 (s : Chip8) : Chip8 :=
  let key := s.registers s.Vx
  if key ≥ KEY_COUNT then
    { s with cerr := s.cerr ++ ["Error: Invalid key value " ++ toString key ++ " in op_ExA1"] }
  else if s.keypad key = 0 then { s with pc := (s.pc + 2) % 65536 }
  else s

def op_Fx07 (s : Chip8) : Chip8 :=
  { s with registers := store s.registers s.Vx s.delayTimer }

def op_Fx0A (s : Chip8) : Chip8 :=
  match (List.range 16).find? (fun i => s.keypad i != 0) with
  | some i => { s with registers := store s.registers s.Vx i }
  | none => { s with pc := (s.pc + 65536 - 2) % 65536 }

def op_Fx15 (s : Chip8) : Chip8 :=
  { s with delayTimer := s.registers s.Vx }

def op_Fx18 (s : Chip8) : Chip8 :=
  { s with soundTimer := s.registers s.Vx }

def op_Fx1E (s : Chip8) : Chip8 :=
  { s with index := (s.index + s.registers s.Vx) % 65536 }

def op_Fx29 (s : Chip8) : Chip8 :=
  let digit := s.registers s.Vx
  if digit > 0xF then
    { s with cerr := s.cerr ++
        ["Error: Invalid digit " ++ toString digit ++ " in op_Fx29. Only 0-F are valid."] }
  else { s with index := FONTSET_START_ADDRESS + 5 * digit }

def op_Fx33 (s : Chip8) : Option Chip8 :=
  let value := s.registers s.Vx
  if s.index + 2 < MEMORY_SIZE then
    let m1 := store s.memory s.index (value / 100)
    let m2 := store m1 (s.index + 1) ((value / 10) % 10)
    some { s with memory := store m2 (s.index + 2) (value % 10) }
  else none

/-- The loop of `op_Fx55`: `for (i = ...; i <= Vx; i++) memory[index + i] = registers[i]`,
with `todo` iterations left. -/
def storeRegs (registers : Nat → Nat) (index : Nat) :
    Nat → Nat → (Nat → Nat) → Option (Nat → Nat)
  | 0, _, memory => some memory
  | todo + 1, i, memory =>
    if index + i < MEMORY_SIZE then
      storeRegs registers index todo (i + 1) (store memory (index + i) (registers i))
    else none

def op_Fx55 (s : Chip8) : Option Chip8 :=
  match storeRegs s.registers s.index (s.Vx + 1) 0 s.memory with
  | some m => some { s with memory := m, index := (s.index + (s.Vx + 1)) % 65536 }
  | none => none

/-- The loop of `op_Fx65`: `for (i = ...; i <= Vx; ++i) registers[i] = memory[index + i]`,
with `todo` iterations left. -/
def loadRegs (memory : Nat → Nat) (index : Nat) :
    Nat → Nat → (Nat → Nat) → Option (Nat → Nat)
  | 0, _, registers => some registers
  | todo + 1, i, registers =>
    if index + i < MEMORY_SIZE then
      loadRegs memory index todo (i + 1) (store registers i (memory (index + i)))
    else none

def op_Fx65 (s : Chip8) : Option Chip8 :=
  match loadRegs s.memory s.index (s.Vx + 1) 0 s.registers with
  | some r => some { s with registers := r, index := (s.index + (s.Vx + 1)) % 65536 }
  | none => none

/-! ## Dispatch tables (`setupTable`) and the cycle -/

/-- A total instruction stored in a dispatch table. -/
def total (f : Chip8 → Chip8) : Chip8 → Option Chip8 := fun s => some (f s)

/-- Array `table0[0xE + 1]`: the slots `setupTable` assigns. -/
def table0 (i : Nat) : Option (Chip8 → Option Chip8) :=
  if i = 0x0 then some (total op_00E0)
  else if i = 0xE then some op_00EE
  else none

/-- Array `table8[0xE + 1]`. -/
def table8 (i : Nat) : Option (Chip8 → Option Chip8) :=
  if i = 0x0 then some (total op_8xy0)
  else if i = 0x1 then some (total op_8xy1)
  else if i = 0x2 then some (total op_8xy2)
  else if i = 0x3 then some (total op_8xy3)
  else if i = 0x4 then some (total op_8xy4)
  else if i = 0x5 then some (total op_8xy5)
  else if i = 0x6 then some (total op_8xy6)
  else if i = 0x7 then some (total op_8xy7)
  else if i = 0xE then some (total op_8xyE)
  else none

/-- Array `tableE[0xE + 1]`. -/
def tableE (i : Nat) : Option (Chip8 → Option Chip8) :=
  if i = 0x1 then some (total op_ExA1)
  else if i = 0xE then some (total op_Ex9E)
  else none

/-- Array `tableF[0x65 + 1]`. -/
def tableF (i : Nat) : Option (Chip8 → Option Chip8) :=
  if i = 0x07 then some (total op_Fx07)
  else if i = 0x0A then some (total op_Fx0A)
  else if i = 0x15 then some (total op_Fx15)
  else if i = 0x18 then some (total op_Fx18)
  else if i = 0x1E then some (total op_Fx1E)
  else if i = 0x29 then some (total op_Fx29)
  else if i = 0x33 then some op_Fx33
  else if i = 0x55 then some op_Fx55
  else if i = 0x65 then some op_Fx65
  else none

/-- Call through a member-function pointer read from a table slot. -/
def call (slot : Option (Chip8 → Option Chip8)) (s : Chip8) : Option Chip8 :=
  match slot with
  | some f => f s
  | none => none

def Table0 (s : Chip8) : Option Chip8 := call (table0 (s.opcode &&& 0x000F)) s

def Table8 (s : Chip8) : Option Chip8 := call (table8 (s.opcode &&& 0x000F)) s

def TableE (s : Chip8) : Option Chip8 := call (tableE (s.opcode &&& 0x000F)) s

def TableF (s : Chip8) : Option Chip8 := call (tableF (s.opcode &&& 0x00FF)) s

/-- Array `table[0xF + 1]`: every slot is assigned by `setupTable`. -/
def table (i : Nat) : Option (Chip8 → Option Chip8) :=
  if i = 0x0 then some Table0
  else if i = 0x1 then some (total op_1nnn)
  else if i = 0x2 then some (total op_2nnn)
  else if i = 0x3 then some (total op_3xkk)
  else if i = 0x4 then some (total op_4xkk)
  else if i = 0x5 then some (total op_5xy0)
  else if i = 0x6 then some (total op_6xkk)
  else if i = 0x7 then some (total op_7xkk)
  else if i = 0x8 then some Table8
  else if i = 0x9 then some (total op_9xy0)
  else if i = 0xA then some (total op_Annn)
  else if i = 0xB then some (total op_Bnnn)
  else if i = 0xC then some (total op_Cxkk)
  else if i = 0xD then some op_Dxyn
  else if i = 0xE then some TableE
  else if i = 0xF then some TableF
  else none

/-- The fetched word `(memory[pc] << 8) | memory[pc + 1]`, stored in a `uint16_t`. -/
def fetch (s : Chip8) : Nat :=
  ((s.memory s.pc <<< 8) ||| s.memory (s.pc + 1)) % 65536

def cycle (s : Chip8) : Option Chip8 :=
  if s.pc + 1 < MEMORY_SIZE then
    let s1 := { s with opcode := s.fetch, pc := (s.pc + 2) % 65536 }
    let instruction := (s1.opcode &&& 0xF000) >>> 12
    call (table instruction) s1
  else none

/-- Repeated `cycle()` calls: `n` cycles in a row. -/
def cycles : Nat → Chip8 → Option Chip8
  | 0, s => some s
  | n + 1, s =>
    match cycle s with
    | some s1 => cycles n s1
    | none => none

/-! ## Construction and program loading -/

/-- The constructor `Chip8::Chip8()`.  `drawFlag` is not assigned by the constructor, so
its starting value is an input, as is the seeded random engine. -/
def init (drawFlag : Bool) (randGen : Nat → Nat) : Chip8 :=
  { drawFlag := drawFlag
    delayTimer := 0
    soundTimer := 0
    keypad := fun _ => 0
    video := fun _ => 0
    memory := copyBytes fontSet FONTSET_START_ADDRESS (fun _ => 0)
    registers := fun _ => 0
    index := 0
    pc := START_ADDRESS
    stack := fun _ => 0
    sp := 0
    opcode := 0
    randGen := randGen
    cerr := [] }

/-- The function `Chip8::loadROM`; `file` is `none` when the file cannot be opened and
otherwise the bytes it holds. -/
def loadROM (filename : String) (file : Option (List Nat)) (s : Chip8) : Chip8 :=
  match file with
  | none => { s with cerr := s.cerr ++ ["Failed to open ROM file: " ++ filename] }
  | some buffer =>
    if START_ADDRESS + buffer.length > MEMORY_SIZE then
      { s with cerr := s.cerr ++
          ["Error: ROM file too large. Maximum size is " ++
            toString (MEMORY_SIZE - START_ADDRESS) ++ " bytes."] }
    else { s with memory := copyBytes buffer START_ADDRESS s.memory }

/-! ## Vocabulary of the statements: sample machines, dispatch cases, reachable states -/

/-- A machine just constructed, then given an instruction word and register contents. -/
def sample (opcode : Nat) (registers : Nat → Nat) : Chip8 :=
  { init false (fun _ => 0) with opcode := opcode, registers := registers }

/-- A machine just constructed with a two-instruction image: `0x2204` (call `0x204`) at
`0x200`, then `0x0000`, then `0x00EE` (return) at `0x204`. -/
def callReturnDemo : Chip8 :=
  loadROM "demo" (some [0x22, 0x04, 0x00, 0x00, 0x00, 0xEE]) (init false (fun _ => 0))

/-- A machine whose program counter points at a return `0x00EE`. -/
def returnDemo : Chip8 :=
  loadROM "demo" (some [0x00, 0xEE]) (init false (fun _ => 0))

/-- The word at the program counter can be fetched and is a call `0x2nnn`. -/
def isCall (s : Chip8) : Bool :=
  decide (s.pc + 1 < MEMORY_SIZE) && decide (s.fetch / 4096 = 2)

/-- Each of the next `n` cycles executes a call instruction. -/
def nestedCalls : Nat → Chip8 → Bool
  | 0, _ => true
  | n + 1, s =>
    isCall s &&
      (match cycle s with
       | some s1 => nestedCalls n s1
       | none => false)

/-- A new machine with a chain of seventeen calls: the call at `0x200 + 4 * i` targets
`0x200 + 4 * (i + 1)`. -/
def nestedDemo : Chip8 :=
  loadROM "demo"
    (some [0x22, 0x04, 0, 0, 0x22, 0x08, 0, 0, 0x22, 0x0C, 0, 0, 0x22, 0x10, 0, 0,
           0x22, 0x14, 0, 0, 0x22, 0x18, 0, 0, 0x22, 0x1C, 0, 0, 0x22, 0x20, 0, 0,
           0x22, 0x24, 0, 0, 0x22, 0x28, 0, 0, 0x22, 0x2C, 0, 0, 0x22, 0x30, 0, 0,
           0x22, 0x34, 0, 0, 0x22, 0x38, 0, 0, 0x22, 0x3C, 0, 0, 0x22, 0x40, 0, 0,
           0x22, 0x44, 0, 0])
    (init false (fun _ => 0))

/-- The instruction executed after the fetch: `Executes s1 s2` holds when one of the 34
handlers reachable through the dispatch tables takes `s1` to `s2`. -/
inductive Executes : Chip8 → Chip8 → Prop
  | op_00E0 (s : Chip8) : Executes s (op_00E0 s)
  | op_1nnn (s : Chip8) : Executes s (op_1nnn s)
  | op_2nnn (s : Chip8) : Executes s (op_2nnn s)
  | op_3xkk (s : Chip8) : Executes s (op_3xkk s)
  | op_4xkk (s : Chip8) : Executes s (op_4xkk s)
  | op_5xy0 (s : Chip8) : Executes s (op_5xy0 s)
  | op_6xkk (s : Chip8) : Executes s (op_6xkk s)
  | op_7xkk (s : Chip8) : Executes s (op_7xkk s)
  | op_8xy0 (s : Chip8) : Executes s (op_8xy0 s)
  | op_8xy1 (s : Chip8) : Executes s (op_8xy1 s)
  | op_8xy2 (s : Chip8) : Executes s (op_8xy2 s)
  | op_8xy3 (s : Chip8) : Executes s (op_8xy3 s)
  | op_8xy4 (s : Chip8) : Executes s (op_8xy4 s)
  | op_8xy5 (s : Chip8) : Executes s (op_8xy5 s)
  | op_8xy6 (s : Chip8) : Executes s (op_8xy6 s)
  | op_8xy7 (s : Chip8) : Executes s (op_8xy7 s)
  | op_8xyE (s : Chip8) : Executes s (op_8xyE s)
  | op_9xy0 (s : Chip8) : Executes s (op_9xy0 s)
  | op_Annn (s : Chip8) : Executes s (op_Annn s)
  | op_Bnnn (s : Chip8) : Executes s (op_Bnnn s)
  | op_Cxkk (s : Chip8) : Executes s (op_Cxkk s)
  | op_Ex9E (s : Chip8) : Executes s (op_Ex9E s)
  | op_ExA1 (s : Chip8) : Executes s (op_ExA1 s)
  | op_Fx07 (s : Chip8) : Executes s (op_Fx07 s)
  | op_Fx0A (s : Chip8) : Executes s (op_Fx0A s)
  | op_Fx15 (s : Chip8) : Executes s (op_Fx15 s)
  | op_Fx18 (s : Chip8) : Executes s (op_Fx18 s)
  | op_Fx1E (s : Chip8) : Executes s (op_Fx1E s)
  | op_Fx29 (s : Chip8) : Executes s (op_Fx29 s)
  | op_00EE (s s2 : Chip8) (h : Chip8.op_00EE s = some s2) : Executes s s2
  | op_Dxyn (s s2 : Chip8) (h : Chip8.op_Dxyn s = some s2) : Executes s s2
  | op_Fx33 (s s2 : Chip8) (h : Chip8.op_Fx33 s = some s2) : Executes s s2
  | op_Fx55 (s s2 : Chip8) (h : Chip8.op_Fx55 s = some s2) : Executes s s2
  | op_Fx65 (s s2 : Chip8) (h : Chip8.op_Fx65 s = some s2) : Executes s s2

/-- States the driver can produce: construction, loading a program image, completed
cycles, and between cycles the keypad writes of the input handler, the timer updates
of the main loop and the clearing of the draw flag after a frame. -/
inductive Reachable : Chip8 → Prop
  | start (drawFlag : Bool) (randGen : Nat → Nat) : Reachable (init drawFlag randGen)
  | load (s : Chip8) (filename : String) (file : Option (List Nat)) :
      Reachable s → Reachable (loadROM filename file s)
  | step (s s2 : Chip8) : Reachable s → cycle s = some s2 → Reachable s2
  | keys (s : Chip8) (keypad : Nat → Nat) :
      Reachable s → Reachable ({ s with keypad := keypad } : Chip8)
  | timers (s : Chip8) (delayTimer soundTimer : Nat) :
      Reachable s →
      Reachable ({ s with delayTimer := delayTimer, soundTimer := soundTimer } : Chip8)
  | frame (s : Chip8) : Reachable s → Reachable ({ s with drawFlag := false } : Chip8)

/-- The state `callReturnDemo` is in after its first cycle, the call `0x2204`. -/
def afterCallDemo : Chip8 :=
  { callReturnDemo with opcode := 0x2000 + 0x204, sp := callReturnDemo.sp + 1,
                        stack := store callReturnDemo.stack (callReturnDemo.sp + 1)
                          (callReturnDemo.pc + 2),
                        pc := 0x204 }

/-- Pixel `j` is the one plotted by iteration `(row, col)` of the loops of `op_Dxyn`: the
position is on screen, the sprite bit is set and `j` is the array position computed. -/
def drawHit (spriteByte xPos yPos row col j : Nat) : Prop :=
  xPos + col < VIDEO_WIDTH ∧ yPos + row < VIDEO_HEIGHT ∧
    spriteByte &&& (0x80 >>> col) ≠ 0 ∧ j = (yPos + row) * VIDEO_WIDTH + (xPos + col)

/-- Effect of a piece of the draw loops on (framebuffer, register `0xF`), given the set
`hit` of pixels it plots: these are flipped by XOR, all others are untouched, and the flag
becomes 1 exactly when a plotted pixel was fully on, and is otherwise kept. -/
def DrawSpec (hit : Nat → Prop) (a b : (Nat → Nat) × Nat) : Prop :=
  (∀ j, hit j → b.1 j = a.1 j ^^^ 0xFFFFFFFF) ∧
  (∀ j, ¬ hit j → b.1 j = a.1 j) ∧
  ((∃ j, hit j ∧ a.1 j = 0xFFFFFFFF) → b.2 = 1) ∧
  ((¬ ∃ j, hit j ∧ a.1 j = 0xFFFFFFFF) → b.2 = a.2)

/-- The pixels plotted by `op_Dxyn` in state `s`: some row `r` below the height and some
column `c < 8` plot pixel `j`. -/
def spriteHit (s : Chip8) (j : Nat) : Prop :=
  ∃ r, r < (s.opcode &&& 0x000F) ∧ ∃ c, c < 8 ∧
    drawHit (s.memory (s.index + r)) (s.registers s.Vx % VIDEO_WIDTH)
      (s.registers s.Vy % VIDEO_HEIGHT) r c j

/-- A new machine about to draw the five-row glyph at `0x50` with `V0 = 60`, `V1 = 30`
under the instruction word `0xD015`. -/
def drawDemo : Chip8 :=
  { init false (fun _ => 0) with opcode := 0xD015, index := 0x50,
                                 registers := store (store (fun _ => 0) 0 60) 1 30 }

/-- The state `drawDemo` is in after the draw. -/
def drawDemo2 : Chip8 := (op_Dxyn drawDemo).getD drawDemo

/-- Some sprite pixel of the draw `Dxyn` lands on a screen pixel that is fully on: row
`r < n`, column `c < 8`, bit `7 - c` of `memory[index + r]` is set, the target position
`((Vy mod 32) + r, (Vx mod 64) + c)` is inside the 64x32 screen and the pixel there holds
`0xFFFFFFFF`. -/
def Collision (s : Chip8) (x y n : Nat) : Prop :=
  ∃ r c, r < n ∧ c < 8 ∧ (s.memory (s.index + r)).testBit (7 - c) = true ∧
    s.registers y % 32 + r < 32 ∧ s.registers x % 64 + c < 64 ∧
    s.video ((s.registers y % 32 + r) * 64 + (s.registers x % 64 + c)) = 0xFFFFFFFF

/-- The screen position (row `R`, column `C`) is covered by a set sprite bit of the draw
`Dxyn`: with `xPos = Vx mod 64` and `yPos = Vy mod 32`, `yPos ≤ R < yPos + n`,
`xPos ≤ C < xPos + 8` and bit `7 - (C - xPos)` of `memory[index + (R - yPos)]` is set. -/
def Plotted (s : Chip8) (x y n R C : Nat) : Prop :=
  s.registers y % 32 ≤ R ∧ R < s.registers y % 32 + n ∧
  s.registers x % 64 ≤ C ∧ C < s.registers x % 64 + 8 ∧
  (s.memory (s.index + (R - s.registers y % 32))).testBit (7 - (C - s.registers x % 64)) = true

/-- A new machine whose memory holds the one instruction word `hi lo` at `0x200`. -/
def wordDemo (hi lo : Nat) : Chip8 :=
  loadROM "demo" (some [hi, lo]) (init false (fun _ => 0))

/-- A machine with every pixel lit and the draw flag clear, about to execute `0x00E0`. -/
def clearDemo : Chip8 :=
  { wordDemo 0x00 0xE0 with video := fun _ => 0xFFFFFFFF }

/-- A new machine, with any starting draw flag and random engine, loaded with the image
`6A 05 6B 03 8A B4`. -/
def addDemo (drawFlag : Bool) (randGen : Nat → Nat) : Chip8 :=
  loadROM "demo" (some [0x6A, 0x05, 0x6B, 0x03, 0x8A, 0xB4]) (init drawFlag randGen)

/-- A new machine waiting on `0xF30A` with no key down. -/
def keyWaitDemo : Chip8 := wordDemo 0xF3 0x0A

/-- The machine `keyWaitDemo` with keys 5 and 9 down. -/
def keyDownDemo : Chip8 :=
  { keyWaitDemo with keypad := store (store (fun _ => 0) 9 1) 5 1 }

/-- A new machine about to execute `0xE39E` with `V3 = 20`. -/
def badKeyDemo9E : Chip8 :=
  { wordDemo 0xE3 0x9E with registers := store (fun _ => 0) 3 20 }

/-- A new machine about to execute `0xE3A1` with `V3 = 20`. -/
def badKeyDemoA1 : Chip8 :=
  { wordDemo 0xE3 0xA1 with registers := store (fun _ => 0) 3 20 }

/-- A new machine about to execute `0xF329` with `V3 = 0xB`. -/
def glyphDemo : Chip8 :=
  { wordDemo 0xF3 0x29 with registers := store (fun _ => 0) 3 0xB }

/-- A new machine about to execute `0xF329` with `V3 = 0x10`. -/
def badGlyphDemo : Chip8 :=
  { wordDemo 0xF3 0x29 with registers := store (fun _ => 0) 3 0x10 }

/-- A new machine about to execute `0xF333` with `V3 = 254` and `index = 0x300`. -/
def bcdDemo : Chip8 :=
  { init false (fun _ => 0) with opcode := 0xF333, index := 0x300,
                                 registers := store (fun _ => 0) 3 254 }

/-- A program image of `n` bytes, each `0xAB`. -/
def image (n : Nat) : List Nat := List.replicate n 0xAB

/-- The instruction word `w` selects the handler `h`: the leading nibble `w / 4096 % 16`
indexes `table`, and in the families `0x0`, `0x8`, `0xE` (trailing nibble `w % 16`) and `0xF`
(trailing byte `w % 256`) the secondary table holds `h` in the slot `setupTable` assigned. -/
inductive Selects : Nat → (Chip8 → Option Chip8) → Prop
  | op_00E0 {w : Nat} : w / 4096 % 16 = 0 → w % 16 = 0 → Selects w (total Chip8.op_00E0)
  | op_00EE {w : Nat} : w / 4096 % 16 = 0 → w % 16 = 14 → Selects w (Chip8.op_00EE)
  | op_1nnn {w : Nat} : w / 4096 % 16 = 1 → Selects w (total Chip8.op_1nnn)
  | op_2nnn {w : Nat} : w / 4096 % 16 = 2 → Selects w (total Chip8.op_2nnn)
  | op_3xkk {w : Nat} : w / 4096 % 16 = 3 → Selects w (total Chip8.op_3xkk)
  | op_4xkk {w : Nat} : w / 4096 % 16 = 4 → Selects w (total Chip8.op_4xkk)
  | op_5xy0 {w : Nat} : w / 4096 % 16 = 5 → Selects w (total Chip8.op_5xy0)
  | op_6xkk {w : Nat} : w / 4096 % 16 = 6 → Selects w (total Chip8.op_6xkk)
  | op_7xkk {w : Nat} : w / 4096 % 16 = 7 → Selects w (total Chip8.op_7xkk)
  | op_8xy0 {w : Nat} : w / 4096 % 16 = 8 → w % 16 = 0 → Selects w (total Chip8.op_8xy0)
  | op_8xy1 {w : Nat} : w / 4096 % 16 = 8 → w % 16 = 1 → Selects w (total Chip8.op_8xy1)
  | op_8xy2 {w : Nat} : w / 4096 % 16 = 8 → w % 16 = 2 → Selects w (total Chip8.op_8xy2)
  | op_8xy3 {w : Nat} : w / 4096 % 16 = 8 → w % 16 = 3 → Selects w (total Chip8.op_8xy3)
  | op_8xy4 {w : Nat} : w / 4096 % 16 = 8 → w % 16 = 4 → Selects w (total Chip8.op_8xy4)
  | op_8xy5 {w : Nat} : w / 4096 % 16 = 8 → w % 16 = 5 → Selects w (total Chip8.op_8xy5)
  | op_8xy6 {w : Nat} : w / 4096 % 16 = 8 → w % 16 = 6 → Selects w (total Chip8.op_8xy6)
  | op_8xy7 {w : Nat} : w / 4096 % 16 = 8 → w % 16 = 7 → Selects w (total Chip8.op_8xy7)
  | op_8xyE {w : Nat} : w / 4096 % 16 = 8 → w % 16 = 14 → Selects w (total Chip8.op_8xyE)
  | op_9xy0 {w : Nat} : w / 4096 % 16 = 9 → Selects w (total Chip8.op_9xy0)
  | op_Annn {w : Nat} : w / 4096 % 16 = 10 → Selects w (total Chip8.op_Annn)
  | op_Bnnn {w : Nat} : w / 4096 % 16 = 11 → Selects w (total Chip8.op_Bnnn)
  | op_Cxkk {w : Nat} : w / 4096 % 16 = 12 → Selects w (total Chip8.op_Cxkk)
  | op_Dxyn {w : Nat} : w / 4096 % 16 = 13 → Selects w (Chip8.op_Dxyn)
  | op_ExA1 {w : Nat} : w / 4096 % 16 = 14 → w % 16 = 1 → Selects w (total Chip8.op_ExA1)
  | op_Ex9E {w : Nat} : w / 4096 % 16 = 14 → w % 16 = 14 → Selects w (total Chip8.op_Ex9E)
  | op_Fx07 {w : Nat} : w / 4096 % 16 = 15 → w % 256 = 7 → Selects w (total Chip8.op_Fx07)
  | op_Fx0A {w : Nat} : w / 4096 % 16 = 15 → w % 256 = 10 → Selects w (total Chip8.op_Fx0A)
  | op_Fx15 {w : Nat} : w / 4096 % 16 = 15 → w % 256 = 21 → Selects w (total Chip8.op_Fx15)
  | op_Fx18 {w : Nat} : w / 4096 % 16 = 15 → w % 256 = 24 → Selects w (total Chip8.op_Fx18)
  | op_Fx1E {w : Nat} : w / 4096 % 16 = 15 → w % 256 = 30 → Selects w (total Chip8.op_Fx1E)
  | op_Fx29 {w : Nat} : w / 4096 % 16 = 15 → w % 256 = 41 → Selects w (total Chip8.op_Fx29)
  | op_Fx33 {w : Nat} : w / 4096 % 16 = 15 → w % 256 = 51 → Selects w (Chip8.op_Fx33)
  | op_Fx55 {w : Nat} : w / 4096 % 16 = 15 → w % 256 = 85 → Selects w (Chip8.op_Fx55)
  | op_Fx65 {w : Nat} : w / 4096 % 16 = 15 → w % 256 = 101 → Selects w (Chip8.op_Fx65)

/-- The state `t` has the keypad, both timers, the memory and the framebuffer of `s`. -/
@[reducible] def SameIO (s t : Chip8) : Prop :=
  t.keypad = s.keypad ∧ t.delayTimer = s.delayTimer ∧ t.soundTimer = s.soundTimer ∧
    t.memory = s.memory ∧ t.video = s.video

/-- A new machine about to execute `0xF315` with `V3 = 77`. -/
def delayDemo : Chip8 :=
  { wordDemo 0xF3 0x15 with registers := store (fun _ => 0) 3 77 }

/-- A new machine about to execute `0xF318` with `V3 = 77`. -/
def soundDemo : Chip8 :=
  { wordDemo 0xF3 0x18 with registers := store (fun _ => 0) 3 77 }

/-- A new machine about to execute `0xF355` with `V0..V3 = 11, 22, 33, 44` and
`index = 0x300`. -/
def storeDemo : Chip8 :=
  { init false (fun _ => 0) with
      opcode := 0xF355, index := 0x300,
      registers := store (store (store (store (fun _ => 0) 0 11) 1 22) 2 33) 3 44 }

/-- A new machine about to execute `0xF365` with `index = 0x50`, the glyph table. -/
def loadDemo : Chip8 :=
  { init false (fun _ => 0) with opcode := 0xF365, index := 0x50 }

/-- The instruction words dispatched to a handler that assigns `pc`: `op_00EE`, `op_1nnn`,
`op_2nnn`, `op_3xkk`, `op_4xkk`, `op_5xy0`, `op_9xy0`, `op_Bnnn`, `op_Ex9E`, `op_ExA1` and
`op_Fx0A`. -/
def writesCounter (w : Nat) : Prop :=
  (w / 4096 % 16 = 0x0 ∧ w % 16 = 0xE) ∨ w / 4096 % 16 = 0x1 ∨ w / 4096 % 16 = 0x2 ∨
  w / 4096 % 16 = 0x3 ∨ w / 4096 % 16 = 0x4 ∨ w / 4096 % 16 = 0x5 ∨ w / 4096 % 16 = 0x9 ∨
  w / 4096 % 16 = 0xB ∨ (w / 4096 % 16 = 0xE ∧ (w % 16 = 0xE ∨ w % 16 = 0x1)) ∨
  (w / 4096 % 16 = 0xF ∧ w % 256 = 0x0A)

/-- The instruction words dispatched to a handler that neither assigns `pc` nor indexes
`memory`: `op_00E0`, `op_6xkk`, `op_7xkk`, `op_8xy0` to `op_8xy7`, `op_8xyE`, `op_Annn`,
`op_Cxkk`, `op_Fx07`, `op_Fx15`, `op_Fx18`, `op_Fx1E` and `op_Fx29`. -/
def straightLine (w : Nat) : Prop :=
  (w / 4096 % 16 = 0x0 ∧ w % 16 = 0x0) ∨ w / 4096 % 16 = 0x6 ∨ w / 4096 % 16 = 0x7 ∨
  (w / 4096 % 16 = 0x8 ∧ (w % 16 ≤ 0x7 ∨ w % 16 = 0xE)) ∨ w / 4096 % 16 = 0xA ∨
  w / 4096 % 16 = 0xC ∨
  (w / 4096 % 16 = 0xF ∧ (w % 256 = 0x07 ∨ w % 256 = 0x15 ∨ w % 256 = 0x18 ∨
    w % 256 = 0x1E ∨ w % 256 = 0x29))

/-- The instruction words dispatched to a handler that indexes `memory` from `index`
(`op_Dxyn`, `op_Fx33`, `op_Fx55`, `op_Fx65`), in a state where every such access is inside
the array. -/
def indexedInBounds (s : Chip8) (w : Nat) : Prop :=
  (w / 4096 % 16 = 0xD ∧ s.index + w % 16 ≤ MEMORY_SIZE) ∨
  (w / 4096 % 16 = 0xF ∧ w % 256 = 0x33 ∧ s.index + 2 < MEMORY_SIZE) ∨
  (w / 4096 % 16 = 0xF ∧ (w % 256 = 0x55 ∨ w % 256 = 0x65) ∧
    s.index + w / 256 % 16 < MEMORY_SIZE)

/-- The next instruction of `s` is not a BCD store (`Fx33`, which writes
`index .. index + 2`) or a range store (`Fx55`, which writes `index .. index + x`) whose
range meets the glyph table `0x050..0x09F`. -/
def sparesGlyphs (s : Chip8) : Prop :=
  (s.fetch / 4096 % 16 = 0xF ∧ s.fetch % 256 = 0x33 →
    s.index + 2 < 0x050 ∨ 0x09F < s.index) ∧
  (s.fetch / 4096 % 16 = 0xF ∧ s.fetch % 256 = 0x55 →
    s.index + s.fetch / 256 % 16 < 0x050 ∨ 0x09F < s.index)

/-- A program run from `s` to `t` in which every executed instruction spares the glyph
table: completed cycles, and between them the keypad writes, timer updates and draw-flag
clearing of the driver. -/
inductive SparingRun : Chip8 → Chip8 → Prop
  | done (s : Chip8) : SparingRun s s
  | step (s s2 t : Chip8) : sparesGlyphs s → cycle s = some s2 → SparingRun s2 t →
      SparingRun s t
  | keys (s t : Chip8) (keypad : Nat → Nat) :
      SparingRun ({ s with keypad := keypad } : Chip8) t → SparingRun s t
  | timers (s t : Chip8) (delayTimer soundTimer : Nat) :
      SparingRun ({ s with delayTimer := delayTimer, soundTimer := soundTimer } : Chip8) t →
      SparingRun s t
  | frame (s t : Chip8) : SparingRun ({ s with drawFlag := false } : Chip8) t →
      SparingRun s t

/-- A new machine loaded with the image `A3 00 F0 33`: set `index = 0x300`, then store
the BCD digits of `V0`. -/
def glyphRunDemo : Chip8 :=
  loadROM "demo" (some [0xA3, 0x00, 0xF0, 0x33]) (init false (fun _ => 0))

/-- The state `glyphRunDemo` is in after its first cycle. -/
def glyphRunDemo1 : Chip8 :=
  { glyphRunDemo with opcode := 0xA300, pc := 0x202, index := 0x300 }

/-- The state `glyphRunDemo` is in after its second cycle. -/
def glyphRunDemo2 : Chip8 :=
  { glyphRunDemo1 with opcode := 0xF033, pc := 0x204,
                       memory := store (store (store glyphRunDemo1.memory 0x300 0) 0x301 0)
                         0x302 0 }

/-- The machine `s` about to execute the instruction word `w` at address `p`: the program
counter is `p` and the two bytes of `w` are in memory there. -/
def poised (s : Chip8) (p w : Nat) : Chip8 :=
  { s with pc := p, memory := store (store s.memory p (w / 256)) (p + 1) (w % 256) }

/-- Successive calls: for each `(p, nnn)` in turn, a cycle executing `2nnn` at program
counter `p`. -/
def callAll : List (Nat × Nat) → Chip8 → Option Chip8
  | [], s => some s
  | c :: rest, s =>
    match cycle (poised s c.1 (0x2000 + c.2)) with
    | some s1 => callAll rest s1
    | none => none

/-- Successive returns: for each `q` in turn, a cycle executing `00EE` at program counter
`q`; the result lists the program counter after each return, in order, with the final
state. -/
def returnAll : List Nat → Chip8 → Option (List Nat × Chip8)
  | [], s => some ([], s)
  | q :: rest, s =>
    match cycle (poised s q 0x00EE) with
    | some s1 =>
      match returnAll rest s1 with
      | some r => some (s1.pc :: r.1, r.2)
      | none => none
    | none => none

/-- The decode-and-execute part of `cycle()`, for a fetched word `w`: store the word,
advance the program counter, and call through `table` on the leading nibble. -/
def execute (w : Nat) (s : Chip8) : Option Chip8 :=
  let s1 := { s with opcode := w, pc := (s.pc + 2) % 65536 }
  let instruction := (s1.opcode &&& 0xF000) >>> 12
  call (table instruction) s1

/-- A new machine loaded with the image `AF FF 60 35 F0 1E 60 C8 F0 55`: set
`index = 0xFFF`, add `V0 = 0x35` to it, set `V0 = 200`, then store `V0` at `index`. -/
def overrunDemo : Chip8 :=
  loadROM "demo" (some [0xAF, 0xFF, 0x60, 0x35, 0xF0, 0x1E, 0x60, 0xC8, 0xF0, 0x55])
    (init false (fun _ => 0))

/-- A new machine loaded with the image `AF FF 60 13 F0 1E 60 34 61 12 F1 55`: set
`index = 0xFFF`, add `V0 = 0x13` to it, set `V0 = 0x34` and `V1 = 0x12`, then store
`V0..V1` at `index`. -/
def counterDemo : Chip8 :=
  loadROM "demo"
    (some [0xAF, 0xFF, 0x60, 0x13, 0xF0, 0x1E, 0x60, 0x34, 0x61, 0x12, 0xF1, 0x55])
    (init false (fun _ => 0))

/-! ## Bit-field lemmas -/

theorem mask_shift (op k n : Nat) :
    (op &&& ((2 ^ n - 1) <<< k)) >>> k = (op >>> k) % 2 ^ n := by
  apply Nat.eq_of_testBit_eq
  intro i
  simp only [Nat.testBit_shiftRight, Nat.testBit_and, Nat.testBit_shiftLeft,
    Nat.testBit_mod_two_pow, Nat.testBit_two_pow_sub_one]
  by_cases h : i < n <;> simp [h]

theorem nibble_x (op : Nat) : (op &&& 0x0F00) >>> 8 = op / 256 % 16 := by
  have h := mask_shift op 8 4
  simp only [Nat.shiftRight_eq_div_pow] at h ⊢
  simpa using h

theorem nibble_y (op : Nat) : (op &&& 0x00F0) >>> 4 = op / 16 % 16 := by
  have h := mask_shift op 4 4
  simp only [Nat.shiftRight_eq_div_pow] at h ⊢
  simpa using h

theorem nibble_top (op : Nat) : (op &&& 0xF000) >>> 12 = op / 4096 % 16 := by
  have h := mask_shift op 12 4
  simp only [Nat.shiftRight_eq_div_pow] at h ⊢
  simpa using h

theorem and_000F (op : Nat) : op &&& 0x000F = op % 16 :=
  Nat.and_pow_two_sub_one_eq_mod op 4

theorem and_00FF (op : Nat) : op &&& 0x00FF = op % 256 :=
  Nat.and_pow_two_sub_one_eq_mod op 8

theorem and_0FFF (op : Nat) : op &&& 0x0FFF = op % 4096 :=
  Nat.and_pow_two_sub_one_eq_mod op 12

theorem shl8_or (hi lo : Nat) (h : lo < 256) : (hi <<< 8) ||| lo = 256 * hi + lo := by
  rw [Nat.shiftLeft_eq, Nat.mul_comm]
  exact (Nat.mul_add_lt_is_or (i := 8) h hi).symm

theorem Vx_eq (s : Chip8) : s.Vx = s.opcode / 256 % 16 := nibble_x s.opcode

theorem Vy_eq (s : Chip8) : s.Vy = s.opcode / 16 % 16 := nibble_y s.opcode

theorem address_eq (s : Chip8) : s.address = s.opcode % 4096 := and_0FFF s.opcode

theorem kk_eq (s : Chip8) : s.kk = s.opcode % 256 := and_00FF s.opcode

theorem store_same (arr : Nat → Nat) (i v : Nat) : store arr i v i = v := by
  simp [store]

theorem store_other (arr : Nat → Nat) (i v j : Nat) (h : j ≠ i) : store arr i v j = arr j := by
  simp [store, h]

theorem sub8_cast (a b : Nat) : ((sub8 a b : Nat) : Int) = ((a : Int) - (b : Int)) % 256 := by
  unfold sub8
  exact Int.toNat_of_nonneg (Int.emod_nonneg _ (by decide))

/-! ## Arithmetic instructions: carry, borrow and shift flags -/

/-- C1 (as amended): for register indices `x ≠ 0xF` and `y`, with 8-bit values `a = Vx` and
`b = Vy` before the instruction, the add instruction `8xy4` leaves register `x` holding
`(a + b) mod 256` and register `0xF` holding 1 if `a + b > 255` and 0 otherwise. -/
theorem op_8xy4_carry (x y : Nat) (hx : x < 16) (hy : y < 16) (hxF : x ≠ 0xF) (s : Chip8)
    (hop : s.opcode = 0x8004 + 0x100 * x + 0x10 * y)
    (ha : s.registers x < 256) (hb : s.registers y < 256) :
    (op_8xy4 s).registers x = (s.registers x + s.registers y) % 256 ∧
    (op_8xy4 s).registers 0xF = if s.registers x + s.registers y > 255 then 1 else 0 := by
  have hVx : s.Vx = x := by rw [Vx_eq, hop]; omega
  have hVy : s.Vy = y := by rw [Vy_eq, hop]; omega
  have hsum : (s.registers x + s.registers y) % 65536 = s.registers x + s.registers y := by
    omega
  simp only [op_8xy4, hVx, hVy, hsum, and_00FF]
  constructor
  · exact store_same _ _ _
  · rw [store_other _ _ _ _ (Ne.symm hxF), store_same]

/-- Witness for C1: `V0 = 200`, `V1 = 100`, instruction word `0x8014`. -/
theorem op_8xy4_carry_witness :
    (op_8xy4 (sample 0x8014 (store (store (fun _ => 0) 0 200) 1 100))).registers 0 = 44 ∧
    (op_8xy4 (sample 0x8014 (store (store (fun _ => 0) 0 200) 1 100))).registers 0xF = 1 :=
  op_8xy4_carry 0 1 (by decide) (by decide) (by decide)
    (sample 0x8014 (store (store (fun _ => 0) 0 200) 1 100)) (by decide) (by decide)
    (by decide)

/-- C1 as stated fails when `x = 0xF`: with `VF = 200`, `V0 = 100` and instruction word
`0x8F04` the sum is 300, so the claim wants register `0xF` to hold the carry 1, but the
result store comes after the flag store and register `0xF` ends up holding 44. -/
theorem op_8xy4_flag_overwritten :
    (op_8xy4 (sample 0x8F04 (store (store (fun _ => 0) 0xF 200) 0 100))).registers 0xF = 44 ∧
    ¬ ((op_8xy4 (sample 0x8F04 (store (store (fun _ => 0) 0xF 200) 0 100))).registers 0xF
        = (200 + 100) % 256 ∧
       (op_8xy4 (sample 0x8F04 (store (store (fun _ => 0) 0xF 200) 0 100))).registers 0xF
        = if 200 + 100 > 255 then 1 else 0) := by
  decide

/-- C2 (as amended): for register indices `x ≠ 0xF` and `y ≠ 0xF`, with 8-bit values
`a = Vx` and `b = Vy` before the instruction, the subtract instruction `8xy5` leaves
register `0xF` holding 1 if `a ≥ b` and 0 otherwise, and register `x` holding
`(a - b) mod 256`. -/
theorem op_8xy5_borrow (x y : Nat) (hx : x < 16) (hy : y < 16) (hxF : x ≠ 0xF)
    (hyF : y ≠ 0xF) (s : Chip8) (hop : s.opcode = 0x8005 + 0x100 * x + 0x10 * y) :
    (op_8xy5 s).registers 0xF = (if s.registers x ≥ s.registers y then 1 else 0) ∧
    ((op_8xy5 s).registers x : Int) =
      ((s.registers x : Int) - (s.registers y : Int)) % 256 := by
  have hVx : s.Vx = x := by rw [Vx_eq, hop]; omega
  have hVy : s.Vy = y := by rw [Vy_eq, hop]; omega
  simp only [op_8xy5, hVx, hVy]
  constructor
  · rw [store_other _ _ _ _ (Ne.symm hxF), store_same]
  · rw [store_same, store_other _ _ _ _ hxF, store_other _ _ _ _ hyF, sub8_cast]

/-- Witness for C2: `V0 = 3`, `V1 = 5`, instruction word `0x8015`. -/
theorem op_8xy5_borrow_witness :
    (op_8xy5 (sample 0x8015 (store (store (fun _ => 0) 0 3) 1 5))).registers 0xF = 0 ∧
    ((op_8xy5 (sample 0x8015 (store (store (fun _ => 0) 0 3) 1 5))).registers 0 : Int)
      = 254 :=
  op_8xy5_borrow 0 1 (by decide) (by decide) (by decide) (by decide)
    (sample 0x8015 (store (store (fun _ => 0) 0 3) 1 5)) (by decide)

/-- C2 as stated fails when `x = 0xF` and when `y = 0xF`.  With `VF = 5`, `V0 = 3` and
`0x8F05` register `0xF` ends up holding `(1 - 3) mod 256 = 254`, neither the flag 1 nor
the difference 2.  With `V0 = 5`, `VF = 3` and `0x80F5` register 0 ends up holding
`5 - 1 = 4` (the flag just written is subtracted), not the difference 2. -/
theorem op_8xy5_flag_register_operand :
    (op_8xy5 (sample 0x8F05 (store (store (fun _ => 0) 0xF 5) 0 3))).registers 0xF = 254 ∧
    ¬ ((op_8xy5 (sample 0x8F05 (store (store (fun _ => 0) 0xF 5) 0 3))).registers 0xF
        = (if 5 ≥ 3 then 1 else 0)) ∧
    (op_8xy5 (sample 0x80F5 (store (store (fun _ => 0) 0 5) 0xF 3))).registers 0 = 4 ∧
    ¬ (((op_8xy5 (sample 0x80F5 (store (store (fun _ => 0) 0 5) 0xF 3))).registers 0 : Int)
        = ((5 : Int) - 3) % 256) := by
  decide

/-- C3 at the failing input: with `V0 = V1 = 7`, reverse-subtract `0x8017` leaves register
`0xF` holding 0 (the comparison in `op_8xy7` is strict), whereas subtract `0x8015` on the
same registers leaves it holding 1; both leave register 0 holding 0. -/
theorem op_8xy7_equal_operands :
    (op_8xy7 (sample 0x8017 (store (store (fun _ => 0) 0 7) 1 7))).registers 0xF = 0 ∧
    (op_8xy7 (sample 0x8017 (store (store (fun _ => 0) 0 7) 1 7))).registers 0 = 0 ∧
    (op_8xy5 (sample 0x8015 (store (store (fun _ => 0) 0 7) 1 7))).registers 0xF = 1 ∧
    (op_8xy5 (sample 0x8015 (store (store (fun _ => 0) 0 7) 1 7))).registers 0 = 0 := by
  decide

/-- C4 (as amended): for a register index `x ≠ 0xF` holding an 8-bit value `v`, after
shift-right `8xy6` register `0xF` equals `v mod 2` and register `x` holds `v div 2`; after
shift-left `8xyE` register `0xF` equals `v div 128` and register `x` holds
`(2 * v) mod 256`. -/
theorem op_shift_flags (x y : Nat) (hx : x < 16) (hy : y < 16) (hxF : x ≠ 0xF)
    (s t : Chip8) (hs : s.opcode = 0x8006 + 0x100 * x + 0x10 * y)
    (ht : t.opcode = 0x800E + 0x100 * x + 0x10 * y)
    (hw : t.registers x < 256) :
    ((op_8xy6 s).registers 0xF = s.registers x % 2 ∧
      (op_8xy6 s).registers x = s.registers x / 2) ∧
    ((op_8xyE t).registers 0xF = t.registers x / 128 ∧
      (op_8xyE t).registers x = (2 * t.registers x) % 256) := by
  have hsx : s.Vx = x := by rw [Vx_eq, hs]; omega
  have htx : t.Vx = x := by rw [Vx_eq, ht]; omega
  have hmsb : (t.registers x &&& 0x80) >>> 7 = t.registers x / 128 := by
    have h := mask_shift (t.registers x) 7 1
    simp only [Nat.shiftRight_eq_div_pow] at h ⊢
    have h2 : (t.registers x &&& 128) / 2 ^ 7 = t.registers x / 2 ^ 7 % 2 := by simpa using h
    rw [h2]
    omega
  have hlsb : s.registers x &&& 0x1 = s.registers x % 2 := Nat.and_one_is_mod _
  simp only [op_8xy6, op_8xyE, hsx, htx]
  refine ⟨⟨?_, ?_⟩, ?_, ?_⟩
  · rw [store_other _ _ _ _ (Ne.symm hxF), store_same, hlsb]
    split <;> omega
  · rw [store_same, store_other _ _ _ _ hxF, Nat.shiftRight_eq_div_pow]
  · rw [store_other _ _ _ _ (Ne.symm hxF), store_same, hmsb]
  · rw [store_same, store_other _ _ _ _ hxF, Nat.shiftLeft_eq]
    simp [Nat.mul_comm]

/-- Witness for C4: `V3 = 0x85` under `0x8306` and under `0x830E`. -/
theorem op_shift_flags_witness :
    ((op_8xy6 (sample 0x8306 (store (fun _ => 0) 3 0x85))).registers 0xF = 1 ∧
      (op_8xy6 (sample 0x8306 (store (fun _ => 0) 3 0x85))).registers 3 = 0x42) ∧
    ((op_8xyE (sample 0x830E (store (fun _ => 0) 3 0x85))).registers 0xF = 1 ∧
      (op_8xyE (sample 0x830E (store (fun _ => 0) 3 0x85))).registers 3 = 0x0A) :=
  op_shift_flags 3 0 (by decide) (by decide) (by decide)
    (sample 0x8306 (store (fun _ => 0) 3 0x85)) (sample 0x830E (store (fun _ => 0) 3 0x85))
    (by decide) (by decide) (by decide)

/-- C4 as stated fails when `x = 0xF`.  With `VF = 1`, shift-right `0x8F06` leaves register
`0xF` holding 0: the flag 1 is stored first and is then itself shifted.  With `VF = 0x80`,
shift-left `0x8F0E` leaves register `0xF` holding 2, neither the flag 1 nor the shifted
value 0. -/
theorem op_shift_flag_register :
    (op_8xy6 (sample 0x8F06 (store (fun _ => 0) 0xF 1))).registers 0xF = 0 ∧
    ¬ ((op_8xy6 (sample 0x8F06 (store (fun _ => 0) 0xF 1))).registers 0xF = 1 % 2) ∧
    (op_8xyE (sample 0x8F0E (store (fun _ => 0) 0xF 0x80))).registers 0xF = 2 ∧
    ¬ ((op_8xyE (sample 0x8F0E (store (fun _ => 0) 0xF 0x80))).registers 0xF = 0x80 / 128) ∧
    ¬ ((op_8xyE (sample 0x8F0E (store (fun _ => 0) 0xF 0x80))).registers 0xF
        = (2 * 0x80) % 256) := by
  decide

/-! ## Fetch, dispatch, call and return -/

/-- With the program counter inside memory, a cycle stores the fetched word, advances the
counter by 2 and calls the handler selected by the leading nibble. -/
theorem cycle_eq (s : Chip8) (hpc : s.pc + 1 < 4096) :
    cycle s = call (table (s.fetch / 4096 % 16))
      { s with opcode := s.fetch, pc := s.pc + 2 } := by
  have h2 : (s.pc + 2) % 65536 = s.pc + 2 := by omega
  simp only [cycle, hpc, if_true, h2, nibble_top]

/-- The word `0x2nnn` in a state whose stack is full is rejected by `op_2nnn`. -/
theorem op_2nnn_full (s : Chip8) (hsp : 15 ≤ s.sp) :
    op_2nnn s = { s with cerr := s.cerr ++ ["Error: Stack overflow"] } := by
  have h : s.sp ≥ STACK_LEVELS - 1 := hsp
  simp only [op_2nnn, h, if_true]

/-- Below 15 the call pushes the current counter and jumps. -/
theorem op_2nnn_push (s : Chip8) (hsp : s.sp < 15) :
    op_2nnn s = { s with sp := s.sp + 1, stack := store s.stack (s.sp + 1) s.pc,
                         pc := s.opcode % 4096 } := by
  have h : ¬ s.sp ≥ STACK_LEVELS - 1 := by simp only [STACK_LEVELS]; omega
  have h1 : (s.sp + 1) % 256 = s.sp + 1 := by omega
  simp only [op_2nnn, h, if_false, h1, address_eq]

/-- Dispatch of a word `0x2nnn`. -/
theorem cycle_2nnn (s : Chip8) (nnn : Nat) (hn : nnn < 4096) (hpc : s.pc ≤ 4094)
    (hw : s.fetch = 0x2000 + nnn) :
    cycle s = some (op_2nnn { s with opcode := 0x2000 + nnn, pc := s.pc + 2 }) := by
  have hc := cycle_eq s (by omega)
  have ht : table (s.fetch / 4096 % 16) = some (total op_2nnn) := by
    have : s.fetch / 4096 % 16 = 2 := by omega
    rw [this]; rfl
  rw [ht, hw] at hc
  rw [hc]
  rfl

/-- A cycle on a call with a full stack. -/
theorem cycle_2nnn_full (s : Chip8) (nnn : Nat) (hn : nnn < 4096) (hpc : s.pc ≤ 4094)
    (hw : s.fetch = 0x2000 + nnn) (hsp : 15 ≤ s.sp) :
    cycle s = some { s with opcode := 0x2000 + nnn, pc := s.pc + 2,
                            cerr := s.cerr ++ ["Error: Stack overflow"] } := by
  rw [cycle_2nnn s nnn hn hpc hw,
    op_2nnn_full { s with opcode := 0x2000 + nnn, pc := s.pc + 2 } hsp]

/-- A cycle on a call with room on the stack. -/
theorem cycle_2nnn_push (s : Chip8) (nnn : Nat) (hn : nnn < 4096) (hpc : s.pc ≤ 4094)
    (hw : s.fetch = 0x2000 + nnn) (hsp : s.sp < 15) :
    cycle s = some { s with opcode := 0x2000 + nnn, sp := s.sp + 1,
                            stack := store s.stack (s.sp + 1) (s.pc + 2), pc := nnn } := by
  rw [cycle_2nnn s nnn hn hpc hw,
    op_2nnn_push { s with opcode := 0x2000 + nnn, pc := s.pc + 2 } hsp]
  have : (0x2000 + nnn) % 4096 = nnn := by omega
  simp only [this]

/-- Dispatch of the word `0x00EE`. -/
theorem cycle_00EE (s : Chip8) (hpc : s.pc ≤ 4094) (hw : s.fetch = 0x00EE) :
    cycle s = op_00EE { s with opcode := 0x00EE, pc := s.pc + 2 } := by
  have hc := cycle_eq s (by omega)
  have ht : table (s.fetch / 4096 % 16) = some Table0 := by
    rw [hw]; rfl
  have hE : table0 ((0x00EE : Nat) % 16) = some op_00EE := rfl
  rw [ht, hw] at hc
  rw [hc]
  simp only [call, Table0, and_000F, hE]

/-- A cycle on a return with an empty stack. -/
theorem cycle_00EE_empty (s : Chip8) (hpc : s.pc ≤ 4094) (hw : s.fetch = 0x00EE)
    (hsp : s.sp = 0) :
    cycle s = some { s with opcode := 0x00EE, pc := s.pc + 2,
                            cerr := s.cerr ++ ["Error: Stack underflow"] } := by
  rw [cycle_00EE s hpc hw]
  simp only [op_00EE, hsp, if_true]

/-- A cycle on a return with a stack pointer in `1..15`. -/
theorem cycle_00EE_pop (s : Chip8) (hpc : s.pc ≤ 4094) (hw : s.fetch = 0x00EE)
    (hsp : 0 < s.sp) (hsp2 : s.sp ≤ 15) :
    cycle s = some { s with opcode := 0x00EE, pc := s.stack s.sp, sp := s.sp - 1 } := by
  rw [cycle_00EE s hpc hw]
  have h0 : ¬ s.sp = 0 := by omega
  have h1 : s.sp < STACK_LEVELS := by simp only [STACK_LEVELS]; omega
  simp only [op_00EE, h0, h1, if_true, if_false]

/-- C5: in a state with `stack_pointer < 15` whose program counter `p ≤ 4094` holds a call
`2nnn` and whose memory at the target `nnn` holds the return instruction `00EE`, two cycles
complete and leave `program_counter = p + 2` and the stack pointer at its value before the
call. -/
theorem call_then_return (s : Chip8) (nnn : Nat) (hn : nnn ≤ 4094) (hsp : s.sp < 15)
    (hpc : s.pc ≤ 4094) (hw : s.fetch = 0x2000 + nnn)
    (hret : ({ s with pc := nnn } : Chip8).fetch = 0x00EE) :
    ∃ s2, cycles 2 s = some s2 ∧ s2.pc = s.pc + 2 ∧ s2.sp = s.sp := by
  have h1 := cycle_2nnn_push s nnn (by omega) hpc hw hsp
  have h2 := cycle_00EE_pop
    { s with opcode := 0x2000 + nnn, sp := s.sp + 1,
             stack := store s.stack (s.sp + 1) (s.pc + 2), pc := nnn }
    hn hret (Nat.succ_pos _) (by show s.sp + 1 ≤ 15; omega)
  refine ⟨{ s with opcode := 0x00EE, pc := s.pc + 2,
                   stack := store s.stack (s.sp + 1) (s.pc + 2) }, ?_, rfl, rfl⟩
  simp only [cycles, h1, h2, store_same, Nat.add_sub_cancel]

/-- Witness for C5: the image `22 04 00 00 00 EE` on a new machine. -/
theorem call_then_return_witness :
    ∃ s2, cycles 2 callReturnDemo = some s2 ∧ s2.pc = callReturnDemo.pc + 2 ∧
      s2.sp = callReturnDemo.sp :=
  call_then_return callReturnDemo 0x204 (by decide) (by decide) (by decide) (by decide)
    (by decide)

/-- C7: a cycle that executes a call `2nnn` with `stack_pointer = 15` is rejected: the only
fields that differ afterwards are the stored instruction word, the program counter, which
holds the fetch-advanced value `pc + 2` and not `nnn`, and the error output, which gains
the overflow report; stack, stack pointer, registers, index, memory, timers and display are
unchanged.  With `stack_pointer < 15` the call stores the fetch-advanced counter `pc + 2`
in stack slot `stack_pointer + 1`, increases the stack pointer by 1 and sets the program
counter to `nnn`. -/
theorem cycle_call (s : Chip8) (nnn : Nat) (hn : nnn < 4096) (hpc : s.pc ≤ 4094)
    (hw : s.fetch = 0x2000 + nnn) :
    (s.sp = 15 →
      cycle s = some { s with opcode := 0x2000 + nnn, pc := s.pc + 2,
                              cerr := s.cerr ++ ["Error: Stack overflow"] }) ∧
    (s.sp < 15 →
      cycle s = some { s with opcode := 0x2000 + nnn, sp := s.sp + 1,
                              stack := store s.stack (s.sp + 1) (s.pc + 2), pc := nnn }) :=
  ⟨fun hsp => cycle_2nnn_full s nnn hn hpc hw (by omega),
   fun hsp => cycle_2nnn_push s nnn hn hpc hw hsp⟩

/-- Witness for C7: the call `0x2204` at `0x200`, once with the stack pointer set to 15
and once on the new machine. -/
theorem cycle_call_witness :
    cycle { callReturnDemo with sp := 15 } =
      some { callReturnDemo with sp := 15, opcode := 0x2204, pc := 0x202,
                                 cerr := ["Error: Stack overflow"] } ∧
    cycle callReturnDemo =
      some { callReturnDemo with opcode := 0x2204, sp := 1,
                                 stack := store (fun _ => 0) 1 0x202, pc := 0x204 } :=
  ⟨(cycle_call { callReturnDemo with sp := 15 } 0x204 (by decide) (by decide)
      (by decide)).1 rfl,
   (cycle_call callReturnDemo 0x204 (by decide) (by decide) (by decide)).2 (by decide)⟩

/-- C8: a cycle that executes return `00EE` with `stack_pointer = 0` is rejected: the only
fields that differ afterwards are the stored instruction word, the program counter, which
holds the fetch-advanced value `pc + 2`, and the error output, which gains the underflow
report; stack, stack pointer, registers, index, memory and display are unchanged.  With
`0 < stack_pointer ≤ 15` the return sets the program counter to `stack[stack_pointer]` and
decreases the stack pointer by 1; that slot is the one in which the latest successful call
left its return address. -/
theorem cycle_return (s : Chip8) (hpc : s.pc ≤ 4094) (hw : s.fetch = 0x00EE) :
    (s.sp = 0 →
      cycle s = some { s with opcode := 0x00EE, pc := s.pc + 2,
                              cerr := s.cerr ++ ["Error: Stack underflow"] }) ∧
    (0 < s.sp → s.sp ≤ 15 →
      cycle s = some { s with opcode := 0x00EE, pc := s.stack s.sp, sp := s.sp - 1 }) ∧
    (∀ t : Chip8, t.sp < 15 → (op_2nnn t).stack (op_2nnn t).sp = t.pc) := by
  refine ⟨cycle_00EE_empty s hpc hw, cycle_00EE_pop s hpc hw, ?_⟩
  intro t ht
  rw [op_2nnn_push t ht]
  exact store_same _ _ _

/-- Witness for C8: the return `0x00EE` at `0x200`, once on the new machine and once with
one return address `0x300` on the stack. -/
theorem cycle_return_witness :
    cycle returnDemo =
      some { returnDemo with opcode := 0x00EE, pc := 0x202,
                             cerr := ["Error: Stack underflow"] } ∧
    cycle { returnDemo with sp := 1, stack := store (fun _ => 0) 1 0x300 } =
      some { returnDemo with opcode := 0x00EE, pc := 0x300, sp := 0,
                             stack := store (fun _ => 0) 1 0x300 } :=
  ⟨(cycle_return returnDemo (by decide) (by decide)).1 rfl,
   (cycle_return { returnDemo with sp := 1, stack := store (fun _ => 0) 1 0x300 }
      (by decide) (by decide)).2.1 (by decide) (by decide)⟩

/-! ## Nested calls and the stack-pointer invariant -/

theorem isCall_spec (s : Chip8) (h : isCall s = true) :
    s.pc ≤ 4094 ∧ s.fetch = 0x2000 + s.fetch % 4096 ∧ s.fetch % 4096 < 4096 := by
  simp only [isCall, Bool.and_eq_true, decide_eq_true_eq, MEMORY_SIZE] at h
  omega

theorem nestedCalls_succ (n : Nat) (s : Chip8) (h : nestedCalls (n + 1) s = true) :
    isCall s = true ∧ ∃ s1, cycle s = some s1 ∧ nestedCalls n s1 = true := by
  simp only [nestedCalls, Bool.and_eq_true] at h
  refine ⟨h.1, ?_⟩
  cases hc : cycle s with
  | none => rw [hc] at h; simp at h
  | some s1 => rw [hc] at h; exact ⟨s1, rfl, h.2⟩

/-- While the stack pointer stays below 15, `k` nested calls complete and raise it by
`k`. -/
theorem nestedCalls_run (k : Nat) : ∀ (m : Nat) (s : Chip8),
    nestedCalls (k + m) s = true → s.sp + k ≤ 15 →
    ∃ t, cycles k s = some t ∧ t.sp = s.sp + k ∧ nestedCalls m t = true := by
  induction k with
  | zero =>
    intro m s h _
    exact ⟨s, rfl, rfl, by simpa using h⟩
  | succ k ih =>
    intro m s h hsp
    have h1 : nestedCalls (k + m + 1) s = true := by
      have : k + 1 + m = k + m + 1 := by omega
      rw [this] at h; exact h
    obtain ⟨hcall, s1, hs1, hrest⟩ := nestedCalls_succ _ _ h1
    obtain ⟨hpc, hw, hn⟩ := isCall_spec s hcall
    have hpush := cycle_2nnn_push s (s.fetch % 4096) hn hpc hw (by omega)
    rw [hs1] at hpush
    have hs1sp : s1.sp = s.sp + 1 := by
      rw [Option.some.inj hpush]
    obtain ⟨t, ht, htsp, htm⟩ := ih m s1 hrest (by omega)
    refine ⟨t, ?_, by omega, htm⟩
    simp only [cycles, hs1, ht]

/-- C6 (as amended): starting from a machine with `stack_pointer = 0` whose next sixteen
executed instructions are all calls, each of the first 15 calls succeeds: the `k+1`-st call
(`k < 15`) is executed with `stack_pointer = k`, stores its return address `pc + 2` in stack
slot `k + 1`, raises the stack pointer to `k + 1` and jumps to `nnn`.  The 16th call is
rejected as a stack overflow: it leaves the stack contents and the stack pointer (15)
unchanged and only adds the overflow report. -/
theorem nested_calls_limit (s : Chip8) (hs : s.sp = 0) (h : nestedCalls 16 s = true) :
    (∀ k, k < 15 → ∃ t, cycles k s = some t ∧ t.sp = k ∧
      cycle t = some { t with opcode := t.fetch, sp := k + 1,
                              stack := store t.stack (k + 1) (t.pc + 2),
                              pc := t.fetch % 4096 }) ∧
    (∃ t, cycles 15 s = some t ∧ t.sp = 15 ∧
      cycle t = some { t with opcode := t.fetch, pc := t.pc + 2,
                              cerr := t.cerr ++ ["Error: Stack overflow"] }) := by
  constructor
  · intro k hk
    have h16 : nestedCalls (k + (15 - k + 1)) s = true := by
      have : k + (15 - k + 1) = 16 := by omega
      rw [this]; exact h
    obtain ⟨t, ht, htsp, htm⟩ := nestedCalls_run k (15 - k + 1) s h16 (by omega)
    obtain ⟨hcall, _⟩ := nestedCalls_succ _ _ htm
    obtain ⟨hpc, hw, hn⟩ := isCall_spec t hcall
    have hk2 : t.sp = k := by omega
    have hpush := cycle_2nnn_push t (t.fetch % 4096) hn hpc hw (by omega)
    rw [← hw, hk2] at hpush
    exact ⟨t, ht, hk2, hpush⟩
  · obtain ⟨t, ht, htsp, htm⟩ := nestedCalls_run 15 1 s h (by omega)
    obtain ⟨hcall, _⟩ := nestedCalls_succ _ _ htm
    obtain ⟨hpc, hw, hn⟩ := isCall_spec t hcall
    have hfull := cycle_2nnn_full t (t.fetch % 4096) hn hpc hw (by omega)
    rw [← hw] at hfull
    exact ⟨t, ht, by omega, hfull⟩

set_option maxRecDepth 100000 in
/-- Witness for C6: the chain of calls of `nestedDemo`. -/
theorem nested_calls_limit_witness :
    (∀ k, k < 15 → ∃ t, cycles k nestedDemo = some t ∧ t.sp = k ∧
      cycle t = some { t with opcode := t.fetch, sp := k + 1,
                              stack := store t.stack (k + 1) (t.pc + 2),
                              pc := t.fetch % 4096 }) ∧
    (∃ t, cycles 15 nestedDemo = some t ∧ t.sp = 15 ∧
      cycle t = some { t with opcode := t.fetch, pc := t.pc + 2,
                              cerr := t.cerr ++ ["Error: Stack overflow"] }) :=
  nested_calls_limit nestedDemo (by decide) (by decide!)

set_option maxRecDepth 100000 in
/-- C6 as stated fails on `nestedDemo`, a new machine running seventeen nested calls: the
first sixteen instructions executed are all calls, the 16th is the call `0x2240` at
`0x23C`, and after it the stack pointer is still 15, the program counter is the
fetch-advanced `0x23E` and not the target `0x240`, and the overflow has been reported. -/
theorem sixteenth_call_rejected :
    nestedCalls 16 nestedDemo = true ∧
    (cycles 15 nestedDemo).map fetch = some 0x2240 ∧
    (cycles 15 nestedDemo).map sp = some 15 ∧
    (cycles 16 nestedDemo).map sp = some 15 ∧
    (cycles 16 nestedDemo).map pc = some 0x23E ∧
    ¬ ((cycles 16 nestedDemo).map pc = some 0x240) ∧
    (cycles 16 nestedDemo).map cerr = some ["Error: Stack overflow"] := by
  decide!

/-! ## Case analysis of a cycle -/

theorem cycle_unfold (s : Chip8) (hpc : s.pc + 1 < MEMORY_SIZE) :
    cycle s = call (table (s.fetch / 4096 % 16))
      { s with opcode := s.fetch, pc := (s.pc + 2) % 65536 } := by
  simp only [cycle, hpc, if_true, nibble_top]

theorem call_ite {P : Prop} (c : Prop) [Decidable c] (a b : Option (Chip8 → Option Chip8))
    (s1 s2 : Chip8) (ha : call a s1 = some s2 → P) (hb : call b s1 = some s2 → P)
    (h : call (if c then a else b) s1 = some s2) : P := by
  by_cases hc : c
  · rw [if_pos hc] at h; exact ha h
  · rw [if_neg hc] at h; exact hb h

theorem exec_total (f : Chip8 → Chip8) (hf : ∀ s, Executes s (f s)) (s1 s2 : Chip8)
    (h : call (some (total f)) s1 = some s2) : Executes s1 s2 := by
  have h2 : f s1 = s2 := Option.some.inj h
  rw [← h2]
  exact hf s1

theorem exec_opt (f : Chip8 → Option Chip8) (hf : ∀ s s2, f s = some s2 → Executes s s2)
    (s1 s2 : Chip8) (h : call (some f) s1 = some s2) : Executes s1 s2 :=
  hf s1 s2 h

theorem exec_none (s1 s2 : Chip8) (h : call none s1 = some s2) : Executes s1 s2 :=
  Option.noConfusion h

theorem Table0_executes (s1 s2 : Chip8) (h : Table0 s1 = some s2) : Executes s1 s2 := by
  revert h
  unfold Table0 table0
  refine call_ite _ _ _ _ _ (exec_total op_00E0 Executes.op_00E0 s1 s2) ?_
  refine call_ite _ _ _ _ _ (exec_opt op_00EE Executes.op_00EE s1 s2) ?_
  exact exec_none s1 s2

theorem Table8_executes (s1 s2 : Chip8) (h : Table8 s1 = some s2) : Executes s1 s2 := by
  revert h
  unfold Table8 table8
  refine call_ite _ _ _ _ _ (exec_total op_8xy0 Executes.op_8xy0 s1 s2) ?_
  refine call_ite _ _ _ _ _ (exec_total op_8xy1 Executes.op_8xy1 s1 s2) ?_
  refine call_ite _ _ _ _ _ (exec_total op_8xy2 Executes.op_8xy2 s1 s2) ?_
  refine call_ite _ _ _ _ _ (exec_total op_8xy3 Executes.op_8xy3 s1 s2) ?_
  refine call_ite _ _ _ _ _ (exec_total op_8xy4 Executes.op_8xy4 s1 s2) ?_
  refine call_ite _ _ _ _ _ (exec_total op_8xy5 Executes.op_8xy5 s1 s2) ?_
  refine call_ite _ _ _ _ _ (exec_total op_8xy6 Executes.op_8xy6 s1 s2) ?_
  refine call_ite _ _ _ _ _ (exec_total op_8xy7 Executes.op_8xy7 s1 s2) ?_
  refine call_ite _ _ _ _ _ (exec_total op_8xyE Executes.op_8xyE s1 s2) ?_
  exact exec_none s1 s2

theorem TableE_executes (s1 s2 : Chip8) (h : TableE s1 = some s2) : Executes s1 s2 := by
  revert h
  unfold TableE tableE
  refine call_ite _ _ _ _ _ (exec_total op_ExA1 Executes.op_ExA1 s1 s2) ?_
  refine call_ite _ _ _ _ _ (exec_total op_Ex9E Executes.op_Ex9E s1 s2) ?_
  exact exec_none s1 s2

theorem TableF_executes (s1 s2 : Chip8) (h : TableF s1 = some s2) : Executes s1 s2 := by
  revert h
  unfold TableF tableF
  refine call_ite _ _ _ _ _ (exec_total op_Fx07 Executes.op_Fx07 s1 s2) ?_
  refine call_ite _ _ _ _ _ (exec_total op_Fx0A Executes.op_Fx0A s1 s2) ?_
  refine call_ite _ _ _ _ _ (exec_total op_Fx15 Executes.op_Fx15 s1 s2) ?_
  refine call_ite _ _ _ _ _ (exec_total op_Fx18 Executes.op_Fx18 s1 s2) ?_
  refine call_ite _ _ _ _ _ (exec_total op_Fx1E Executes.op_Fx1E s1 s2) ?_
  refine call_ite _ _ _ _ _ (exec_total op_Fx29 Executes.op_Fx29 s1 s2) ?_
  refine call_ite _ _ _ _ _ (exec_opt op_Fx33 Executes.op_Fx33 s1 s2) ?_
  refine call_ite _ _ _ _ _ (exec_opt op_Fx55 Executes.op_Fx55 s1 s2) ?_
  refine call_ite _ _ _ _ _ (exec_opt op_Fx65 Executes.op_Fx65 s1 s2) ?_
  exact exec_none s1 s2

theorem table_executes (n : Nat) (s1 s2 : Chip8) (h : call (table n) s1 = some s2) :
    Executes s1 s2 := by
  revert h
  unfold table
  refine call_ite _ _ _ _ _ (exec_opt Table0 Table0_executes s1 s2) ?_
  refine call_ite _ _ _ _ _ (exec_total op_1nnn Executes.op_1nnn s1 s2) ?_
  refine call_ite _ _ _ _ _ (exec_total op_2nnn Executes.op_2nnn s1 s2) ?_
  refine call_ite _ _ _ _ _ (exec_total op_3xkk Executes.op_3xkk s1 s2) ?_
  refine call_ite _ _ _ _ _ (exec_total op_4xkk Executes.op_4xkk s1 s2) ?_
  refine call_ite _ _ _ _ _ (exec_total op_5xy0 Executes.op_5xy0 s1 s2) ?_
  refine call_ite _ _ _ _ _ (exec_total op_6xkk Executes.op_6xkk s1 s2) ?_
  refine call_ite _ _ _ _ _ (exec_total op_7xkk Executes.op_7xkk s1 s2) ?_
  refine call_ite _ _ _ _ _ (exec_opt Table8 Table8_executes s1 s2) ?_
  refine call_ite _ _ _ _ _ (exec_total op_9xy0 Executes.op_9xy0 s1 s2) ?_
  refine call_ite _ _ _ _ _ (exec_total op_Annn Executes.op_Annn s1 s2) ?_
  refine call_ite _ _ _ _ _ (exec_total op_Bnnn Executes.op_Bnnn s1 s2) ?_
  refine call_ite _ _ _ _ _ (exec_total op_Cxkk Executes.op_Cxkk s1 s2) ?_
  refine call_ite _ _ _ _ _ (exec_opt op_Dxyn Executes.op_Dxyn s1 s2) ?_
  refine call_ite _ _ _ _ _ (exec_opt TableE TableE_executes s1 s2) ?_
  refine call_ite _ _ _ _ _ (exec_opt TableF TableF_executes s1 s2) ?_
  exact exec_none s1 s2

/-- A completed cycle fetched inside memory and ran one handler on the fetched state. -/
theorem cycle_executes (s s2 : Chip8) (h : cycle s = some s2) :
    s.pc + 1 < MEMORY_SIZE ∧
    Executes { s with opcode := s.fetch, pc := (s.pc + 2) % 65536 } s2 := by
  by_cases hpc : s.pc + 1 < MEMORY_SIZE
  · rw [cycle_unfold s hpc] at h
    exact ⟨hpc, table_executes _ _ _ h⟩
  · simp only [cycle, hpc, if_false] at h
    exact Option.noConfusion h

theorem op_00EE_sp (s s2 : Chip8) (h : op_00EE s = some s2) (hsp : s.sp ≤ 15) :
    s2.sp ≤ 15 := by
  unfold op_00EE at h
  split at h
  · rw [← Option.some.inj h]; exact hsp
  · split at h
    · rw [← Option.some.inj h]; exact Nat.le_trans (Nat.sub_le _ _) hsp
    · exact Option.noConfusion h

theorem op_2nnn_sp (s : Chip8) (hsp : s.sp ≤ 15) : (op_2nnn s).sp ≤ 15 := by
  by_cases h : s.sp < 15
  · rw [op_2nnn_push s h]; exact h
  · rw [op_2nnn_full s (by omega)]; exact hsp

theorem op_Dxyn_sp (s s2 : Chip8) (h : op_Dxyn s = some s2) : s2.sp = s.sp := by
  simp only [op_Dxyn] at h
  split at h
  · rw [← Option.some.inj h]
  · exact Option.noConfusion h

theorem op_Fx33_sp (s s2 : Chip8) (h : op_Fx33 s = some s2) : s2.sp = s.sp := by
  simp only [op_Fx33] at h
  split at h
  · rw [← Option.some.inj h]
  · exact Option.noConfusion h

theorem op_Fx55_sp (s s2 : Chip8) (h : op_Fx55 s = some s2) : s2.sp = s.sp := by
  simp only [op_Fx55] at h
  split at h
  · rw [← Option.some.inj h]
  · exact Option.noConfusion h

theorem op_Fx65_sp (s s2 : Chip8) (h : op_Fx65 s = some s2) : s2.sp = s.sp := by
  simp only [op_Fx65] at h
  split at h
  · rw [← Option.some.inj h]
  · exact Option.noConfusion h

/-- No handler takes the stack pointer above 15. -/
theorem executes_sp (s1 s2 : Chip8) (h : Executes s1 s2) (hsp : s1.sp ≤ 15) : s2.sp ≤ 15 := by
  cases h with
  | op_00EE _ h => exact op_00EE_sp s1 s2 h hsp
  | op_2nnn => exact op_2nnn_sp s1 hsp
  | op_Dxyn _ h => rw [op_Dxyn_sp s1 s2 h]; exact hsp
  | op_Fx33 _ h => rw [op_Fx33_sp s1 s2 h]; exact hsp
  | op_Fx55 _ h => rw [op_Fx55_sp s1 s2 h]; exact hsp
  | op_Fx65 _ h => rw [op_Fx65_sp s1 s2 h]; exact hsp
  | op_3xkk => unfold op_3xkk; split <;> exact hsp
  | op_4xkk => unfold op_4xkk; split <;> exact hsp
  | op_5xy0 => unfold op_5xy0; split <;> exact hsp
  | op_Ex9E => simp only [op_Ex9E]; split <;> [exact hsp; (split <;> exact hsp)]
  | op_ExA1 => simp only [op_ExA1]; split <;> [exact hsp; (split <;> exact hsp)]
  | op_Fx0A => unfold op_Fx0A; split <;> exact hsp
  | op_Fx29 => simp only [op_Fx29]; split <;> exact hsp
  | _ => exact hsp

theorem cycle_sp (s s2 : Chip8) (h : cycle s = some s2) (hsp : s.sp ≤ 15) : s2.sp ≤ 15 :=
  executes_sp _ _ (cycle_executes s s2 h).2 hsp

theorem loadROM_sp (filename : String) (file : Option (List Nat)) (s : Chip8) :
    (loadROM filename file s).sp = s.sp := by
  unfold loadROM
  split
  · rfl
  · split <;> rfl

theorem reachable_sp (s : Chip8) (h : Reachable s) : s.sp ≤ 15 := by
  induction h with
  | start => exact Nat.zero_le _
  | load s filename file _ ih => rw [loadROM_sp]; exact ih
  | step s s2 _ hc ih => exact cycle_sp s s2 hc ih
  | keys s keypad _ ih => exact ih
  | timers s d t _ ih => exact ih
  | frame s _ ih => exact ih

/-- C9 (as amended): in every state reachable from the initial state by cycles that stay
inside the arrays and the assigned table slots (any program image, any sequence of
completed cycles, any keypad and timer updates in between) `stack_pointer ≤ 15`; so the
slot a call writes (the new stack pointer) lies inside the 16-entry stack, and a return
never reads outside it (its bounds check in the model never fails). -/
theorem stack_pointer_invariant (s : Chip8) (h : Reachable s) :
    s.sp ≤ 15 ∧ (op_2nnn s).sp < STACK_LEVELS ∧ (op_00EE s).isSome = true := by
  have hsp := reachable_sp s h
  refine ⟨hsp, Nat.lt_succ_of_le (op_2nnn_sp s hsp), ?_⟩
  unfold op_00EE
  split
  · rfl
  · have h16 : s.sp < STACK_LEVELS := Nat.lt_succ_of_le hsp
    rw [if_pos h16]
    rfl

/-- Witness for C9: the state after the first cycle of `callReturnDemo`. -/
theorem stack_pointer_invariant_witness :
    afterCallDemo.sp ≤ 15 ∧ (op_2nnn afterCallDemo).sp < STACK_LEVELS ∧
    (op_00EE afterCallDemo).isSome = true :=
  stack_pointer_invariant afterCallDemo
    (Reachable.step callReturnDemo afterCallDemo
      (Reachable.load _ "demo" _ (Reachable.start false (fun _ => 0)))
      (cycle_2nnn_push callReturnDemo 0x204 (by decide) (by decide) (by decide) (by decide)))

/-! ## The draw instruction -/

theorem DrawSpec_empty (a : (Nat → Nat) × Nat) : DrawSpec (fun _ => False) a a :=
  ⟨fun _ h => h.elim, fun _ _ => rfl, fun ⟨_, h, _⟩ => h.elim, fun _ => rfl⟩

theorem DrawSpec_congr (hit hit2 : Nat → Prop) (a b : (Nat → Nat) × Nat)
    (heq : ∀ j, hit j ↔ hit2 j) (h : DrawSpec hit a b) : DrawSpec hit2 a b := by
  have : hit = hit2 := funext fun j => propext (heq j)
  rw [← this]; exact h

/-- Two pieces that plot disjoint sets of pixels compose. -/
theorem DrawSpec_comp (h1 h2 : Nat → Prop) (a b c : (Nat → Nat) × Nat)
    (hab : DrawSpec h1 a b) (hbc : DrawSpec h2 b c) (hdis : ∀ j, h1 j → h2 j → False) :
    DrawSpec (fun j => h1 j ∨ h2 j) a c := by
  obtain ⟨ab1, ab2, ab3, ab4⟩ := hab
  obtain ⟨bc1, bc2, bc3, bc4⟩ := hbc
  refine ⟨?_, ?_, ?_, ?_⟩
  · intro j hj
    rcases hj with hj | hj
    · rw [bc2 j (fun h => hdis j hj h), ab1 j hj]
    · rw [bc1 j hj, ab2 j (fun h => hdis j h hj)]
  · intro j hj
    rw [bc2 j (fun h => hj (Or.inr h)), ab2 j (fun h => hj (Or.inl h))]
  · rintro ⟨j, hj, hon⟩
    rcases hj with hj | hj
    · have hb : b.2 = 1 := ab3 ⟨j, hj, hon⟩
      by_cases hc : ∃ i, h2 i ∧ b.1 i = 0xFFFFFFFF
      · exact bc3 hc
      · rw [bc4 hc, hb]
    · apply bc3
      exact ⟨j, hj, by rw [ab2 j (fun h => hdis j h hj)]; exact hon⟩
  · intro hno
    have hno1 : ¬ ∃ j, h1 j ∧ a.1 j = 0xFFFFFFFF := fun ⟨j, hj, hon⟩ => hno ⟨j, Or.inl hj, hon⟩
    have hno2 : ¬ ∃ j, h2 j ∧ b.1 j = 0xFFFFFFFF := by
      rintro ⟨j, hj, hon⟩
      apply hno
      refine ⟨j, Or.inr hj, ?_⟩
      rw [← ab2 j (fun h => hdis j h hj)]; exact hon
    rw [bc4 hno2, ab4 hno1]

theorem drawPixel_spec (spriteByte xPos yPos row col : Nat) (st : (Nat → Nat) × Nat) :
    DrawSpec (drawHit spriteByte xPos yPos row col) st
      (drawPixel spriteByte xPos yPos row st col) := by
  unfold drawPixel
  by_cases hin : xPos + col < VIDEO_WIDTH ∧ yPos + row < VIDEO_HEIGHT
  · by_cases hbit : spriteByte &&& (0x80 >>> col) ≠ 0
    · simp only [hin, hbit, and_self, if_true, ne_eq, not_false_eq_true]
      refine ⟨?_, ?_, ?_, ?_⟩
      · intro j hj
        rw [hj.2.2.2]
        exact store_same _ _ _
      · intro j hj
        apply store_other
        intro hji
        exact hj ⟨hin.1, hin.2, hbit, hji⟩
      · rintro ⟨j, hj, hon⟩
        rw [hj.2.2.2] at hon
        simp only [hon, if_true]
      · intro hno
        have : ¬ st.1 ((yPos + row) * VIDEO_WIDTH + (xPos + col)) = 0xFFFFFFFF :=
          fun hon => hno ⟨_, ⟨hin.1, hin.2, hbit, rfl⟩, hon⟩
        simp only [this, if_false]
    · simp only [hin, hbit, and_self, if_true, if_false]
      exact DrawSpec_congr _ _ _ _ (fun j => ⟨fun h => h.elim, fun h => hbit h.2.2.1⟩)
        (DrawSpec_empty st)
  · simp only [hin, if_false]
    exact DrawSpec_congr _ _ _ _ (fun j => ⟨fun h => h.elim, fun h => hin ⟨h.1, h.2.1⟩⟩)
      (DrawSpec_empty st)

/-- The first `k` iterations of the column loop. -/
theorem drawCols_spec (spriteByte xPos yPos row : Nat) (st : (Nat → Nat) × Nat) (k : Nat) :
    DrawSpec (fun j => ∃ c, c < k ∧ drawHit spriteByte xPos yPos row c j) st
      ((List.range k).foldl (drawPixel spriteByte xPos yPos row) st) := by
  induction k with
  | zero =>
    exact DrawSpec_congr _ _ _ _ (fun j => ⟨fun h => h.elim, fun ⟨_, h, _⟩ => by omega⟩)
      (DrawSpec_empty st)
  | succ k ih =>
    rw [List.range_succ, List.foldl_append]
    have hstep := drawPixel_spec spriteByte xPos yPos row k
      ((List.range k).foldl (drawPixel spriteByte xPos yPos row) st)
    have hcomp := DrawSpec_comp _ _ _ _ _ ih hstep (by
      rintro j ⟨c, hc, hcj⟩ hk
      have e1 := hcj.2.2.2
      have e2 := hk.2.2.2
      simp only [VIDEO_WIDTH] at e1 e2
      omega)
    refine DrawSpec_congr _ _ _ _ ?_ hcomp
    intro j
    constructor
    · rintro (⟨c, hc, hcj⟩ | hk)
      · exact ⟨c, by omega, hcj⟩
      · exact ⟨k, by omega, hk⟩
    · rintro ⟨c, hc, hcj⟩
      by_cases hck : c = k
      · right; rw [← hck]; exact hcj
      · left; exact ⟨c, by omega, hcj⟩

theorem drawRow_spec (spriteByte xPos yPos row : Nat) (st : (Nat → Nat) × Nat) :
    DrawSpec (fun j => ∃ c, c < 8 ∧ drawHit spriteByte xPos yPos row c j) st
      (drawRow spriteByte xPos yPos row st) :=
  drawCols_spec spriteByte xPos yPos row st 8

/-- The row loop, started at `row` with `todo` rows left and all sprite bytes inside
memory, completes and plots the union of its rows. -/
theorem drawRows_spec (memory : Nat → Nat) (index xPos yPos : Nat) (todo : Nat) :
    ∀ (row : Nat) (st : (Nat → Nat) × Nat), index + row + todo ≤ MEMORY_SIZE →
    ∃ st2, drawRows memory index xPos yPos todo row st = some st2 ∧
      DrawSpec (fun j => ∃ r, row ≤ r ∧ r < row + todo ∧
        ∃ c, c < 8 ∧ drawHit (memory (index + r)) xPos yPos r c j) st st2 := by
  induction todo with
  | zero =>
    intro row st _
    refine ⟨st, rfl, ?_⟩
    exact DrawSpec_congr _ _ _ _ (fun j => ⟨fun h => h.elim, fun ⟨_, h1, h2, _⟩ => by omega⟩)
      (DrawSpec_empty st)
  | succ todo ih =>
    intro row st hb
    have hin : index + row < MEMORY_SIZE := by omega
    obtain ⟨st2, hrun, hspec⟩ := ih (row + 1)
      (drawRow (memory (index + row)) xPos yPos row st) (by omega)
    refine ⟨st2, ?_, ?_⟩
    · simp only [drawRows, hin, if_true]
      exact hrun
    · have hrow := drawRow_spec (memory (index + row)) xPos yPos row st
      have hcomp := DrawSpec_comp _ _ _ _ _ hrow hspec (by
        rintro j ⟨c, hc, hcj⟩ ⟨r, hr1, hr2, c2, hc2, hrj⟩
        have e1 := hcj.2.2.2
        have e2 := hrj.2.2.2
        have b1 := hcj.1
        have b2 := hrj.1
        simp only [VIDEO_WIDTH] at e1 e2 b1 b2
        omega)
      refine DrawSpec_congr _ _ _ _ ?_ hcomp
      intro j
      constructor
      · rintro (⟨c, hc, hcj⟩ | ⟨r, hr1, hr2, hrest⟩)
        · exact ⟨row, by omega, by omega, c, hc, hcj⟩
        · exact ⟨r, by omega, by omega, hrest⟩
      · rintro ⟨r, hr1, hr2, hrest⟩
        by_cases hrr : r = row
        · left; rw [hrr] at hrest; exact hrest
        · right; exact ⟨r, by omega, by omega, hrest⟩

/-- With the sprite inside memory `op_Dxyn` completes; it changes the framebuffer and
register `0xF` as `DrawSpec` describes and sets the draw flag. -/
theorem op_Dxyn_spec (s : Chip8) (hb : s.index + (s.opcode &&& 0x000F) ≤ MEMORY_SIZE) :
    ∃ st, op_Dxyn s = some { s with video := st.1, registers := store s.registers 0xF st.2,
                                    drawFlag := true } ∧
      DrawSpec (spriteHit s) (s.video, 0) st := by
  obtain ⟨st, hrun, hspec⟩ := drawRows_spec s.memory s.index (s.registers s.Vx % VIDEO_WIDTH)
    (s.registers s.Vy % VIDEO_HEIGHT) (s.opcode &&& 0x000F) 0 (s.video, 0) (by omega)
  refine ⟨st, ?_, ?_⟩
  · simp only [op_Dxyn, hrun]
  · refine DrawSpec_congr _ _ _ _ ?_ hspec
    intro j
    constructor
    · rintro ⟨r, _, hr, hrest⟩
      exact ⟨r, by omega, hrest⟩
    · rintro ⟨r, hr, hrest⟩
      exact ⟨r, Nat.zero_le _, by omega, hrest⟩

/-- C10: drawing the same sprite twice at the same location.  Let `s` hold a draw
instruction `Dxyn` with `index + n ≤ 4096`, and let `t` be a state that holds the same
instruction, the same index, the same `n` sprite bytes, the same origin coordinates
(`Vx mod 64`, `Vy mod 32`) and the framebuffer the first draw left.  Then both draws
complete, every one of the 2048 pixels has after the second draw the value it had before
the first, so a pixel that was off is off again, and the second draw sets register `0xF`
to 1 whenever the first draw turned at least one pixel on. -/
theorem double_draw (x y n : Nat) (hx : x < 16) (hy : y < 16) (hn : n < 16) (s t : Chip8)
    (hop : s.opcode = 0xD000 + 0x100 * x + 0x10 * y + n)
    (hbound : s.index + n ≤ 4096)
    (htop : t.opcode = s.opcode)
    (hindex : t.index = s.index)
    (hmem : ∀ r, r < n → t.memory (s.index + r) = s.memory (s.index + r))
    (hxPos : t.registers x % 64 = s.registers x % 64)
    (hyPos : t.registers y % 32 = s.registers y % 32)
    (hvideo : ∀ s2, op_Dxyn s = some s2 → t.video = s2.video) :
    ∃ s2 t2, op_Dxyn s = some s2 ∧ op_Dxyn t = some t2 ∧
      (∀ j, j < 2048 → t2.video j = s.video j) ∧
      (∀ j, j < 2048 → s.video j = 0 → t2.video j = 0) ∧
      ((∃ j, j < 2048 ∧ s.video j ≠ 0xFFFFFFFF ∧ s2.video j = 0xFFFFFFFF) →
        t2.registers 0xF = 1) := by
  have hsx : s.Vx = x := by rw [Vx_eq, hop]; omega
  have hsy : s.Vy = y := by rw [Vy_eq, hop]; omega
  have hsn : s.opcode &&& 0x000F = n := by rw [and_000F, hop]; omega
  have htx : t.Vx = x := by rw [Vx_eq, htop, hop]; omega
  have hty : t.Vy = y := by rw [Vy_eq, htop, hop]; omega
  have htn : t.opcode &&& 0x000F = n := by rw [htop]; exact hsn
  obtain ⟨st1, h1, sp1⟩ := op_Dxyn_spec s (by rw [hsn]; exact hbound)
  obtain ⟨st2, h2, sp2⟩ := op_Dxyn_spec t (by rw [htn, hindex]; exact hbound)
  have hv : t.video = st1.1 := hvideo _ h1
  have hhit : ∀ j, spriteHit t j ↔ spriteHit s j := by
    intro j
    simp only [spriteHit, htn, hsn, htx, hty, hsx, hsy, hindex, VIDEO_WIDTH, VIDEO_HEIGHT,
      hxPos, hyPos]
    constructor
    · rintro ⟨r, hr, hrest⟩
      rw [hmem r hr] at hrest
      exact ⟨r, hr, hrest⟩
    · rintro ⟨r, hr, hrest⟩
      rw [← hmem r hr] at hrest
      exact ⟨r, hr, hrest⟩
  have hback : ∀ j, st2.1 j = s.video j := by
    intro j
    by_cases hj : spriteHit s j
    · rw [sp2.1 j ((hhit j).2 hj)]
      show t.video j ^^^ 0xFFFFFFFF = s.video j
      rw [hv, sp1.1 j hj]
      exact Nat.xor_cancel_right _ _
    · rw [sp2.2.1 j (fun h => hj ((hhit j).1 h))]
      show t.video j = s.video j
      rw [hv, sp1.2.1 j hj]
  refine ⟨_, _, h1, h2, fun j _ => hback j, ?_, ?_⟩
  · intro j _ hoff
    show st2.1 j = 0
    rw [hback j, hoff]
  · rintro ⟨j, _, hwas, hnow⟩
    have hnow1 : st1.1 j = 0xFFFFFFFF := hnow
    have hj : spriteHit s j := by
      by_contra hnot
      rw [sp1.2.1 j hnot] at hnow1
      exact hwas hnow1
    have hflag : st2.2 = 1 := by
      apply sp2.2.2.1
      refine ⟨j, (hhit j).2 hj, ?_⟩
      show t.video j = 0xFFFFFFFF
      rw [hv]; exact hnow1
    show store t.registers 0xF st2.2 0xF = 1
    rw [store_same, hflag]

set_option maxRecDepth 100000 in
/-- Witness for C10: `drawDemo` and the state its draw leaves. -/
theorem double_draw_witness :
    ∃ s2 t2, op_Dxyn drawDemo = some s2 ∧ op_Dxyn drawDemo2 = some t2 ∧
      (∀ j, j < 2048 → t2.video j = drawDemo.video j) ∧
      (∀ j, j < 2048 → drawDemo.video j = 0 → t2.video j = 0) ∧
      ((∃ j, j < 2048 ∧ drawDemo.video j ≠ 0xFFFFFFFF ∧ s2.video j = 0xFFFFFFFF) →
        t2.registers 0xF = 1) :=
  double_draw 0 1 5 (by decide) (by decide) (by decide) drawDemo drawDemo2 (by decide)
    (by decide) (by decide) (by decide) (by decide) (by decide) (by decide)
    (fun s2 h => by unfold drawDemo2; rw [h]; rfl)

/-! ## Draw: collision flag and plotted pixels -/

theorem and_two_pow_ne_zero (b k : Nat) : b &&& 2 ^ k ≠ 0 ↔ b.testBit k = true := by
  rw [Nat.and_two_pow]
  cases b.testBit k <;> simp

/-- The mask test of the draw loop reads bit `7 - col` of the sprite byte. -/
theorem sprite_bit (b c : Nat) (hc : c < 8) :
    b &&& (0x80 >>> c) ≠ 0 ↔ b.testBit (7 - c) = true := by
  have h : 0x80 >>> c = 2 ^ (7 - c) := by
    interval_cases c <;> rfl
  rw [h]
  exact and_two_pow_ne_zero b (7 - c)

/-- On the screen, the pixels `spriteHit` describes are those at the positions `Plotted`
describes. -/
theorem spriteHit_iff (x y n : Nat) (s : Chip8) (hsx : s.Vx = x) (hsy : s.Vy = y)
    (hsn : s.opcode &&& 0x000F = n) (R C : Nat) (hR : R < 32) (hC : C < 64) :
    spriteHit s (R * 64 + C) ↔ Plotted s x y n R C := by
  simp only [spriteHit, drawHit, Plotted, hsx, hsy, hsn, VIDEO_WIDTH, VIDEO_HEIGHT]
  constructor
  · rintro ⟨r, hr, c, hc, h1, h2, h3, h4⟩
    have hR : R = s.registers y % 32 + r := by omega
    have hCc : C = s.registers x % 64 + c := by omega
    have e1 : R - s.registers y % 32 = r := by omega
    have e2 : C - s.registers x % 64 = c := by omega
    refine ⟨by omega, by omega, by omega, by omega, ?_⟩
    rw [e1, e2]
    exact (sprite_bit _ c hc).1 h3
  · rintro ⟨h1, h2, h3, h4, h5⟩
    exact ⟨R - s.registers y % 32, by omega, C - s.registers x % 64, by omega, by omega,
      by omega, (sprite_bit _ _ (by omega)).2 h5, by omega⟩

theorem xor_ones_ne (v : Nat) : v ^^^ 0xFFFFFFFF ≠ v := by
  intro h
  have h2 : v ^^^ (v ^^^ 0xFFFFFFFF) = 0xFFFFFFFF := Nat.xor_cancel_left v 0xFFFFFFFF
  rw [h, Nat.xor_self] at h2
  exact absurd h2 (by decide)

/-- C11: for a draw `Dxyn` with `index + n ≤ 4096` the instruction completes and
register `0xF` is 1 if and only if some set sprite bit (row `r < n`, column `c < 8`, bit
`7 - c` of `memory[index + r]`) has its target position `((Vy mod 32) + r, (Vx mod 64) + c)`
inside the screen on a pixel that was `0xFFFFFFFF` before the draw; otherwise it is 0,
whatever it held before (in particular when `n = 0`). -/
theorem draw_collision_flag (x y n : Nat) (hx : x < 16) (hy : y < 16) (hn : n < 16)
    (s : Chip8) (hop : s.opcode = 0xD000 + 0x100 * x + 0x10 * y + n)
    (hbound : s.index + n ≤ 4096) :
    ∃ s2, op_Dxyn s = some s2 ∧
      (s2.registers 0xF = 1 ↔ Collision s x y n) ∧
      (s2.registers 0xF = 0 ↔ ¬ Collision s x y n) := by
  have hsx : s.Vx = x := by rw [Vx_eq, hop]; omega
  have hsy : s.Vy = y := by rw [Vy_eq, hop]; omega
  have hsn : s.opcode &&& 0x000F = n := by rw [and_000F, hop]; omega
  obtain ⟨st, h1, sp⟩ := op_Dxyn_spec s (by rw [hsn]; exact hbound)
  have hcol : Collision s x y n ↔ ∃ j, spriteHit s j ∧ s.video j = 0xFFFFFFFF := by
    simp only [Collision, spriteHit, drawHit, hsx, hsy, hsn, VIDEO_WIDTH, VIDEO_HEIGHT]
    constructor
    · rintro ⟨r, c, hr, hc, hbit, hrow, hcolumn, hon⟩
      exact ⟨_, ⟨r, hr, c, hc, hcolumn, hrow, (sprite_bit _ c hc).2 hbit, rfl⟩, hon⟩
    · rintro ⟨j, ⟨r, hr, c, hc, hcolumn, hrow, hbit, hj⟩, hon⟩
      rw [hj] at hon
      exact ⟨r, c, hr, hc, (sprite_bit _ c hc).1 hbit, hrow, hcolumn, hon⟩
  have hflag : st.2 = 1 ∨ st.2 = 0 := by
    by_cases hc : ∃ j, spriteHit s j ∧ s.video j = 0xFFFFFFFF
    · exact Or.inl (sp.2.2.1 hc)
    · exact Or.inr (sp.2.2.2 hc)
  refine ⟨_, h1, ?_, ?_⟩
  · show store s.registers 0xF st.2 0xF = 1 ↔ _
    rw [store_same, hcol]
    constructor
    · intro h1
      by_contra hno
      have h0 : st.2 = 0 := sp.2.2.2 hno
      rw [h1] at h0
      exact absurd h0 (by decide)
    · exact sp.2.2.1
  · show store s.registers 0xF st.2 0xF = 0 ↔ _
    rw [store_same, hcol]
    constructor
    · intro h0 hyes
      have := sp.2.2.1 hyes
      rw [h0] at this
      exact absurd this (by decide)
    · exact fun hno => sp.2.2.2 hno

/-- C12: for a draw `Dxyn` with `index + n ≤ 4096`, `xPos = Vx mod 64` and
`yPos = Vy mod 32`, the instruction completes and sets the draw flag; the screen pixel at
row `R < 32`, column `C < 64` becomes `old XOR 0xFFFFFFFF` exactly when
`yPos ≤ R < yPos + n`, `xPos ≤ C < xPos + 8` and bit `7 - (C - xPos)` of
`memory[index + (R - yPos)]` is set, and every other pixel keeps its value: sprite pixels
past the right or bottom edge are dropped and do not wrap. -/
theorem draw_xor_clipped (x y n : Nat) (hx : x < 16) (hy : y < 16) (hn : n < 16)
    (s : Chip8) (hop : s.opcode = 0xD000 + 0x100 * x + 0x10 * y + n)
    (hbound : s.index + n ≤ 4096) :
    ∃ s2, op_Dxyn s = some s2 ∧ s2.drawFlag = true ∧
      ∀ R C, R < 32 → C < 64 →
        (s2.video (R * 64 + C) = s.video (R * 64 + C) ^^^ 0xFFFFFFFF ↔ Plotted s x y n R C) ∧
        (¬ Plotted s x y n R C → s2.video (R * 64 + C) = s.video (R * 64 + C)) := by
  have hsx : s.Vx = x := by rw [Vx_eq, hop]; omega
  have hsy : s.Vy = y := by rw [Vy_eq, hop]; omega
  have hsn : s.opcode &&& 0x000F = n := by rw [and_000F, hop]; omega
  obtain ⟨st, h1, sp⟩ := op_Dxyn_spec s (by rw [hsn]; exact hbound)
  refine ⟨_, h1, rfl, ?_⟩
  intro R C hR hC
  have hiff := spriteHit_iff x y n s hsx hsy hsn R C hR hC
  have hkeep : ¬ Plotted s x y n R C → st.1 (R * 64 + C) = s.video (R * 64 + C) :=
    fun hnot => sp.2.1 _ (fun h => hnot (hiff.1 h))
  refine ⟨⟨?_, fun hp => sp.1 _ (hiff.2 hp)⟩, hkeep⟩
  intro hflip
  by_contra hnot
  have hsame : st.1 (R * 64 + C) = s.video (R * 64 + C) := hkeep hnot
  have hflip2 : st.1 (R * 64 + C) = s.video (R * 64 + C) ^^^ 0xFFFFFFFF := hflip
  rw [hsame] at hflip2
  exact xor_ones_ne _ hflip2.symm

set_option maxRecDepth 100000 in
/-- Witness for C11: the draw of `drawDemo`. -/
theorem draw_collision_flag_witness :
    ∃ s2, op_Dxyn drawDemo = some s2 ∧
      (s2.registers 0xF = 1 ↔ Collision drawDemo 0 1 5) ∧
      (s2.registers 0xF = 0 ↔ ¬ Collision drawDemo 0 1 5) :=
  draw_collision_flag 0 1 5 (by decide) (by decide) (by decide) drawDemo (by decide)
    (by decide)

set_option maxRecDepth 100000 in
/-- Witness for C12: the draw of `drawDemo`. -/
theorem draw_xor_clipped_witness :
    ∃ s2, op_Dxyn drawDemo = some s2 ∧ s2.drawFlag = true ∧
      ∀ R C, R < 32 → C < 64 →
        (s2.video (R * 64 + C) = drawDemo.video (R * 64 + C) ^^^ 0xFFFFFFFF ↔
          Plotted drawDemo 0 1 5 R C) ∧
        (¬ Plotted drawDemo 0 1 5 R C →
          s2.video (R * 64 + C) = drawDemo.video (R * 64 + C)) :=
  draw_xor_clipped 0 1 5 (by decide) (by decide) (by decide) drawDemo (by decide)
    (by decide)

/-! ## Clear screen, the end-to-end example and unassigned table slots -/

/-- Dispatch of the word `0x00E0`. -/
theorem cycle_00E0 (s : Chip8) (hpc : s.pc ≤ 4094) (hw : s.fetch = 0x00E0) :
    cycle s = some { s with opcode := 0x00E0, pc := s.pc + 2, video := fun _ => 0 } := by
  have hc := cycle_eq s (by omega)
  have ht : table (s.fetch / 4096 % 16) = some Table0 := by
    rw [hw]; rfl
  have h0 : table0 ((0x00E0 : Nat) % 16) = some (total op_00E0) := rfl
  rw [ht, hw] at hc
  rw [hc]
  simp only [call, Table0, and_000F, h0]
  rfl

/-- C13 at the failing input: on `clearDemo` (all pixels lit, draw flag clear, `0x00E0` at
the program counter) the cycle completes and zeroes the pixels, but the draw flag is still
clear afterwards: `op_00E0` does not mark the frame dirty. -/
theorem clear_screen_flag_not_set :
    (cycle clearDemo).map (fun s => [s.video 0, s.video 1000, s.video 2047]) =
      some [0, 0, 0] ∧
    clearDemo.drawFlag = false ∧
    (cycle clearDemo).map drawFlag = some false := by
  decide

/-- The fetched word, from the two bytes at the program counter. -/
theorem fetch_bytes (s : Chip8) (hi lo : Nat) (hhi : hi < 256) (hlo : lo < 256)
    (h1 : s.memory s.pc = hi) (h2 : s.memory (s.pc + 1) = lo) : s.fetch = 256 * hi + lo := by
  unfold fetch
  rw [h1, h2, shl8_or hi lo hlo]
  omega

/-- A cycle in terms of the fetched word `w`. -/
theorem cycle_table (s : Chip8) (w : Nat) (hpc : s.pc ≤ 4094) (hw : s.fetch = w) :
    cycle s = call (table (w / 4096 % 16)) { s with opcode := w, pc := s.pc + 2 } := by
  rw [cycle_eq s (by omega), hw]

/-- A cycle whose word selects a total handler directly in the main table. -/
theorem cycle_main (s : Chip8) (w : Nat) (f : Chip8 → Chip8) (hpc : s.pc ≤ 4094)
    (hw : s.fetch = w) (ht : table (w / 4096 % 16) = some (total f)) :
    cycle s = some (f { s with opcode := w, pc := s.pc + 2 }) := by
  rw [cycle_table s w hpc hw, ht]
  rfl

/-- A cycle whose word is in family `0x0`. -/
theorem cycle_family0 (s : Chip8) (w : Nat) (hpc : s.pc ≤ 4094) (hw : s.fetch = w)
    (hf : w / 4096 % 16 = 0) :
    cycle s = call (table0 (w % 16)) { s with opcode := w, pc := s.pc + 2 } := by
  have ht : table 0 = some Table0 := rfl
  rw [cycle_table s w hpc hw, hf, ht]
  simp only [call, Table0, and_000F]

/-- A cycle whose word is in family `0x8`. -/
theorem cycle_family8 (s : Chip8) (w : Nat) (hpc : s.pc ≤ 4094) (hw : s.fetch = w)
    (hf : w / 4096 % 16 = 8) :
    cycle s = call (table8 (w % 16)) { s with opcode := w, pc := s.pc + 2 } := by
  have ht : table 8 = some Table8 := rfl
  rw [cycle_table s w hpc hw, hf, ht]
  simp only [call, Table8, and_000F]

/-- A cycle whose word is in family `0xE`. -/
theorem cycle_familyE (s : Chip8) (w : Nat) (hpc : s.pc ≤ 4094) (hw : s.fetch = w)
    (hf : w / 4096 % 16 = 14) :
    cycle s = call (tableE (w % 16)) { s with opcode := w, pc := s.pc + 2 } := by
  have ht : table 14 = some TableE := rfl
  rw [cycle_table s w hpc hw, hf, ht]
  simp only [call, TableE, and_000F]

/-- A cycle whose word is in family `0xF`. -/
theorem cycle_familyF (s : Chip8) (w : Nat) (hpc : s.pc ≤ 4094) (hw : s.fetch = w)
    (hf : w / 4096 % 16 = 15) :
    cycle s = call (tableF (w % 256)) { s with opcode := w, pc := s.pc + 2 } := by
  have ht : table 15 = some TableF := rfl
  rw [cycle_table s w hpc hw, hf, ht]
  simp only [call, TableF, and_00FF]

/-- C17 at failing inputs: on a new machine whose first instruction word is `0x8128`,
`0x812F`, `0x00EF`, `0xE195`, `0xF100` or `0xF1FF` the cycle has no result: the handler is
read from a table slot that `setupTable` never assigns (or that lies past the end of the
table), and calling it has no defined behaviour. -/
theorem unassigned_slot_undefined :
    (cycle (wordDemo 0x81 0x28)).isNone = true ∧
    (cycle (wordDemo 0x81 0x2F)).isNone = true ∧
    (cycle (wordDemo 0x00 0xEF)).isNone = true ∧
    (cycle (wordDemo 0xE1 0x95)).isNone = true ∧
    (cycle (wordDemo 0xF1 0x00)).isNone = true ∧
    (cycle (wordDemo 0xF1 0xFF)).isNone = true := by
  decide

/-- A cycle on a load-immediate `6xkk`. -/
theorem cycle_6xkk (s : Chip8) (x k : Nat) (hx : x < 16) (hk : k < 256) (hpc : s.pc ≤ 4094)
    (hw : s.fetch = 0x6000 + 0x100 * x + k) :
    cycle s = some { s with opcode := 0x6000 + 0x100 * x + k, pc := s.pc + 2,
                            registers := store s.registers x k } := by
  have ht : table ((0x6000 + 0x100 * x + k) / 4096 % 16) = some (total op_6xkk) := by
    have : (0x6000 + 0x100 * x + k) / 4096 % 16 = 6 := by omega
    rw [this]; rfl
  rw [cycle_main s _ op_6xkk hpc hw ht]
  have e1 : (0x6000 + 0x100 * x + k) / 256 % 16 = x := by omega
  have e2 : (0x6000 + 0x100 * x + k) % 256 = k := by omega
  simp only [op_6xkk, Vx, kk, nibble_x, and_00FF, e1, e2]

/-- A cycle on an add `8xy4`. -/
theorem cycle_8xy4 (s : Chip8) (x y : Nat) (hx : x < 16) (hy : y < 16) (hpc : s.pc ≤ 4094)
    (hw : s.fetch = 0x8004 + 0x100 * x + 0x10 * y) :
    cycle s = some (op_8xy4 { s with opcode := 0x8004 + 0x100 * x + 0x10 * y,
                                     pc := s.pc + 2 }) := by
  have h4 : table8 ((0x8004 + 0x100 * x + 0x10 * y) % 16) = some (total op_8xy4) := by
    have : (0x8004 + 0x100 * x + 0x10 * y) % 16 = 4 := by omega
    rw [this]; rfl
  rw [cycle_family8 s _ hpc hw (by omega), h4]
  rfl

/-- Any machine whose program counter is `0x200` and whose memory there holds
`6A 05 6B 03 8A B4` completes three cycles with registers `A` = 8, `B` = 3, `0xF` = 0 and
the program counter at `0x206`. -/
theorem add_program (s : Chip8) (hpc : s.pc = 0x200)
    (h0 : s.memory 0x200 = 0x6A) (h1 : s.memory 0x201 = 0x05)
    (h2 : s.memory 0x202 = 0x6B) (h3 : s.memory 0x203 = 0x03)
    (h4 : s.memory 0x204 = 0x8A) (h5 : s.memory 0x205 = 0xB4) :
    (cycles 3 s).map (fun t => [t.registers 0xA, t.registers 0xB, t.registers 0xF, t.pc]) =
      some [8, 3, 0, 0x206] := by
  obtain ⟨t1, c1, p1, m1, r1⟩ : ∃ t, cycle s = some t ∧ t.pc = 0x202 ∧
      t.memory = s.memory ∧ t.registers = store s.registers 0xA 5 :=
    ⟨_, cycle_6xkk s 0xA 5 (by decide) (by decide) (by omega)
      (fetch_bytes s 0x6A 0x05 (by decide) (by decide) (by rw [hpc]; exact h0)
        (by rw [hpc]; exact h1)), by show s.pc + 2 = _; omega, rfl, rfl⟩
  obtain ⟨t2, c2, p2, m2, r2⟩ : ∃ t, cycle t1 = some t ∧ t.pc = 0x204 ∧
      t.memory = s.memory ∧ t.registers = store (store s.registers 0xA 5) 0xB 3 :=
    ⟨_, cycle_6xkk t1 0xB 3 (by decide) (by decide) (by omega)
      (fetch_bytes t1 0x6B 0x03 (by decide) (by decide) (by rw [p1, m1]; exact h2)
        (by rw [p1, m1]; exact h3)), by show t1.pc + 2 = _; omega, m1,
      by show store t1.registers 0xB 3 = _; rw [r1]⟩
  have c3 := cycle_8xy4 t2 0xA 0xB (by decide) (by decide) (by omega)
    (fetch_bytes t2 0x8A 0xB4 (by decide) (by decide) (by rw [p2, m2]; exact h4)
      (by rw [p2, m2]; exact h5))
  have e3 : cycles 3 s = some (op_8xy4 { t2 with opcode := 0x8004 + 0x100 * 0xA + 0x10 * 0xB,
                                                 pc := t2.pc + 2 }) := by
    simp only [cycles, c1, c2, c3]
  have vX : ((0x8004 + 0x100 * 0xA + 0x10 * 0xB) &&& 0x0F00) >>> 8 = 10 := by decide
  have vY : ((0x8004 + 0x100 * 0xA + 0x10 * 0xB) &&& 0x00F0) >>> 4 = 11 := by decide
  rw [e3]
  simp only [Option.map, op_8xy4, Vx, Vy, vX, vY, r2, p2, store, and_00FF]
  simp

/-- C15: on a new machine (whatever its starting draw flag and random engine) whose memory
from `0x200` holds `6A 05 6B 03 8A B4`, three cycles complete and leave register `A` = 8,
register `B` = 3, register `0xF` = 0 and the program counter at `0x206`. -/
theorem add_example (drawFlag : Bool) (randGen : Nat → Nat) :
    (cycles 3 (addDemo drawFlag randGen)).map
        (fun s => [s.registers 0xA, s.registers 0xB, s.registers 0xF, s.pc]) =
      some [8, 3, 0, 0x206] :=
  add_program (addDemo drawFlag randGen) rfl rfl rfl rfl rfl rfl rfl

/-! ## Key wait, key skips with an invalid key, glyph lookup -/

/-- With no key down `op_Fx0A` rewinds the program counter by 2. -/
theorem op_Fx0A_none (s : Chip8) (h : ∀ i, i < 16 → s.keypad i = 0) :
    op_Fx0A s = { s with pc := (s.pc + 65536 - 2) % 65536 } := by
  have hf : (List.range 16).find? (fun i => s.keypad i != 0) = none := by
    rw [List.find?_range_eq_none]
    intro i hi
    simp [h i hi]
  simp only [op_Fx0A, hf]

/-- With key `i` the lowest one down `op_Fx0A` stores `i` in register `Vx`. -/
theorem op_Fx0A_some (s : Chip8) (i : Nat) (hi : i < 16) (hdown : s.keypad i ≠ 0)
    (hlow : ∀ j, j < i → s.keypad j = 0) :
    op_Fx0A s = { s with registers := store s.registers s.Vx i } := by
  have hf : (List.range 16).find? (fun i => s.keypad i != 0) = some i := by
    rw [List.find?_range_eq_some]
    refine ⟨by simp [hdown], List.mem_range.2 hi, ?_⟩
    intro j hj
    simp [hlow j hj]
  simp only [op_Fx0A, hf]

/-- Dispatch of a word `0xFx0A`. -/
theorem cycle_Fx0A (s : Chip8) (x : Nat) (hx : x < 16) (hpc : s.pc ≤ 4094)
    (hw : s.fetch = 0xF00A + 0x100 * x) :
    cycle s = some (op_Fx0A { s with opcode := 0xF00A + 0x100 * x, pc := s.pc + 2 }) := by
  have ht : tableF ((0xF00A + 0x100 * x) % 256) = some (total op_Fx0A) := by
    have : (0xF00A + 0x100 * x) % 256 = 0x0A := by omega
    rw [this]; rfl
  rw [cycle_familyF s _ hpc hw (by omega), ht]
  rfl

/-- A cycle on `Fx0A` with no key down changes only the stored instruction word. -/
theorem cycle_Fx0A_wait (s : Chip8) (x : Nat) (hx : x < 16) (hpc : s.pc ≤ 4094)
    (hw : s.fetch = 0xF00A + 0x100 * x) (h : ∀ i, i < 16 → s.keypad i = 0) :
    cycle s = some { s with opcode := 0xF00A + 0x100 * x } := by
  rw [cycle_Fx0A s x hx hpc hw,
    op_Fx0A_none { s with opcode := 0xF00A + 0x100 * x, pc := s.pc + 2 } h]
  have e : (s.pc + 2 + 65536 - 2) % 65536 = s.pc := by omega
  simp only [e]

/-- Repeated cycles on `Fx0A` with no key down stay on the instruction. -/
theorem cycles_Fx0A_wait (x : Nat) (hx : x < 16) (n : Nat) : ∀ s : Chip8, s.pc ≤ 4094 →
    s.fetch = 0xF00A + 0x100 * x → (∀ i, i < 16 → s.keypad i = 0) →
    ∃ t, cycles n s = some t ∧ t.pc = s.pc ∧ t.registers = s.registers ∧
      t.keypad = s.keypad ∧ t.memory = s.memory := by
  induction n with
  | zero => intro s _ _ _; exact ⟨s, rfl, rfl, rfl, rfl, rfl⟩
  | succ n ih =>
    intro s hpc hw h
    have hc := cycle_Fx0A_wait s x hx hpc hw h
    obtain ⟨t, ht, h1, h2, h3, h4⟩ := ih { s with opcode := 0xF00A + 0x100 * x } hpc hw h
    exact ⟨t, by simp only [cycles, hc, ht], h1, h2, h3, h4⟩

/-- C14: let the program counter `p ≤ 4094` point at an instruction `Fx0A`.  If no keypad
flag is down, one cycle leaves the program counter equal to `p` (only the stored
instruction word changes), and any number of repeated cycles completes with the program
counter still `p` and the registers unchanged.  If key `i` is the lowest-indexed key that
is down, one cycle leaves the program counter at `p + 2` and register `x` holding `i`. -/
theorem wait_for_key (x : Nat) (hx : x < 16) (s : Chip8) (hpc : s.pc ≤ 4094)
    (hw : s.fetch = 0xF00A + 0x100 * x) :
    ((∀ i, i < 16 → s.keypad i = 0) →
      cycle s = some { s with opcode := 0xF00A + 0x100 * x } ∧
      ∀ n, ∃ t, cycles n s = some t ∧ t.pc = s.pc ∧ t.registers = s.registers) ∧
    (∀ i, i < 16 → s.keypad i ≠ 0 → (∀ j, j < i → s.keypad j = 0) →
      cycle s = some { s with opcode := 0xF00A + 0x100 * x, pc := s.pc + 2,
                              registers := store s.registers x i }) := by
  constructor
  · intro h
    refine ⟨cycle_Fx0A_wait s x hx hpc hw h, fun n => ?_⟩
    obtain ⟨t, ht, h1, h2, _⟩ := cycles_Fx0A_wait x hx n s hpc hw h
    exact ⟨t, ht, h1, h2⟩
  · intro i hi hdown hlow
    rw [cycle_Fx0A s x hx hpc hw,
      op_Fx0A_some { s with opcode := 0xF00A + 0x100 * x, pc := s.pc + 2 } i hi hdown hlow]
    have e : (0xF00A + 0x100 * x) / 256 % 16 = x := by omega
    simp only [Vx, nibble_x, e]

/-- Witness for C14: `0xF30A` on a new machine, with no key down and with keys 5 and 9
down. -/
theorem wait_for_key_witness :
    (cycle keyWaitDemo = some { keyWaitDemo with opcode := 0xF00A + 0x100 * 3 } ∧
      ∀ n, ∃ t, cycles n keyWaitDemo = some t ∧ t.pc = keyWaitDemo.pc ∧
        t.registers = keyWaitDemo.registers) ∧
    cycle keyDownDemo = some { keyDownDemo with opcode := 0xF00A + 0x100 * 3,
                                                pc := keyDownDemo.pc + 2,
                                                registers := store keyDownDemo.registers 3 5 } :=
  ⟨(wait_for_key 3 (by decide) keyWaitDemo (by decide) (by decide)).1 (by decide),
   (wait_for_key 3 (by decide) keyDownDemo (by decide) (by decide)).2 5 (by decide)
     (by decide) (by decide)⟩

/-- Dispatch of a word `0xEx9E`. -/
theorem cycle_Ex9E (s : Chip8) (x : Nat) (hx : x < 16) (hpc : s.pc ≤ 4094)
    (hw : s.fetch = 0xE09E + 0x100 * x) :
    cycle s = some (op_Ex9E { s with opcode := 0xE09E + 0x100 * x, pc := s.pc + 2 }) := by
  have ht : tableE ((0xE09E + 0x100 * x) % 16) = some (total op_Ex9E) := by
    have : (0xE09E + 0x100 * x) % 16 = 0xE := by omega
    rw [this]; rfl
  rw [cycle_familyE s _ hpc hw (by omega), ht]
  rfl

/-- Dispatch of a word `0xExA1`. -/
theorem cycle_ExA1 (s : Chip8) (x : Nat) (hx : x < 16) (hpc : s.pc ≤ 4094)
    (hw : s.fetch = 0xE0A1 + 0x100 * x) :
    cycle s = some (op_ExA1 { s with opcode := 0xE0A1 + 0x100 * x, pc := s.pc + 2 }) := by
  have ht : tableE ((0xE0A1 + 0x100 * x) % 16) = some (total op_ExA1) := by
    have : (0xE0A1 + 0x100 * x) % 16 = 0x1 := by omega
    rw [this]; rfl
  rw [cycle_familyE s _ hpc hw (by omega), ht]
  rfl

/-- C18: in a state in which register `x` holds a value `≥ 16`, a cycle executing `Ex9E`
or `ExA1` completes without consulting the keypad: the program counter is the
fetch-advanced value `pc + 2` (no skip), the instruction word is stored, the invalid key
is reported on the error output, and every other field, the keypad included, is
unchanged. -/
theorem invalid_key_index (x : Nat) (hx : x < 16) (s : Chip8) (hpc : s.pc ≤ 4094)
    (hkey : 16 ≤ s.registers x) :
    (s.fetch = 0xE09E + 0x100 * x →
      cycle s = some { s with opcode := 0xE09E + 0x100 * x, pc := s.pc + 2,
                              cerr := s.cerr ++ ["Error: Invalid key value " ++
                                toString (s.registers x) ++ " in op_Ex9E"] }) ∧
    (s.fetch = 0xE0A1 + 0x100 * x →
      cycle s = some { s with opcode := 0xE0A1 + 0x100 * x, pc := s.pc + 2,
                              cerr := s.cerr ++ ["Error: Invalid key value " ++
                                toString (s.registers x) ++ " in op_ExA1"] }) := by
  constructor
  · intro hw
    rw [cycle_Ex9E s x hx hpc hw]
    have e : (0xE09E + 0x100 * x) / 256 % 16 = x := by omega
    have hk : s.registers x ≥ KEY_COUNT := hkey
    simp only [op_Ex9E, Vx, nibble_x, e, hk, if_true]
  · intro hw
    rw [cycle_ExA1 s x hx hpc hw]
    have e : (0xE0A1 + 0x100 * x) / 256 % 16 = x := by omega
    have hk : s.registers x ≥ KEY_COUNT := hkey
    simp only [op_ExA1, Vx, nibble_x, e, hk, if_true]

/-- Witness for C18: `0xE39E` and `0xE3A1` on a new machine with `V3 = 20`. -/
theorem invalid_key_index_witness :
    cycle badKeyDemo9E =
      some { badKeyDemo9E with opcode := 0xE09E + 0x100 * 3, pc := badKeyDemo9E.pc + 2,
                               cerr := badKeyDemo9E.cerr ++ ["Error: Invalid key value " ++
                                 toString (badKeyDemo9E.registers 3) ++ " in op_Ex9E"] } ∧
    cycle badKeyDemoA1 =
      some { badKeyDemoA1 with opcode := 0xE0A1 + 0x100 * 3, pc := badKeyDemoA1.pc + 2,
                               cerr := badKeyDemoA1.cerr ++ ["Error: Invalid key value " ++
                                 toString (badKeyDemoA1.registers 3) ++ " in op_ExA1"] } :=
  ⟨(invalid_key_index 3 (by decide) badKeyDemo9E (by decide) (by decide)).1 (by decide),
   (invalid_key_index 3 (by decide) badKeyDemoA1 (by decide) (by decide)).2 (by decide)⟩

/-- Dispatch of a word `0xFx29`. -/
theorem cycle_Fx29 (s : Chip8) (x : Nat) (hx : x < 16) (hpc : s.pc ≤ 4094)
    (hw : s.fetch = 0xF029 + 0x100 * x) :
    cycle s = some (op_Fx29 { s with opcode := 0xF029 + 0x100 * x, pc := s.pc + 2 }) := by
  have ht : tableF ((0xF029 + 0x100 * x) % 256) = some (total op_Fx29) := by
    have : (0xF029 + 0x100 * x) % 256 = 0x29 := by omega
    rw [this]; rfl
  rw [cycle_familyF s _ hpc hw (by omega), ht]
  rfl

set_option maxRecDepth 100000 in
/-- The constructor leaves byte `i` of `fontSet` at address `0x050 + i`. -/
theorem init_glyphs : ∀ i, i < 80 →
    (init false (fun _ => 0)).memory (0x50 + i) = fontSet.getD i 0 := by
  decide!

/-- C19: let a cycle execute `Fx29`.  If register `x` holds a digit `d ≤ 0xF`, the cycle
sets `index = 0x050 + 5 * d` (and only stores the instruction word and advances the program
counter besides); on a machine whose glyph table is as the constructor left it, the five
bytes at that address are bytes `5 * d .. 5 * d + 4` of `fontSet`, the glyph of digit `d`.
If register `x` holds a value `> 0xF`, the index is unchanged: the cycle only stores the
instruction word, advances the program counter and reports the invalid digit. -/
theorem glyph_lookup (x : Nat) (hx : x < 16) (s : Chip8) (hpc : s.pc ≤ 4094)
    (hw : s.fetch = 0xF029 + 0x100 * x) :
    (s.registers x ≤ 0xF →
      cycle s = some { s with opcode := 0xF029 + 0x100 * x, pc := s.pc + 2,
                              index := 0x050 + 5 * s.registers x } ∧
      ((∀ i, i < 80 → s.memory (0x50 + i) = (init false (fun _ => 0)).memory (0x50 + i)) →
        ∀ k, k < 5 → s.memory (0x050 + 5 * s.registers x + k) =
          fontSet.getD (5 * s.registers x + k) 0)) ∧
    (0xF < s.registers x →
      cycle s = some { s with opcode := 0xF029 + 0x100 * x, pc := s.pc + 2,
                              cerr := s.cerr ++ ["Error: Invalid digit " ++
                                toString (s.registers x) ++
                                " in op_Fx29. Only 0-F are valid."] }) := by
  have e : (0xF029 + 0x100 * x) / 256 % 16 = x := by omega
  constructor
  · intro hd
    constructor
    · rw [cycle_Fx29 s x hx hpc hw]
      have hk : ¬ s.registers x > 0xF := by omega
      simp only [op_Fx29, Vx, nibble_x, e, hk, if_false, FONTSET_START_ADDRESS]
    · intro hg k hk
      have h1 := hg (5 * s.registers x + k) (by omega)
      have h2 := init_glyphs (5 * s.registers x + k) (by omega)
      rw [← Nat.add_assoc] at h1 h2
      rw [h1, h2]
  · intro hd
    rw [cycle_Fx29 s x hx hpc hw]
    have hk : s.registers x > 0xF := hd
    simp only [op_Fx29, Vx, nibble_x, e, hk, if_true]

/-- Witness for C19: `0xF329` on a new machine with `V3 = 0xB` and with `V3 = 0x10`. -/
theorem glyph_lookup_witness :
    (cycle glyphDemo = some { glyphDemo with opcode := 0xF029 + 0x100 * 3,
                                             pc := glyphDemo.pc + 2,
                                             index := 0x050 + 5 * glyphDemo.registers 3 } ∧
      ((∀ i, i < 80 →
          glyphDemo.memory (0x50 + i) = (init false (fun _ => 0)).memory (0x50 + i)) →
        ∀ k, k < 5 → glyphDemo.memory (0x050 + 5 * glyphDemo.registers 3 + k) =
          fontSet.getD (5 * glyphDemo.registers 3 + k) 0)) ∧
    cycle badGlyphDemo =
      some { badGlyphDemo with opcode := 0xF029 + 0x100 * 3, pc := badGlyphDemo.pc + 2,
                               cerr := badGlyphDemo.cerr ++ ["Error: Invalid digit " ++
                                 toString (badGlyphDemo.registers 3) ++
                                 " in op_Fx29. Only 0-F are valid."] } :=
  ⟨(glyph_lookup 3 (by decide) glyphDemo (by decide) (by decide)).1 (by decide),
   (glyph_lookup 3 (by decide) badGlyphDemo (by decide) (by decide)).2 (by decide)⟩

/-! ## BCD store and program loading -/

/-- C20: for a register index `x` holding an 8-bit value `v` and an index `I` with
`I + 2 ≤ 4095`, the instruction `Fx33` completes; afterwards `memory[I] ≤ 2`,
`memory[I+1] ≤ 9`, `memory[I+2] ≤ 9` and
`100 * memory[I] + 10 * memory[I+1] + memory[I+2] = v`, so the three bytes are the
hundreds, tens and ones digits of `v`; no other memory byte changes, and neither the
registers, nor the index, nor any other field changes. -/
theorem bcd_store (x : Nat) (hx : x < 16) (s : Chip8) (hop : s.opcode = 0xF033 + 0x100 * x)
    (hv : s.registers x < 256) (hI : s.index + 2 ≤ 4095) :
    ∃ s2, op_Fx33 s = some s2 ∧
      s2.memory s.index ≤ 2 ∧ s2.memory (s.index + 1) ≤ 9 ∧ s2.memory (s.index + 2) ≤ 9 ∧
      100 * s2.memory s.index + 10 * s2.memory (s.index + 1) + s2.memory (s.index + 2)
        = s.registers x ∧
      (∀ a, a ≠ s.index → a ≠ s.index + 1 → a ≠ s.index + 2 → s2.memory a = s.memory a) ∧
      s2.registers = s.registers ∧ s2.index = s.index ∧
      s2 = { s with memory := s2.memory } := by
  have hsx : s.Vx = x := by rw [Vx_eq, hop]; omega
  have hin : s.index + 2 < MEMORY_SIZE := by simp only [MEMORY_SIZE]; omega
  refine ⟨{ s with memory := store (store (store s.memory s.index (s.registers x / 100))
      (s.index + 1) ((s.registers x / 10) % 10)) (s.index + 2) (s.registers x % 10) },
    ?_, ?_, ?_, ?_, ?_, ?_, rfl, rfl, rfl⟩
  · simp only [op_Fx33, hsx, hin, if_true]
  · show store _ _ _ _ ≤ 2
    rw [store_other _ _ _ _ (by omega), store_other _ _ _ _ (by omega), store_same]
    omega
  · show store _ _ _ _ ≤ 9
    rw [store_other _ _ _ _ (by omega), store_same]
    omega
  · show store _ _ _ _ ≤ 9
    rw [store_same]
    omega
  · show 100 * store _ _ _ _ + 10 * store _ _ _ _ + store _ _ _ _ = _
    rw [store_same, store_other _ _ _ (s.index + 1) (by omega), store_same,
      store_other _ _ _ s.index (by omega), store_other _ _ _ s.index (by omega), store_same]
    omega
  · intro a h0 h1 h2
    show store _ _ _ _ = _
    rw [store_other _ _ _ _ h2, store_other _ _ _ _ h1, store_other _ _ _ _ h0]

/-- Witness for C20: `0xF333` with `V3 = 254` and `index = 0x300`. -/
theorem bcd_store_witness :
    ∃ s2, op_Fx33 bcdDemo = some s2 ∧
      s2.memory bcdDemo.index ≤ 2 ∧ s2.memory (bcdDemo.index + 1) ≤ 9 ∧
      s2.memory (bcdDemo.index + 2) ≤ 9 ∧
      100 * s2.memory bcdDemo.index + 10 * s2.memory (bcdDemo.index + 1) +
        s2.memory (bcdDemo.index + 2) = bcdDemo.registers 3 ∧
      (∀ a, a ≠ bcdDemo.index → a ≠ bcdDemo.index + 1 → a ≠ bcdDemo.index + 2 →
        s2.memory a = bcdDemo.memory a) ∧
      s2.registers = bcdDemo.registers ∧ s2.index = bcdDemo.index ∧
      s2 = { bcdDemo with memory := s2.memory } :=
  bcd_store 3 (by decide) bcdDemo (by decide) (by decide) (by decide)

/-- The copy loop writes byte `i` of the image at `a + i` and nothing outside
`a .. a + length - 1`. -/
theorem copyBytes_spec (bs : List Nat) : ∀ (a : Nat) (mem : Nat → Nat),
    (∀ i (h : i < bs.length), copyBytes bs a mem (a + i) = bs.get ⟨i, h⟩) ∧
    (∀ j, j < a ∨ a + bs.length ≤ j → copyBytes bs a mem j = mem j) := by
  induction bs with
  | nil =>
    intro a mem
    exact ⟨fun i h => absurd h (Nat.not_lt_zero i), fun _ _ => rfl⟩
  | cons b bs ih =>
    intro a mem
    obtain ⟨ih1, ih2⟩ := ih (a + 1) (store mem a b)
    constructor
    · intro i h
      cases i with
      | zero =>
        show copyBytes bs (a + 1) (store mem a b) (a + 0) = b
        rw [ih2 (a + 0) (Or.inl (by omega))]
        exact store_same _ _ _
      | succ i =>
        have h2 : i < bs.length := by simpa using h
        show copyBytes bs (a + 1) (store mem a b) (a + (i + 1)) = bs.get ⟨i, h2⟩
        have e : a + (i + 1) = a + 1 + i := by omega
        rw [e]
        exact ih1 i h2
    · intro j hj
      have hlen : (b :: bs).length = bs.length + 1 := rfl
      show copyBytes bs (a + 1) (store mem a b) j = mem j
      rw [ih2 j (by omega)]
      exact store_other _ _ _ _ (by omega)

/-- C16: for every byte sequence `bytes` of length `n`: if `n ≤ 3584` the load copies byte
`i` to `memory[0x200 + i]` for every `i < n`, leaves every other memory byte unchanged and
changes no other field; if `n > 3584` the load is rejected: it only reports the oversize
image on the error output and the machine state is unchanged. -/
theorem load_program (filename : String) (bytes : List Nat) (s : Chip8) :
    (bytes.length ≤ 3584 →
      (∀ i (h : i < bytes.length),
        (loadROM filename (some bytes) s).memory (0x200 + i) = bytes.get ⟨i, h⟩) ∧
      (∀ a, a < 0x200 ∨ 0x200 + bytes.length ≤ a →
        (loadROM filename (some bytes) s).memory a = s.memory a) ∧
      loadROM filename (some bytes) s =
        { s with memory := (loadROM filename (some bytes) s).memory }) ∧
    (3584 < bytes.length →
      loadROM filename (some bytes) s =
        { s with cerr := s.cerr ++
            ["Error: ROM file too large. Maximum size is 3584 bytes."] }) := by
  constructor
  · intro hn
    have hfit : ¬ START_ADDRESS + bytes.length > MEMORY_SIZE := by
      simp only [START_ADDRESS, MEMORY_SIZE]; omega
    have hl : loadROM filename (some bytes) s =
        { s with memory := copyBytes bytes START_ADDRESS s.memory } := by
      simp only [loadROM, hfit, if_false]
    obtain ⟨h1, h2⟩ := copyBytes_spec bytes START_ADDRESS s.memory
    rw [hl]
    exact ⟨h1, h2, rfl⟩
  · intro hn
    have hbig : START_ADDRESS + bytes.length > MEMORY_SIZE := by
      simp only [START_ADDRESS, MEMORY_SIZE]; omega
    simp only [loadROM, hbig, if_true]
    rfl

theorem image_length (n : Nat) : (image n).length = n := by
  unfold image
  exact List.length_replicate n _

/-- Witness for C16: a 3584-byte image just fits, a 3500-byte image is accepted and a
3600-byte image is rejected, on a new machine. -/
theorem load_program_witness :
    ((∀ i (h : i < (image 3584).length),
        (loadROM "rom" (some (image 3584)) (init false (fun _ => 0))).memory (0x200 + i) =
          (image 3584).get ⟨i, h⟩) ∧
      (∀ a, a < 0x200 ∨ 0x200 + (image 3584).length ≤ a →
        (loadROM "rom" (some (image 3584)) (init false (fun _ => 0))).memory a =
          (init false (fun _ => 0)).memory a) ∧
      loadROM "rom" (some (image 3584)) (init false (fun _ => 0)) =
        { init false (fun _ => 0) with
            memory := (loadROM "rom" (some (image 3584)) (init false (fun _ => 0))).memory }) ∧
    ((∀ i (h : i < (image 3500).length),
        (loadROM "rom" (some (image 3500)) (init false (fun _ => 0))).memory (0x200 + i) =
          (image 3500).get ⟨i, h⟩) ∧
      (∀ a, a < 0x200 ∨ 0x200 + (image 3500).length ≤ a →
        (loadROM "rom" (some (image 3500)) (init false (fun _ => 0))).memory a =
          (init false (fun _ => 0)).memory a) ∧
      loadROM "rom" (some (image 3500)) (init false (fun _ => 0)) =
        { init false (fun _ => 0) with
            memory := (loadROM "rom" (some (image 3500)) (init false (fun _ => 0))).memory }) ∧
    loadROM "rom" (some (image 3600)) (init false (fun _ => 0)) =
      { init false (fun _ => 0) with
          cerr := (init false (fun _ => 0)).cerr ++
            ["Error: ROM file too large. Maximum size is 3584 bytes."] } :=
  ⟨(load_program "rom" (image 3584) (init false (fun _ => 0))).1
     (Nat.le_of_eq (image_length 3584)),
   (load_program "rom" (image 3500) (init false (fun _ => 0))).1 (by rw [image_length]; decide),
   (load_program "rom" (image 3600) (init false (fun _ => 0))).2 (by rw [image_length]; decide)⟩

/-! ## Which handler an instruction word selects -/

theorem call_ite_c {P : Prop} (c : Prop) [Decidable c] (a b : Option (Chip8 → Option Chip8))
    (s1 s2 : Chip8) (ha : c → call a s1 = some s2 → P) (hb : call b s1 = some s2 → P)
    (h : call (if c then a else b) s1 = some s2) : P := by
  by_cases hc : c
  · rw [if_pos hc] at h; exact ha hc h
  · rw [if_neg hc] at h; exact hb h

theorem Table0_selects (w : Nat) (s1 s2 : Chip8) (hop : s1.opcode = w)
    (hf : w / 4096 % 16 = 0) (h : Table0 s1 = some s2) :
    ∃ g, Selects w g ∧ g s1 = some s2 := by
  unfold Table0 at h
  rw [and_000F, hop] at h
  revert h
  unfold table0
  refine call_ite_c _ _ _ _ _ (fun hc h => ⟨_, Selects.op_00E0 hf hc, h⟩) ?_
  refine call_ite_c _ _ _ _ _ (fun hc h => ⟨_, Selects.op_00EE hf hc, h⟩) ?_
  exact fun h => Option.noConfusion h

theorem Table8_selects (w : Nat) (s1 s2 : Chip8) (hop : s1.opcode = w)
    (hf : w / 4096 % 16 = 8) (h : Table8 s1 = some s2) :
    ∃ g, Selects w g ∧ g s1 = some s2 := by
  unfold Table8 at h
  rw [and_000F, hop] at h
  revert h
  unfold table8
  refine call_ite_c _ _ _ _ _ (fun hc h => ⟨_, Selects.op_8xy0 hf hc, h⟩) ?_
  refine call_ite_c _ _ _ _ _ (fun hc h => ⟨_, Selects.op_8xy1 hf hc, h⟩) ?_
  refine call_ite_c _ _ _ _ _ (fun hc h => ⟨_, Selects.op_8xy2 hf hc, h⟩) ?_
  refine call_ite_c _ _ _ _ _ (fun hc h => ⟨_, Selects.op_8xy3 hf hc, h⟩) ?_
  refine call_ite_c _ _ _ _ _ (fun hc h => ⟨_, Selects.op_8xy4 hf hc, h⟩) ?_
  refine call_ite_c _ _ _ _ _ (fun hc h => ⟨_, Selects.op_8xy5 hf hc, h⟩) ?_
  refine call_ite_c _ _ _ _ _ (fun hc h => ⟨_, Selects.op_8xy6 hf hc, h⟩) ?_
  refine call_ite_c _ _ _ _ _ (fun hc h => ⟨_, Selects.op_8xy7 hf hc, h⟩) ?_
  refine call_ite_c _ _ _ _ _ (fun hc h => ⟨_, Selects.op_8xyE hf hc, h⟩) ?_
  exact fun h => Option.noConfusion h

theorem TableE_selects (w : Nat) (s1 s2 : Chip8) (hop : s1.opcode = w)
    (hf : w / 4096 % 16 = 14) (h : TableE s1 = some s2) :
    ∃ g, Selects w g ∧ g s1 = some s2 := by
  unfold TableE at h
  rw [and_000F, hop] at h
  revert h
  unfold tableE
  refine call_ite_c _ _ _ _ _ (fun hc h => ⟨_, Selects.op_ExA1 hf hc, h⟩) ?_
  refine call_ite_c _ _ _ _ _ (fun hc h => ⟨_, Selects.op_Ex9E hf hc, h⟩) ?_
  exact fun h => Option.noConfusion h

theorem TableF_selects (w : Nat) (s1 s2 : Chip8) (hop : s1.opcode = w)
    (hf : w / 4096 % 16 = 15) (h : TableF s1 = some s2) :
    ∃ g, Selects w g ∧ g s1 = some s2 := by
  unfold TableF at h
  rw [and_00FF, hop] at h
  revert h
  unfold tableF
  refine call_ite_c _ _ _ _ _ (fun hc h => ⟨_, Selects.op_Fx07 hf hc, h⟩) ?_
  refine call_ite_c _ _ _ _ _ (fun hc h => ⟨_, Selects.op_Fx0A hf hc, h⟩) ?_
  refine call_ite_c _ _ _ _ _ (fun hc h => ⟨_, Selects.op_Fx15 hf hc, h⟩) ?_
  refine call_ite_c _ _ _ _ _ (fun hc h => ⟨_, Selects.op_Fx18 hf hc, h⟩) ?_
  refine call_ite_c _ _ _ _ _ (fun hc h => ⟨_, Selects.op_Fx1E hf hc, h⟩) ?_
  refine call_ite_c _ _ _ _ _ (fun hc h => ⟨_, Selects.op_Fx29 hf hc, h⟩) ?_
  refine call_ite_c _ _ _ _ _ (fun hc h => ⟨_, Selects.op_Fx33 hf hc, h⟩) ?_
  refine call_ite_c _ _ _ _ _ (fun hc h => ⟨_, Selects.op_Fx55 hf hc, h⟩) ?_
  refine call_ite_c _ _ _ _ _ (fun hc h => ⟨_, Selects.op_Fx65 hf hc, h⟩) ?_
  exact fun h => Option.noConfusion h

/-- A completed call through the main table ran a handler the word selects. -/
theorem table_selects (w : Nat) (s1 s2 : Chip8) (hop : s1.opcode = w)
    (h : call (table (w / 4096 % 16)) s1 = some s2) :
    ∃ g, Selects w g ∧ g s1 = some s2 := by
  revert h
  unfold table
  refine call_ite_c _ _ _ _ _ (fun hc h => Table0_selects w s1 s2 hop hc h) ?_
  refine call_ite_c _ _ _ _ _ (fun hc h => ⟨_, Selects.op_1nnn hc, h⟩) ?_
  refine call_ite_c _ _ _ _ _ (fun hc h => ⟨_, Selects.op_2nnn hc, h⟩) ?_
  refine call_ite_c _ _ _ _ _ (fun hc h => ⟨_, Selects.op_3xkk hc, h⟩) ?_
  refine call_ite_c _ _ _ _ _ (fun hc h => ⟨_, Selects.op_4xkk hc, h⟩) ?_
  refine call_ite_c _ _ _ _ _ (fun hc h => ⟨_, Selects.op_5xy0 hc, h⟩) ?_
  refine call_ite_c _ _ _ _ _ (fun hc h => ⟨_, Selects.op_6xkk hc, h⟩) ?_
  refine call_ite_c _ _ _ _ _ (fun hc h => ⟨_, Selects.op_7xkk hc, h⟩) ?_
  refine call_ite_c _ _ _ _ _ (fun hc h => Table8_selects w s1 s2 hop hc h) ?_
  refine call_ite_c _ _ _ _ _ (fun hc h => ⟨_, Selects.op_9xy0 hc, h⟩) ?_
  refine call_ite_c _ _ _ _ _ (fun hc h => ⟨_, Selects.op_Annn hc, h⟩) ?_
  refine call_ite_c _ _ _ _ _ (fun hc h => ⟨_, Selects.op_Bnnn hc, h⟩) ?_
  refine call_ite_c _ _ _ _ _ (fun hc h => ⟨_, Selects.op_Cxkk hc, h⟩) ?_
  refine call_ite_c _ _ _ _ _ (fun hc h => ⟨_, Selects.op_Dxyn hc, h⟩) ?_
  refine call_ite_c _ _ _ _ _ (fun hc h => TableE_selects w s1 s2 hop hc h) ?_
  refine call_ite_c _ _ _ _ _ (fun hc h => TableF_selects w s1 s2 hop hc h) ?_
  exact fun h => Option.noConfusion h

/-- A completed cycle fetched inside memory and ran, on the state with the word stored
and the counter advanced, a handler that the fetched word selects. -/
theorem cycle_selects (s s2 : Chip8) (h : cycle s = some s2) :
    s.pc ≤ 4094 ∧ ∃ g, Selects s.fetch g ∧
      g { s with opcode := s.fetch, pc := s.pc + 2 } = some s2 := by
  by_cases hpc : s.pc + 1 < MEMORY_SIZE
  · have hpc2 : s.pc ≤ 4094 := by simp only [MEMORY_SIZE] at hpc; omega
    rw [cycle_table s s.fetch hpc2 rfl] at h
    exact ⟨hpc2, table_selects s.fetch _ s2 rfl h⟩
  · simp only [cycle, hpc, if_false] at h
    exact Option.noConfusion h

/-- A cycle on a word that selects the handler `g` runs `g` on the state with the word
stored and the counter advanced. -/
theorem selects_cycle (s : Chip8) (w : Nat) (g : Chip8 → Option Chip8) (hpc : s.pc ≤ 4094)
    (hw : s.fetch = w) (hsel : Selects w g) :
    cycle s = g { s with opcode := w, pc := s.pc + 2 } := by
  cases hsel with
  | op_00E0 hf hc => rw [cycle_family0 s w hpc hw hf, hc]; rfl
  | op_00EE hf hc => rw [cycle_family0 s w hpc hw hf, hc]; rfl
  | op_1nnn hf => rw [cycle_table s w hpc hw, hf]; rfl
  | op_2nnn hf => rw [cycle_table s w hpc hw, hf]; rfl
  | op_3xkk hf => rw [cycle_table s w hpc hw, hf]; rfl
  | op_4xkk hf => rw [cycle_table s w hpc hw, hf]; rfl
  | op_5xy0 hf => rw [cycle_table s w hpc hw, hf]; rfl
  | op_6xkk hf => rw [cycle_table s w hpc hw, hf]; rfl
  | op_7xkk hf => rw [cycle_table s w hpc hw, hf]; rfl
  | op_9xy0 hf => rw [cycle_table s w hpc hw, hf]; rfl
  | op_Annn hf => rw [cycle_table s w hpc hw, hf]; rfl
  | op_Bnnn hf => rw [cycle_table s w hpc hw, hf]; rfl
  | op_Cxkk hf => rw [cycle_table s w hpc hw, hf]; rfl
  | op_Dxyn hf => rw [cycle_table s w hpc hw, hf]; rfl
  | op_8xy0 hf hc => rw [cycle_family8 s w hpc hw hf, hc]; rfl
  | op_8xy1 hf hc => rw [cycle_family8 s w hpc hw hf, hc]; rfl
  | op_8xy2 hf hc => rw [cycle_family8 s w hpc hw hf, hc]; rfl
  | op_8xy3 hf hc => rw [cycle_family8 s w hpc hw hf, hc]; rfl
  | op_8xy4 hf hc => rw [cycle_family8 s w hpc hw hf, hc]; rfl
  | op_8xy5 hf hc => rw [cycle_family8 s w hpc hw hf, hc]; rfl
  | op_8xy6 hf hc => rw [cycle_family8 s w hpc hw hf, hc]; rfl
  | op_8xy7 hf hc => rw [cycle_family8 s w hpc hw hf, hc]; rfl
  | op_8xyE hf hc => rw [cycle_family8 s w hpc hw hf, hc]; rfl
  | op_ExA1 hf hc => rw [cycle_familyE s w hpc hw hf, hc]; rfl
  | op_Ex9E hf hc => rw [cycle_familyE s w hpc hw hf, hc]; rfl
  | op_Fx07 hf hc => rw [cycle_familyF s w hpc hw hf, hc]; rfl
  | op_Fx0A hf hc => rw [cycle_familyF s w hpc hw hf, hc]; rfl
  | op_Fx15 hf hc => rw [cycle_familyF s w hpc hw hf, hc]; rfl
  | op_Fx18 hf hc => rw [cycle_familyF s w hpc hw hf, hc]; rfl
  | op_Fx1E hf hc => rw [cycle_familyF s w hpc hw hf, hc]; rfl
  | op_Fx29 hf hc => rw [cycle_familyF s w hpc hw hf, hc]; rfl
  | op_Fx33 hf hc => rw [cycle_familyF s w hpc hw hf, hc]; rfl
  | op_Fx55 hf hc => rw [cycle_familyF s w hpc hw hf, hc]; rfl
  | op_Fx65 hf hc => rw [cycle_familyF s w hpc hw hf, hc]; rfl

/-- A cycle on a word that selects a total handler completes. -/
theorem selects_total (s : Chip8) (w : Nat) (f : Chip8 → Chip8) (hpc : s.pc ≤ 4094)
    (hw : s.fetch = w) (hsel : Selects w (total f)) :
    cycle s = some (f { s with opcode := w, pc := s.pc + 2 }) :=
  selects_cycle s w (total f) hpc hw hsel

/-! ## What a handler leaves unchanged -/

theorem op_2nnn_io (s : Chip8) : SameIO s (op_2nnn s) := by
  simp only [op_2nnn]; split <;> exact ⟨rfl, rfl, rfl, rfl, rfl⟩

theorem op_3xkk_io (s : Chip8) : SameIO s (op_3xkk s) := by
  simp only [op_3xkk]; split <;> exact ⟨rfl, rfl, rfl, rfl, rfl⟩

theorem op_4xkk_io (s : Chip8) : SameIO s (op_4xkk s) := by
  simp only [op_4xkk]; split <;> exact ⟨rfl, rfl, rfl, rfl, rfl⟩

theorem op_5xy0_io (s : Chip8) : SameIO s (op_5xy0 s) := by
  simp only [op_5xy0]; split <;> exact ⟨rfl, rfl, rfl, rfl, rfl⟩

theorem op_Ex9E_io (s : Chip8) : SameIO s (op_Ex9E s) := by
  simp only [op_Ex9E]
  split
  · exact ⟨rfl, rfl, rfl, rfl, rfl⟩
  · split <;> exact ⟨rfl, rfl, rfl, rfl, rfl⟩

theorem op_ExA1_io (s : Chip8) : SameIO s (op_ExA1 s) := by
  simp only [op_ExA1]
  split
  · exact ⟨rfl, rfl, rfl, rfl, rfl⟩
  · split <;> exact ⟨rfl, rfl, rfl, rfl, rfl⟩

theorem op_Fx0A_io (s : Chip8) : SameIO s (op_Fx0A s) := by
  simp only [op_Fx0A]; split <;> exact ⟨rfl, rfl, rfl, rfl, rfl⟩

theorem op_Fx29_io (s : Chip8) : SameIO s (op_Fx29 s) := by
  simp only [op_Fx29]; split <;> exact ⟨rfl, rfl, rfl, rfl, rfl⟩

theorem op_00EE_io (s s2 : Chip8) (h : op_00EE s = some s2) : SameIO s s2 := by
  simp only [op_00EE] at h
  split at h
  · rw [← Option.some.inj h]; exact ⟨rfl, rfl, rfl, rfl, rfl⟩
  · split at h
    · rw [← Option.some.inj h]; exact ⟨rfl, rfl, rfl, rfl, rfl⟩
    · exact Option.noConfusion h

theorem op_Fx65_io (s s2 : Chip8) (h : op_Fx65 s = some s2) : SameIO s s2 := by
  simp only [op_Fx65] at h
  split at h
  · rw [← Option.some.inj h]; exact ⟨rfl, rfl, rfl, rfl, rfl⟩
  · exact Option.noConfusion h

/-- The draw handler leaves keypad, timers and memory alone. -/
theorem op_Dxyn_io (s s2 : Chip8) (h : op_Dxyn s = some s2) :
    s2.keypad = s.keypad ∧ s2.delayTimer = s.delayTimer ∧ s2.soundTimer = s.soundTimer ∧
      s2.memory = s.memory := by
  simp only [op_Dxyn] at h
  split at h
  · rw [← Option.some.inj h]; exact ⟨rfl, rfl, rfl, rfl⟩
  · exact Option.noConfusion h

/-- The BCD store leaves keypad, timers and framebuffer alone. -/
theorem op_Fx33_io (s s2 : Chip8) (h : op_Fx33 s = some s2) :
    s2.keypad = s.keypad ∧ s2.delayTimer = s.delayTimer ∧ s2.soundTimer = s.soundTimer ∧
      s2.video = s.video := by
  simp only [op_Fx33] at h
  split at h
  · rw [← Option.some.inj h]; exact ⟨rfl, rfl, rfl, rfl⟩
  · exact Option.noConfusion h

/-- The range store leaves keypad, timers and framebuffer alone. -/
theorem op_Fx55_io (s s2 : Chip8) (h : op_Fx55 s = some s2) :
    s2.keypad = s.keypad ∧ s2.delayTimer = s.delayTimer ∧ s2.soundTimer = s.soundTimer ∧
      s2.video = s.video := by
  simp only [op_Fx55] at h
  split at h
  · rw [← Option.some.inj h]; exact ⟨rfl, rfl, rfl, rfl⟩
  · exact Option.noConfusion h

theorem frame_of_io (w : Nat) (s1 s2 : Chip8) (h : SameIO s1 s2) :
    s2.keypad = s1.keypad ∧
    ((w / 4096 % 16 = 15 ∧ w % 256 = 0x15) ∨ s2.delayTimer = s1.delayTimer) ∧
    ((w / 4096 % 16 = 15 ∧ w % 256 = 0x18) ∨ s2.soundTimer = s1.soundTimer) ∧
    ((w / 4096 % 16 = 15 ∧ (w % 256 = 0x33 ∨ w % 256 = 0x55)) ∨ s2.memory = s1.memory) ∧
    (w / 4096 % 16 = 13 ∨ (w / 4096 % 16 = 0 ∧ w % 16 = 0) ∨ s2.video = s1.video) :=
  ⟨h.1, Or.inr h.2.1, Or.inr h.2.2.1, Or.inr h.2.2.2.1, Or.inr (Or.inr h.2.2.2.2)⟩

theorem total_run (f : Chip8 → Chip8) (s1 s2 : Chip8) (h : total f s1 = some s2) :
    s2 = f s1 :=
  (Option.some.inj h).symm

/-- Frame of a handler run: the keypad is never written; the delay timer only by `Fx15`,
the sound timer only by `Fx18`, memory only by `Fx33` and `Fx55`, the framebuffer only by
the draw handler and the clear handler. -/
theorem selects_frame (w : Nat) (g : Chip8 → Option Chip8) (s1 s2 : Chip8)
    (hsel : Selects w g) (hrun : g s1 = some s2) :
    s2.keypad = s1.keypad ∧
    ((w / 4096 % 16 = 15 ∧ w % 256 = 0x15) ∨ s2.delayTimer = s1.delayTimer) ∧
    ((w / 4096 % 16 = 15 ∧ w % 256 = 0x18) ∨ s2.soundTimer = s1.soundTimer) ∧
    ((w / 4096 % 16 = 15 ∧ (w % 256 = 0x33 ∨ w % 256 = 0x55)) ∨ s2.memory = s1.memory) ∧
    (w / 4096 % 16 = 13 ∨ (w / 4096 % 16 = 0 ∧ w % 16 = 0) ∨ s2.video = s1.video) := by
  cases hsel with
  | op_1nnn hf =>
    rw [total_run _ s1 s2 hrun]
    exact frame_of_io w s1 _ ⟨rfl, rfl, rfl, rfl, rfl⟩
  | op_6xkk hf =>
    rw [total_run _ s1 s2 hrun]
    exact frame_of_io w s1 _ ⟨rfl, rfl, rfl, rfl, rfl⟩
  | op_7xkk hf =>
    rw [total_run _ s1 s2 hrun]
    exact frame_of_io w s1 _ ⟨rfl, rfl, rfl, rfl, rfl⟩
  | op_8xy0 hf hc =>
    rw [total_run _ s1 s2 hrun]
    exact frame_of_io w s1 _ ⟨rfl, rfl, rfl, rfl, rfl⟩
  | op_8xy1 hf hc =>
    rw [total_run _ s1 s2 hrun]
    exact frame_of_io w s1 _ ⟨rfl, rfl, rfl, rfl, rfl⟩
  | op_8xy2 hf hc =>
    rw [total_run _ s1 s2 hrun]
    exact frame_of_io w s1 _ ⟨rfl, rfl, rfl, rfl, rfl⟩
  | op_8xy3 hf hc =>
    rw [total_run _ s1 s2 hrun]
    exact frame_of_io w s1 _ ⟨rfl, rfl, rfl, rfl, rfl⟩
  | op_8xy4 hf hc =>
    rw [total_run _ s1 s2 hrun]
    exact frame_of_io w s1 _ ⟨rfl, rfl, rfl, rfl, rfl⟩
  | op_8xy5 hf hc =>
    rw [total_run _ s1 s2 hrun]
    exact frame_of_io w s1 _ ⟨rfl, rfl, rfl, rfl, rfl⟩
  | op_8xy6 hf hc =>
    rw [total_run _ s1 s2 hrun]
    exact frame_of_io w s1 _ ⟨rfl, rfl, rfl, rfl, rfl⟩
  | op_8xy7 hf hc =>
    rw [total_run _ s1 s2 hrun]
    exact frame_of_io w s1 _ ⟨rfl, rfl, rfl, rfl, rfl⟩
  | op_8xyE hf hc =>
    rw [total_run _ s1 s2 hrun]
    exact frame_of_io w s1 _ ⟨rfl, rfl, rfl, rfl, rfl⟩
  | op_9xy0 hf =>
    rw [total_run _ s1 s2 hrun]
    exact frame_of_io w s1 _ ⟨rfl, rfl, rfl, rfl, rfl⟩
  | op_Annn hf =>
    rw [total_run _ s1 s2 hrun]
    exact frame_of_io w s1 _ ⟨rfl, rfl, rfl, rfl, rfl⟩
  | op_Bnnn hf =>
    rw [total_run _ s1 s2 hrun]
    exact frame_of_io w s1 _ ⟨rfl, rfl, rfl, rfl, rfl⟩
  | op_Cxkk hf =>
    rw [total_run _ s1 s2 hrun]
    exact frame_of_io w s1 _ ⟨rfl, rfl, rfl, rfl, rfl⟩
  | op_Fx07 hf hc =>
    rw [total_run _ s1 s2 hrun]
    exact frame_of_io w s1 _ ⟨rfl, rfl, rfl, rfl, rfl⟩
  | op_Fx1E hf hc =>
    rw [total_run _ s1 s2 hrun]
    exact frame_of_io w s1 _ ⟨rfl, rfl, rfl, rfl, rfl⟩
  | op_2nnn hf =>
    rw [total_run _ s1 s2 hrun]
    exact frame_of_io w s1 _ (op_2nnn_io s1)
  | op_3xkk hf =>
    rw [total_run _ s1 s2 hrun]
    exact frame_of_io w s1 _ (op_3xkk_io s1)
  | op_4xkk hf =>
    rw [total_run _ s1 s2 hrun]
    exact frame_of_io w s1 _ (op_4xkk_io s1)
  | op_5xy0 hf =>
    rw [total_run _ s1 s2 hrun]
    exact frame_of_io w s1 _ (op_5xy0_io s1)
  | op_Ex9E hf hc =>
    rw [total_run _ s1 s2 hrun]
    exact frame_of_io w s1 _ (op_Ex9E_io s1)
  | op_ExA1 hf hc =>
    rw [total_run _ s1 s2 hrun]
    exact frame_of_io w s1 _ (op_ExA1_io s1)
  | op_Fx0A hf hc =>
    rw [total_run _ s1 s2 hrun]
    exact frame_of_io w s1 _ (op_Fx0A_io s1)
  | op_Fx29 hf hc =>
    rw [total_run _ s1 s2 hrun]
    exact frame_of_io w s1 _ (op_Fx29_io s1)
  | op_00E0 hf hc =>
    rw [total_run _ s1 s2 hrun]
    exact ⟨rfl, Or.inr rfl, Or.inr rfl, Or.inr rfl, Or.inr (Or.inl ⟨hf, hc⟩)⟩
  | op_Fx15 hf hc =>
    rw [total_run _ s1 s2 hrun]
    exact ⟨rfl, Or.inl ⟨hf, hc⟩, Or.inr rfl, Or.inr rfl, Or.inr (Or.inr rfl)⟩
  | op_Fx18 hf hc =>
    rw [total_run _ s1 s2 hrun]
    exact ⟨rfl, Or.inr rfl, Or.inl ⟨hf, hc⟩, Or.inr rfl, Or.inr (Or.inr rfl)⟩
  | op_00EE hf hc =>
    exact frame_of_io w s1 s2 (op_00EE_io s1 s2 hrun)
  | op_Fx65 hf hc =>
    exact frame_of_io w s1 s2 (op_Fx65_io s1 s2 hrun)
  | op_Dxyn hf =>
    obtain ⟨h1, h2, h3, h4⟩ := op_Dxyn_io s1 s2 hrun
    exact ⟨h1, Or.inr h2, Or.inr h3, Or.inr h4, Or.inl hf⟩
  | op_Fx33 hf hc =>
    obtain ⟨h1, h2, h3, h4⟩ := op_Fx33_io s1 s2 hrun
    exact ⟨h1, Or.inr h2, Or.inr h3, Or.inl ⟨hf, Or.inl hc⟩, Or.inr (Or.inr h4)⟩
  | op_Fx55 hf hc =>
    obtain ⟨h1, h2, h3, h4⟩ := op_Fx55_io s1 s2 hrun
    exact ⟨h1, Or.inr h2, Or.inr h3, Or.inl ⟨hf, Or.inr hc⟩, Or.inr (Or.inr h4)⟩

/-! ## Frame of a cycle: keypad, timers, memory, framebuffer -/

theorem selects_Dxyn (w : Nat) (g : Chip8 → Option Chip8) (hsel : Selects w g)
    (hf : w / 4096 % 16 = 13) : g = op_Dxyn := by
  cases hsel <;> first | rfl | (exfalso; omega)

theorem selects_00E0 (w : Nat) (g : Chip8 → Option Chip8) (hsel : Selects w g)
    (hf : w / 4096 % 16 = 0) (hc : w % 16 = 0) : g = total op_00E0 := by
  cases hsel <;> first | rfl | (exfalso; omega)

theorem selects_Fx33 (w : Nat) (g : Chip8 → Option Chip8) (hsel : Selects w g)
    (hf : w / 4096 % 16 = 15) (hc : w % 256 = 0x33) : g = op_Fx33 := by
  cases hsel <;> first | rfl | (exfalso; omega)

theorem selects_Fx55 (w : Nat) (g : Chip8 → Option Chip8) (hsel : Selects w g)
    (hf : w / 4096 % 16 = 15) (hc : w % 256 = 0x55) : g = op_Fx55 := by
  cases hsel <;> first | rfl | (exfalso; omega)

/-- Frame of a completed cycle, in terms of the fetched word. -/
theorem cycle_frame (s s2 : Chip8) (h : cycle s = some s2) :
    s2.keypad = s.keypad ∧
    ((s.fetch / 4096 % 16 = 15 ∧ s.fetch % 256 = 0x15) ∨ s2.delayTimer = s.delayTimer) ∧
    ((s.fetch / 4096 % 16 = 15 ∧ s.fetch % 256 = 0x18) ∨ s2.soundTimer = s.soundTimer) ∧
    ((s.fetch / 4096 % 16 = 15 ∧ (s.fetch % 256 = 0x33 ∨ s.fetch % 256 = 0x55)) ∨
      s2.memory = s.memory) ∧
    (s.fetch / 4096 % 16 = 13 ∨ (s.fetch / 4096 % 16 = 0 ∧ s.fetch % 16 = 0) ∨
      s2.video = s.video) := by
  obtain ⟨_, g, hsel, hrun⟩ := cycle_selects s s2 h
  exact selects_frame s.fetch g { s with opcode := s.fetch, pc := s.pc + 2 } s2 hsel hrun

/-- C26: a completed cycle leaves all 16 keypad flags unchanged, leaves the delay timer
unchanged unless the instruction word is `Fx15` and the sound timer unchanged unless it is
`Fx18`; so no cycle decrements a timer.  A cycle on `Fx15` completes and sets the delay
timer to `Vx`, a cycle on `Fx18` completes and sets the sound timer to `Vx`, and both
change nothing else but the stored word and the program counter. -/
theorem timers_and_keypad (s : Chip8) :
    (∀ s2, cycle s = some s2 →
      (∀ i, i < 16 → s2.keypad i = s.keypad i) ∧
      (¬ (s.fetch / 4096 % 16 = 15 ∧ s.fetch % 256 = 0x15) →
        s2.delayTimer = s.delayTimer) ∧
      (¬ (s.fetch / 4096 % 16 = 15 ∧ s.fetch % 256 = 0x18) →
        s2.soundTimer = s.soundTimer)) ∧
    (∀ x, x < 16 → s.pc ≤ 4094 → s.fetch = 0xF015 + 0x100 * x →
      cycle s = some { s with opcode := 0xF015 + 0x100 * x, pc := s.pc + 2,
                              delayTimer := s.registers x }) ∧
    (∀ x, x < 16 → s.pc ≤ 4094 → s.fetch = 0xF018 + 0x100 * x →
      cycle s = some { s with opcode := 0xF018 + 0x100 * x, pc := s.pc + 2,
                              soundTimer := s.registers x }) := by
  refine ⟨?_, ?_, ?_⟩
  · intro s2 h
    obtain ⟨hk, hd, hs, _, _⟩ := cycle_frame s s2 h
    refine ⟨fun i _ => by rw [hk], ?_, ?_⟩
    · intro hno
      rcases hd with hd | hd
      · exact absurd hd hno
      · exact hd
    · intro hno
      rcases hs with hs | hs
      · exact absurd hs hno
      · exact hs
  · intro x hx hpc hw
    rw [selects_total s _ op_Fx15 hpc hw (Selects.op_Fx15 (by omega) (by omega))]
    have e : (0xF015 + 0x100 * x) / 256 % 16 = x := by omega
    simp only [op_Fx15, Vx, nibble_x, e]
  · intro x hx hpc hw
    rw [selects_total s _ op_Fx18 hpc hw (Selects.op_Fx18 (by omega) (by omega))]
    have e : (0xF018 + 0x100 * x) / 256 % 16 = x := by omega
    simp only [op_Fx18, Vx, nibble_x, e]

/-- Witness for C26: `0xF315` and `0xF318` on a new machine with `V3 = 77`. -/
theorem timers_and_keypad_witness :
    (∀ s2, cycle delayDemo = some s2 →
      (∀ i, i < 16 → s2.keypad i = delayDemo.keypad i) ∧
      (¬ (delayDemo.fetch / 4096 % 16 = 15 ∧ delayDemo.fetch % 256 = 0x15) →
        s2.delayTimer = delayDemo.delayTimer) ∧
      (¬ (delayDemo.fetch / 4096 % 16 = 15 ∧ delayDemo.fetch % 256 = 0x18) →
        s2.soundTimer = delayDemo.soundTimer)) ∧
    cycle delayDemo = some { delayDemo with opcode := 0xF015 + 0x100 * 3,
                                            pc := delayDemo.pc + 2,
                                            delayTimer := delayDemo.registers 3 } ∧
    cycle soundDemo = some { soundDemo with opcode := 0xF018 + 0x100 * 3,
                                            pc := soundDemo.pc + 2,
                                            soundTimer := soundDemo.registers 3 } :=
  ⟨(timers_and_keypad delayDemo).1,
   (timers_and_keypad delayDemo).2.1 3 (by decide) (by decide) (by decide),
   (timers_and_keypad soundDemo).2.2 3 (by decide) (by decide) (by decide)⟩

/-! ## Draw stays inside the framebuffer; pixels stay off or on -/

/-- One iteration of the inner draw loop either leaves the framebuffer alone or writes
exactly the position `(yPos + row) * 64 + (xPos + col)`, which is then below 2048. -/
theorem drawPixel_write (spriteByte xPos yPos row col : Nat) (st : (Nat → Nat) × Nat) :
    (drawPixel spriteByte xPos yPos row st col).1 = st.1 ∨
    ((yPos + row) * 64 + (xPos + col) < 2048 ∧
      (drawPixel spriteByte xPos yPos row st col).1 =
        store st.1 ((yPos + row) * 64 + (xPos + col))
          (st.1 ((yPos + row) * 64 + (xPos + col)) ^^^ 0xFFFFFFFF)) := by
  unfold drawPixel
  by_cases hin : xPos + col < VIDEO_WIDTH ∧ yPos + row < VIDEO_HEIGHT
  · by_cases hbit : spriteByte &&& (0x80 >>> col) ≠ 0
    · right
      simp only [hin, hbit, and_self, if_true, ne_eq, not_false_eq_true]
      refine ⟨?_, trivial⟩
      have h1 := hin.1
      have h2 := hin.2
      simp only [VIDEO_WIDTH, VIDEO_HEIGHT] at h1 h2
      omega
    · left
      simp only [hin, hbit, and_self, if_true, if_false]
  · left
    simp only [hin, if_false]

/-- A property of the framebuffer kept by every iteration of the inner loop is kept by a
whole row. -/
theorem drawRow_keeps (Q : (Nat → Nat) → Prop)
    (hQ : ∀ sb x y row col (st : (Nat → Nat) × Nat), Q st.1 → Q (drawPixel sb x y row st col).1)
    (sb x y row : Nat) (st : (Nat → Nat) × Nat) (h : Q st.1) :
    Q (drawRow sb x y row st).1 := by
  unfold drawRow
  generalize List.range 8 = l
  induction l generalizing st with
  | nil => exact h
  | cons c l ih => exact ih (drawPixel sb x y row st c) (hQ sb x y row c st h)

/-- Such a property is kept by the whole row loop when it completes. -/
theorem drawRows_keeps (Q : (Nat → Nat) → Prop)
    (hQ : ∀ sb x y row col (st : (Nat → Nat) × Nat), Q st.1 → Q (drawPixel sb x y row st col).1)
    (memory : Nat → Nat) (index x y : Nat) (todo : Nat) :
    ∀ (row : Nat) (st st2 : (Nat → Nat) × Nat),
      drawRows memory index x y todo row st = some st2 → Q st.1 → Q st2.1 := by
  induction todo with
  | zero =>
    intro row st st2 h hq
    have e : st = st2 := Option.some.inj h
    rw [← e]; exact hq
  | succ todo ih =>
    intro row st st2 h hq
    simp only [drawRows] at h
    split at h
    · exact ih (row + 1) _ st2 h (drawRow_keeps Q hQ _ x y row st hq)
    · exact Option.noConfusion h

/-- The framebuffer a completed draw leaves is the one its row loop produced. -/
theorem op_Dxyn_video (s s2 : Chip8) (h : op_Dxyn s = some s2) :
    ∃ st, drawRows s.memory s.index (s.registers s.Vx % VIDEO_WIDTH)
        (s.registers s.Vy % VIDEO_HEIGHT) (s.opcode &&& 0x000F) 0 (s.video, 0) = some st ∧
      s2.video = st.1 := by
  simp only [op_Dxyn] at h
  split at h
  · rename_i st hst
    refine ⟨st, hst, ?_⟩
    rw [← Option.some.inj h]
  · exact Option.noConfusion h

/-- A property of the framebuffer kept by every pixel step is kept by a completed draw. -/
theorem op_Dxyn_keeps (Q : (Nat → Nat) → Prop)
    (hQ : ∀ sb x y row col (st : (Nat → Nat) × Nat), Q st.1 → Q (drawPixel sb x y row st col).1)
    (s s2 : Chip8) (h : op_Dxyn s = some s2) (hq : Q s.video) : Q s2.video := by
  obtain ⟨st, hst, hv⟩ := op_Dxyn_video s s2 h
  rw [hv]
  exact drawRows_keeps Q hQ _ _ _ _ _ 0 (s.video, 0) st hst hq

theorem drawPixel_outside (v0 : Nat → Nat) (sb x y row col : Nat) (st : (Nat → Nat) × Nat)
    (h : ∀ j, 2048 ≤ j → st.1 j = v0 j) :
    ∀ j, 2048 ≤ j → (drawPixel sb x y row st col).1 j = v0 j := by
  intro j hj
  rcases drawPixel_write sb x y row col st with e | ⟨hlt, e⟩
  · rw [e]; exact h j hj
  · rw [e, store_other _ _ _ _ (by omega)]; exact h j hj

theorem drawPixel_binary (sb x y row col : Nat) (st : (Nat → Nat) × Nat)
    (h : ∀ j, st.1 j = 0 ∨ st.1 j = 0xFFFFFFFF) :
    ∀ j, (drawPixel sb x y row st col).1 j = 0 ∨
      (drawPixel sb x y row st col).1 j = 0xFFFFFFFF := by
  intro j
  rcases drawPixel_write sb x y row col st with e | ⟨_, e⟩
  · rw [e]; exact h j
  · rw [e]
    by_cases hj : j = (y + row) * 64 + (x + col)
    · rw [hj, store_same]
      rcases h ((y + row) * 64 + (x + col)) with h0 | h1
      · right; rw [h0]; rfl
      · left; rw [h1]; rfl
    · rw [store_other _ _ _ _ hj]; exact h j

/-- C29: every pixel write of the draw loops is at the array position
`(yPos + row) * 64 + (xPos + col)` and that position is below 2048 (for any origin, so in
particular for `xPos = Vx mod 64`, `yPos = Vy mod 32`); a completed draw leaves everything
at positions `≥ 2048` untouched; and when `index + n ≤ 4096` the draw completes, every
sprite byte it reads being at an address `index + r < 4096`. -/
theorem draw_in_bounds (s : Chip8) :
    (∀ spriteByte xPos yPos row col (st : (Nat → Nat) × Nat),
      (drawPixel spriteByte xPos yPos row st col).1 = st.1 ∨
      ((yPos + row) * 64 + (xPos + col) < 2048 ∧
        (drawPixel spriteByte xPos yPos row st col).1 =
          store st.1 ((yPos + row) * 64 + (xPos + col))
            (st.1 ((yPos + row) * 64 + (xPos + col)) ^^^ 0xFFFFFFFF))) ∧
    (∀ s2, op_Dxyn s = some s2 → ∀ j, 2048 ≤ j → s2.video j = s.video j) ∧
    (s.index + (s.opcode &&& 0x000F) ≤ 4096 →
      (∃ s2, op_Dxyn s = some s2) ∧
      ∀ r, r < (s.opcode &&& 0x000F) → s.index + r < MEMORY_SIZE) := by
  refine ⟨drawPixel_write, ?_, ?_⟩
  · intro s2 h
    exact op_Dxyn_keeps (fun v => ∀ j, 2048 ≤ j → v j = s.video j)
      (fun sb x y row col st hst => drawPixel_outside s.video sb x y row col st hst)
      s s2 h (fun _ _ => rfl)
  · intro hb
    obtain ⟨st, h1, _⟩ := op_Dxyn_spec s hb
    refine ⟨⟨_, h1⟩, ?_⟩
    intro r hr
    simp only [MEMORY_SIZE]
    omega

set_option maxRecDepth 100000 in
/-- Witness for C29: the draw of `drawDemo`, whose sprite would pass the right and the
bottom edge. -/
theorem draw_in_bounds_witness :
    (∀ s2, op_Dxyn drawDemo = some s2 → ∀ j, 2048 ≤ j → s2.video j = drawDemo.video j) ∧
    (∃ s2, op_Dxyn drawDemo = some s2) ∧
    ∀ r, r < (drawDemo.opcode &&& 0x000F) → drawDemo.index + r < MEMORY_SIZE :=
  ⟨(draw_in_bounds drawDemo).2.1, (draw_in_bounds drawDemo).2.2 (by decide)⟩

theorem loadROM_video (filename : String) (file : Option (List Nat)) (s : Chip8) :
    (loadROM filename file s).video = s.video := by
  unfold loadROM
  split
  · rfl
  · split <;> rfl

/-- In every reachable state each pixel is `0` or `0xFFFFFFFF`. -/
theorem reachable_binary (s : Chip8) (h : Reachable s) :
    ∀ i, s.video i = 0 ∨ s.video i = 0xFFFFFFFF := by
  induction h with
  | start => intro i; exact Or.inl rfl
  | load s filename file _ ih => rw [loadROM_video]; exact ih
  | step s s2 _ hc ih =>
    obtain ⟨_, g, hsel, hrun⟩ := cycle_selects s s2 hc
    obtain ⟨_, _, _, _, hv⟩ :=
      selects_frame s.fetch g { s with opcode := s.fetch, pc := s.pc + 2 } s2 hsel hrun
    rcases hv with hD | hC | hsame
    · rw [selects_Dxyn _ g hsel hD] at hrun
      exact op_Dxyn_keeps (fun v => ∀ j, v j = 0 ∨ v j = 0xFFFFFFFF)
        (fun sb x y row col st hst => drawPixel_binary sb x y row col st hst) _ s2 hrun ih
    · rw [selects_00E0 _ g hsel hC.1 hC.2] at hrun
      rw [total_run _ _ s2 hrun]
      intro i; exact Or.inl rfl
    · rw [hsame]; exact ih
  | keys s keypad _ ih => exact ih
  | timers s d t _ ih => exact ih
  | frame s _ ih => exact ih

/-- C24: in every state reachable from the initial state each of the 2048 pixels is
`0x00000000` or `0xFFFFFFFF`; and a completed cycle changes the framebuffer only when the
fetched word selects the draw handler (family `0xD`) or the clear handler (family `0x0`
with trailing nibble 0): after every other instruction all pixels are unchanged. -/
theorem display_invariant (s : Chip8) (h : Reachable s) :
    (∀ i, i < 2048 → s.video i = 0 ∨ s.video i = 0xFFFFFFFF) ∧
    (∀ t t2 : Chip8, cycle t = some t2 → t.fetch / 4096 % 16 ≠ 13 →
      ¬ (t.fetch / 4096 % 16 = 0 ∧ t.fetch % 16 = 0) → t2.video = t.video) := by
  refine ⟨fun i _ => reachable_binary s h i, ?_⟩
  intro t t2 hc hD hC
  obtain ⟨_, _, _, _, hv⟩ := cycle_frame t t2 hc
  rcases hv with h1 | h2 | h3
  · exact absurd h1 hD
  · exact absurd h2 hC
  · exact h3

/-- Witness for C24: the state after the first cycle of `callReturnDemo`. -/
theorem display_invariant_witness :
    (∀ i, i < 2048 → afterCallDemo.video i = 0 ∨ afterCallDemo.video i = 0xFFFFFFFF) ∧
    (∀ t t2 : Chip8, cycle t = some t2 → t.fetch / 4096 % 16 ≠ 13 →
      ¬ (t.fetch / 4096 % 16 = 0 ∧ t.fetch % 16 = 0) → t2.video = t.video) :=
  display_invariant afterCallDemo
    (Reachable.step callReturnDemo afterCallDemo
      (Reachable.load _ "demo" _ (Reachable.start false (fun _ => 0)))
      (cycle_2nnn_push callReturnDemo 0x204 (by decide) (by decide) (by decide) (by decide)))

/-! ## Range store and range load -/

/-- The store loop from register `i` with `todo` registers left, inside memory: it
completes, writes `registers[j]` to `memory[index + j]` for `i ≤ j < i + todo` and nothing
else. -/
theorem storeRegs_spec (registers : Nat → Nat) (index : Nat) (todo : Nat) :
    ∀ (i : Nat) (memory : Nat → Nat), index + i + todo ≤ MEMORY_SIZE →
    ∃ m2, storeRegs registers index todo i memory = some m2 ∧
      (∀ j, i ≤ j → j < i + todo → m2 (index + j) = registers j) ∧
      (∀ a, a < index + i ∨ index + i + todo ≤ a → m2 a = memory a) := by
  induction todo with
  | zero =>
    intro i memory _
    exact ⟨memory, rfl, fun j h1 h2 => by omega, fun _ _ => rfl⟩
  | succ todo ih =>
    intro i memory hb
    have hin : index + i < MEMORY_SIZE := by omega
    obtain ⟨m2, hrun, h1, h2⟩ := ih (i + 1) (store memory (index + i) (registers i))
      (by omega)
    refine ⟨m2, ?_, ?_, ?_⟩
    · simp only [storeRegs, hin, if_true]
      exact hrun
    · intro j hj1 hj2
      by_cases hji : j = i
      · rw [hji, h2 (index + i) (Or.inl (by omega))]
        exact store_same _ _ _
      · exact h1 j (by omega) (by omega)
    · intro a ha
      rw [h2 a (by omega)]
      exact store_other _ _ _ _ (by omega)

/-- The load loop from register `i` with `todo` registers left, inside memory: it
completes, sets `registers[j]` to `memory[index + j]` for `i ≤ j < i + todo` and nothing
else. -/
theorem loadRegs_spec (memory : Nat → Nat) (index : Nat) (todo : Nat) :
    ∀ (i : Nat) (registers : Nat → Nat), index + i + todo ≤ MEMORY_SIZE →
    ∃ r2, loadRegs memory index todo i registers = some r2 ∧
      (∀ j, i ≤ j → j < i + todo → r2 j = memory (index + j)) ∧
      (∀ j, j < i ∨ i + todo ≤ j → r2 j = registers j) := by
  induction todo with
  | zero =>
    intro i registers _
    exact ⟨registers, rfl, fun j h1 h2 => by omega, fun _ _ => rfl⟩
  | succ todo ih =>
    intro i registers hb
    have hin : index + i < MEMORY_SIZE := by omega
    obtain ⟨r2, hrun, h1, h2⟩ := ih (i + 1) (store registers i (memory (index + i)))
      (by omega)
    refine ⟨r2, ?_, ?_, ?_⟩
    · simp only [loadRegs, hin, if_true]
      exact hrun
    · intro j hj1 hj2
      by_cases hji : j = i
      · rw [hji, h2 i (Or.inl (by omega))]
        exact store_same _ _ _
      · exact h1 j (by omega) (by omega)
    · intro j hj
      rw [h2 j (by omega)]
      exact store_other _ _ _ _ (by omega)

/-- The range store `Fx55` with `index + x ≤ 4095`. -/
theorem op_Fx55_spec (x : Nat) (hx : x < 16) (s : Chip8)
    (hop : s.opcode = 0xF055 + 0x100 * x) (hI : s.index + x ≤ 4095) :
    ∃ m2, op_Fx55 s = some { s with memory := m2, index := s.index + x + 1 } ∧
      (∀ i, i ≤ x → m2 (s.index + i) = s.registers i) ∧
      (∀ a, a < s.index ∨ s.index + x < a → m2 a = s.memory a) := by
  have hsx : s.Vx = x := by rw [Vx_eq, hop]; omega
  obtain ⟨m2, hrun, h1, h2⟩ := storeRegs_spec s.registers s.index (x + 1) 0 s.memory
    (by simp only [MEMORY_SIZE]; omega)
  refine ⟨m2, ?_, fun i hi => h1 i (Nat.zero_le _) (by omega), fun a ha => h2 a (by omega)⟩
  have e : (s.index + (x + 1)) % 65536 = s.index + x + 1 := by omega
  simp only [op_Fx55, hsx, hrun, e]

/-- The range load `Fx65` with `index + x ≤ 4095`. -/
theorem op_Fx65_spec (x : Nat) (hx : x < 16) (s : Chip8)
    (hop : s.opcode = 0xF065 + 0x100 * x) (hI : s.index + x ≤ 4095) :
    ∃ r2, op_Fx65 s = some { s with registers := r2, index := s.index + x + 1 } ∧
      (∀ i, i ≤ x → r2 i = s.memory (s.index + i)) ∧
      (∀ i, x < i → r2 i = s.registers i) := by
  have hsx : s.Vx = x := by rw [Vx_eq, hop]; omega
  obtain ⟨r2, hrun, h1, h2⟩ := loadRegs_spec s.memory s.index (x + 1) 0 s.registers
    (by simp only [MEMORY_SIZE]; omega)
  refine ⟨r2, ?_, fun i hi => h1 i (Nat.zero_le _) (by omega), fun i hi => h2 i (by omega)⟩
  have e : (s.index + (x + 1)) % 65536 = s.index + x + 1 := by omega
  simp only [op_Fx65, hsx, hrun, e]

/-- C21: for `x` in `0..F` and an index `I` with `I + x ≤ 4095`: the range store `Fx55`
completes, sets `memory[I + i] = V_i` for every `i ≤ x`, leaves every other memory byte and
all registers unchanged and sets the index to `I + x + 1`; the range load `Fx65` completes,
sets `V_i = memory[I + i]` for every `i ≤ x`, leaves the registers above `x` and all memory
unchanged and sets the index to `I + x + 1`.  No other field changes. -/
theorem range_store_load (x : Nat) (hx : x < 16) (s t : Chip8)
    (hs : s.opcode = 0xF055 + 0x100 * x) (hsI : s.index + x ≤ 4095)
    (ht : t.opcode = 0xF065 + 0x100 * x) (htI : t.index + x ≤ 4095) :
    (∃ s2, op_Fx55 s = some s2 ∧
      (∀ i, i ≤ x → s2.memory (s.index + i) = s.registers i) ∧
      (∀ a, a < s.index ∨ s.index + x < a → s2.memory a = s.memory a) ∧
      s2.registers = s.registers ∧ s2.index = s.index + x + 1 ∧
      s2 = { s with memory := s2.memory, index := s2.index }) ∧
    (∃ t2, op_Fx65 t = some t2 ∧
      (∀ i, i ≤ x → t2.registers i = t.memory (t.index + i)) ∧
      (∀ i, x < i → t2.registers i = t.registers i) ∧
      t2.memory = t.memory ∧ t2.index = t.index + x + 1 ∧
      t2 = { t with registers := t2.registers, index := t2.index }) := by
  obtain ⟨m2, hrun, h1, h2⟩ := op_Fx55_spec x hx s hs hsI
  obtain ⟨r2, hrun2, h3, h4⟩ := op_Fx65_spec x hx t ht htI
  exact ⟨⟨_, hrun, h1, h2, rfl, rfl, rfl⟩, ⟨_, hrun2, h3, h4, rfl, rfl, rfl⟩⟩

/-- Witness for C21: `0xF355` with `index = 0x300` and `0xF365` with `index = 0x50`. -/
theorem range_store_load_witness :
    (∃ s2, op_Fx55 storeDemo = some s2 ∧
      (∀ i, i ≤ 3 → s2.memory (storeDemo.index + i) = storeDemo.registers i) ∧
      (∀ a, a < storeDemo.index ∨ storeDemo.index + 3 < a →
        s2.memory a = storeDemo.memory a) ∧
      s2.registers = storeDemo.registers ∧ s2.index = storeDemo.index + 3 + 1 ∧
      s2 = { storeDemo with memory := s2.memory, index := s2.index }) ∧
    (∃ t2, op_Fx65 loadDemo = some t2 ∧
      (∀ i, i ≤ 3 → t2.registers i = loadDemo.memory (loadDemo.index + i)) ∧
      (∀ i, 3 < i → t2.registers i = loadDemo.registers i) ∧
      t2.memory = loadDemo.memory ∧ t2.index = loadDemo.index + 3 + 1 ∧
      t2 = { loadDemo with registers := t2.registers, index := t2.index }) :=
  range_store_load 3 (by decide) storeDemo loadDemo (by decide) (by decide) (by decide)
    (by decide)

/-- C28: for `x` in `0..F` and an address `I` with `I + x ≤ 4095`: executing `Fx55` with
`index = I`, then replacing the registers by arbitrary values `r`, resetting the index to
`I` and executing `Fx65` completes, restores every register `V0..Vx` to the value it held
before the store, and leaves `index = I + x + 1`. -/
theorem store_load_round_trip (x : Nat) (hx : x < 16) (s : Chip8)
    (hop : s.opcode = 0xF055 + 0x100 * x) (hI : s.index + x ≤ 4095) (r : Nat → Nat) :
    ∃ s2, op_Fx55 s = some s2 ∧
      ∃ t2, op_Fx65 { s2 with opcode := 0xF065 + 0x100 * x, registers := r,
                              index := s.index } = some t2 ∧
        (∀ i, i ≤ x → t2.registers i = s.registers i) ∧ t2.index = s.index + x + 1 := by
  obtain ⟨m2, hrun, h1, _⟩ := op_Fx55_spec x hx s hop hI
  obtain ⟨r2, hrun2, h3, _⟩ := op_Fx65_spec x hx
    { s with memory := m2, index := s.index, opcode := 0xF065 + 0x100 * x, registers := r }
    rfl hI
  refine ⟨_, hrun, _, hrun2, ?_, rfl⟩
  intro i hi
  exact (h3 i hi).trans (h1 i hi)

/-- Witness for C28: `storeDemo`, with the registers zeroed between store and load. -/
theorem store_load_round_trip_witness :
    ∃ s2, op_Fx55 storeDemo = some s2 ∧
      ∃ t2, op_Fx65 { s2 with opcode := 0xF065 + 0x100 * 3, registers := fun _ => 0,
                              index := storeDemo.index } = some t2 ∧
        (∀ i, i ≤ 3 → t2.registers i = storeDemo.registers i) ∧
        t2.index = storeDemo.index + 3 + 1 :=
  store_load_round_trip 3 (by decide) storeDemo (by decide) (by decide) (fun _ => 0)

/-! ## The newly created machine -/

/-- C25: a newly created machine has `pc = 0x200`, `sp = 0`, `index = 0`, all registers,
all stack entries, both timers and all keypad flags zero, all pixels off, byte `i` of the
80-byte glyph table at `memory[0x050 + i]` for every `i < 80` (so the glyph of digit `d`
occupies `0x050 + 5 * d .. 0x050 + 5 * d + 4`), and zero in every memory byte outside
`0x050..0x09F`. -/
theorem initial_state (drawFlag : Bool) (randGen : Nat → Nat) :
    (init drawFlag randGen).pc = 0x200 ∧ (init drawFlag randGen).sp = 0 ∧
    (init drawFlag randGen).index = 0 ∧
    (∀ i, (init drawFlag randGen).registers i = 0) ∧
    (∀ i, (init drawFlag randGen).stack i = 0) ∧
    (init drawFlag randGen).delayTimer = 0 ∧ (init drawFlag randGen).soundTimer = 0 ∧
    (∀ i, (init drawFlag randGen).keypad i = 0) ∧
    (∀ i, (init drawFlag randGen).video i = 0) ∧
    fontSet.length = 80 ∧
    (∀ i, i < 80 → (init drawFlag randGen).memory (0x050 + i) = fontSet.getD i 0) ∧
    (∀ d k, d < 16 → k < 5 →
      (init drawFlag randGen).memory (0x050 + 5 * d + k) = fontSet.getD (5 * d + k) 0) ∧
    (∀ a, a < 0x050 ∨ 0x09F < a → (init drawFlag randGen).memory a = 0) := by
  have hlen : fontSet.length = 80 := rfl
  have hg : ∀ i, i < 80 → (init drawFlag randGen).memory (0x050 + i) = fontSet.getD i 0 := by
    intro i hi
    have h := (copyBytes_spec fontSet FONTSET_START_ADDRESS (fun _ => 0)).1 i
      (by rw [hlen]; exact hi)
    rw [List.getD_eq_getElem fontSet 0 (by rw [hlen]; exact hi)]
    exact h
  refine ⟨rfl, rfl, rfl, fun _ => rfl, fun _ => rfl, rfl, rfl, fun _ => rfl, fun _ => rfl,
    hlen, hg, ?_, ?_⟩
  · intro d k hd hk
    have e : 0x050 + 5 * d + k = 0x050 + (5 * d + k) := by omega
    rw [e]
    exact hg (5 * d + k) (by omega)
  · intro a ha
    have h := (copyBytes_spec fontSet FONTSET_START_ADDRESS (fun _ => 0)).2 a
      (by rw [hlen]; simp only [FONTSET_START_ADDRESS]; omega)
    exact h

/-- Witness for C25: the glyph of digit `1` starts with the bytes `0x20, 0x60`, and address
`0x200` holds zero. -/
theorem initial_state_witness :
    (init false (fun _ => 0)).memory (0x050 + 5) = 0x20 ∧
    (init false (fun _ => 0)).memory (0x050 + 5 * 1 + 1) = 0x60 ∧
    (init false (fun _ => 0)).memory 0x200 = 0 :=
  ⟨(initial_state false (fun _ => 0)).2.2.2.2.2.2.2.2.2.2.1 5 (by decide),
   (initial_state false (fun _ => 0)).2.2.2.2.2.2.2.2.2.2.2.1 1 1 (by decide) (by decide),
   (initial_state false (fun _ => 0)).2.2.2.2.2.2.2.2.2.2.2.2 0x200 (Or.inr (by decide))⟩

/-! ## Conditional skips -/

/-- C23: let the program counter be `p ≤ 4094`.  A cycle executing `3xkk`, `4xkk`, `5xy0`,
`9xy0`, `Ex9E` or `ExA1` (the last two with `Vx < 16`) completes and leaves the program
counter at `p + 4` when the condition of the instruction holds (respectively `Vx = kk`,
`Vx ≠ kk`, `Vx = Vy`, `Vx ≠ Vy`, `keypad[Vx]` down, `keypad[Vx]` not down) and at `p + 2`
when it does not; besides the program counter only the stored instruction word changes, so
no register, memory byte, pixel, timer or stack entry does. -/
theorem conditional_skips (x y kk : Nat) (hx : x < 16) (hy : y < 16) (hkk : kk < 256)
    (s : Chip8) (hpc : s.pc ≤ 4094) :
    (s.fetch = 0x3000 + 0x100 * x + kk →
      cycle s = some { s with opcode := s.fetch,
                              pc := if s.registers x = kk then s.pc + 4 else s.pc + 2 }) ∧
    (s.fetch = 0x4000 + 0x100 * x + kk →
      cycle s = some { s with opcode := s.fetch,
                              pc := if s.registers x ≠ kk then s.pc + 4 else s.pc + 2 }) ∧
    (s.fetch = 0x5000 + 0x100 * x + 0x10 * y →
      cycle s = some { s with opcode := s.fetch,
                              pc := if s.registers x = s.registers y then s.pc + 4
                                    else s.pc + 2 }) ∧
    (s.fetch = 0x9000 + 0x100 * x + 0x10 * y →
      cycle s = some { s with opcode := s.fetch,
                              pc := if s.registers x ≠ s.registers y then s.pc + 4
                                    else s.pc + 2 }) ∧
    (s.fetch = 0xE09E + 0x100 * x → s.registers x < 16 →
      cycle s = some { s with opcode := s.fetch,
                              pc := if s.keypad (s.registers x) ≠ 0 then s.pc + 4
                                    else s.pc + 2 }) ∧
    (s.fetch = 0xE0A1 + 0x100 * x → s.registers x < 16 →
      cycle s = some { s with opcode := s.fetch,
                              pc := if s.keypad (s.registers x) = 0 then s.pc + 4
                                    else s.pc + 2 }) := by
  have e4 : (s.pc + 2 + 2) % 65536 = s.pc + 4 := by omega
  have e2 : (s.pc + 2 + 0) % 65536 = s.pc + 2 := by omega
  refine ⟨?_, ?_, ?_, ?_, ?_, ?_⟩
  · intro hw
    rw [selects_total s s.fetch op_3xkk hpc rfl (Selects.op_3xkk (by omega))]
    have hVx : s.fetch / 256 % 16 = x := by omega
    have hk : s.fetch % 256 = kk := by omega
    simp only [op_3xkk, Vx_eq, kk_eq, hVx, hk, e4]
    split <;> rfl
  · intro hw
    rw [selects_total s s.fetch op_4xkk hpc rfl (Selects.op_4xkk (by omega))]
    have hVx : s.fetch / 256 % 16 = x := by omega
    have hk : s.fetch % 256 = kk := by omega
    simp only [op_4xkk, Vx_eq, kk_eq, hVx, hk, e4]
    split <;> rfl
  · intro hw
    rw [selects_total s s.fetch op_5xy0 hpc rfl (Selects.op_5xy0 (by omega))]
    have hVx : s.fetch / 256 % 16 = x := by omega
    have hVy : s.fetch / 16 % 16 = y := by omega
    simp only [op_5xy0, Vx_eq, Vy_eq, hVx, hVy, e4]
    split <;> rfl
  · intro hw
    rw [selects_total s s.fetch op_9xy0 hpc rfl (Selects.op_9xy0 (by omega))]
    have hVx : s.fetch / 256 % 16 = x := by omega
    have hVy : s.fetch / 16 % 16 = y := by omega
    simp only [op_9xy0, Vx_eq, Vy_eq, hVx, hVy]
    by_cases hc : s.registers x = s.registers y
    · simp only [hc, ne_eq, not_true_eq_false, if_false, e2]
    · simp only [hc, ne_eq, not_false_eq_true, if_true, e4]
  · intro hw hkey
    rw [selects_total s s.fetch op_Ex9E hpc rfl (Selects.op_Ex9E (by omega) (by omega))]
    have hVx : s.fetch / 256 % 16 = x := by omega
    have hk : ¬ s.registers x ≥ KEY_COUNT := by simp only [KEY_COUNT]; omega
    simp only [op_Ex9E, Vx_eq, hVx, hk, if_false, e4]
    split <;> rfl
  · intro hw hkey
    rw [selects_total s s.fetch op_ExA1 hpc rfl (Selects.op_ExA1 (by omega) (by omega))]
    have hVx : s.fetch / 256 % 16 = x := by omega
    have hk : ¬ s.registers x ≥ KEY_COUNT := by simp only [KEY_COUNT]; omega
    simp only [op_ExA1, Vx_eq, hVx, hk, if_false, e4]
    split <;> rfl

set_option maxRecDepth 100000 in
/-- Witness for C23: the six skips on new machines, where every register and every key is
zero: `3307` and `9340` and `E39E` do not skip, `4307` and `5340` and `E3A1` skip. -/
theorem conditional_skips_witness :
    cycle (wordDemo 0x33 0x07) =
      some { wordDemo 0x33 0x07 with opcode := 0x3307, pc := 0x202 } ∧
    cycle (wordDemo 0x43 0x07) =
      some { wordDemo 0x43 0x07 with opcode := 0x4307, pc := 0x204 } ∧
    cycle (wordDemo 0x53 0x40) =
      some { wordDemo 0x53 0x40 with opcode := 0x5340, pc := 0x204 } ∧
    cycle (wordDemo 0x93 0x40) =
      some { wordDemo 0x93 0x40 with opcode := 0x9340, pc := 0x202 } ∧
    cycle (wordDemo 0xE3 0x9E) =
      some { wordDemo 0xE3 0x9E with opcode := 0xE39E, pc := 0x202 } ∧
    cycle (wordDemo 0xE3 0xA1) =
      some { wordDemo 0xE3 0xA1 with opcode := 0xE3A1, pc := 0x204 } :=
  ⟨(conditional_skips 3 4 7 (by decide) (by decide) (by decide) (wordDemo 0x33 0x07)
      (by decide)).1 (by decide),
   (conditional_skips 3 4 7 (by decide) (by decide) (by decide) (wordDemo 0x43 0x07)
      (by decide)).2.1 (by decide),
   (conditional_skips 3 4 7 (by decide) (by decide) (by decide) (wordDemo 0x53 0x40)
      (by decide)).2.2.1 (by decide),
   (conditional_skips 3 4 7 (by decide) (by decide) (by decide) (wordDemo 0x93 0x40)
      (by decide)).2.2.2.1 (by decide),
   (conditional_skips 3 4 7 (by decide) (by decide) (by decide) (wordDemo 0xE3 0x9E)
      (by decide)).2.2.2.2.1 (by decide) (by decide),
   (conditional_skips 3 4 7 (by decide) (by decide) (by decide) (wordDemo 0xE3 0xA1)
      (by decide)).2.2.2.2.2 (by decide) (by decide)⟩

/-! ## Fetch and advance -/

theorem op_Fx29_pc (s : Chip8) : (op_Fx29 s).pc = s.pc := by
  simp only [op_Fx29]; split <;> rfl

theorem op_Dxyn_pc (s s2 : Chip8) (h : op_Dxyn s = some s2) : s2.pc = s.pc := by
  simp only [op_Dxyn] at h
  split at h
  · rw [← Option.some.inj h]
  · exact Option.noConfusion h

theorem op_Fx33_pc (s s2 : Chip8) (h : op_Fx33 s = some s2) : s2.pc = s.pc := by
  simp only [op_Fx33] at h
  split at h
  · rw [← Option.some.inj h]
  · exact Option.noConfusion h

theorem op_Fx55_pc (s s2 : Chip8) (h : op_Fx55 s = some s2) : s2.pc = s.pc := by
  simp only [op_Fx55] at h
  split at h
  · rw [← Option.some.inj h]
  · exact Option.noConfusion h

theorem op_Fx65_pc (s s2 : Chip8) (h : op_Fx65 s = some s2) : s2.pc = s.pc := by
  simp only [op_Fx65] at h
  split at h
  · rw [← Option.some.inj h]
  · exact Option.noConfusion h

/-- A handler run leaves `pc` alone unless the word is dispatched to a handler that
assigns it. -/
theorem selects_pc (w : Nat) (g : Chip8 → Option Chip8) (s1 s2 : Chip8)
    (hsel : Selects w g) (hrun : g s1 = some s2) : writesCounter w ∨ s2.pc = s1.pc := by
  cases hsel with
  | op_00E0 hf hc => rw [total_run _ s1 s2 hrun]; exact Or.inr rfl
  | op_6xkk hf => rw [total_run _ s1 s2 hrun]; exact Or.inr rfl
  | op_7xkk hf => rw [total_run _ s1 s2 hrun]; exact Or.inr rfl
  | op_8xy0 hf hc => rw [total_run _ s1 s2 hrun]; exact Or.inr rfl
  | op_8xy1 hf hc => rw [total_run _ s1 s2 hrun]; exact Or.inr rfl
  | op_8xy2 hf hc => rw [total_run _ s1 s2 hrun]; exact Or.inr rfl
  | op_8xy3 hf hc => rw [total_run _ s1 s2 hrun]; exact Or.inr rfl
  | op_8xy4 hf hc => rw [total_run _ s1 s2 hrun]; exact Or.inr rfl
  | op_8xy5 hf hc => rw [total_run _ s1 s2 hrun]; exact Or.inr rfl
  | op_8xy6 hf hc => rw [total_run _ s1 s2 hrun]; exact Or.inr rfl
  | op_8xy7 hf hc => rw [total_run _ s1 s2 hrun]; exact Or.inr rfl
  | op_8xyE hf hc => rw [total_run _ s1 s2 hrun]; exact Or.inr rfl
  | op_Annn hf => rw [total_run _ s1 s2 hrun]; exact Or.inr rfl
  | op_Cxkk hf => rw [total_run _ s1 s2 hrun]; exact Or.inr rfl
  | op_Fx07 hf hc => rw [total_run _ s1 s2 hrun]; exact Or.inr rfl
  | op_Fx15 hf hc => rw [total_run _ s1 s2 hrun]; exact Or.inr rfl
  | op_Fx18 hf hc => rw [total_run _ s1 s2 hrun]; exact Or.inr rfl
  | op_Fx1E hf hc => rw [total_run _ s1 s2 hrun]; exact Or.inr rfl
  | op_Fx29 hf hc => rw [total_run _ s1 s2 hrun]; exact Or.inr (op_Fx29_pc s1)
  | op_Dxyn hf => exact Or.inr (op_Dxyn_pc s1 s2 hrun)
  | op_Fx33 hf hc => exact Or.inr (op_Fx33_pc s1 s2 hrun)
  | op_Fx55 hf hc => exact Or.inr (op_Fx55_pc s1 s2 hrun)
  | op_Fx65 hf hc => exact Or.inr (op_Fx65_pc s1 s2 hrun)
  | op_00EE hf hc => exact Or.inl (by unfold writesCounter; omega)
  | op_1nnn hf => exact Or.inl (by unfold writesCounter; omega)
  | op_2nnn hf => exact Or.inl (by unfold writesCounter; omega)
  | op_3xkk hf => exact Or.inl (by unfold writesCounter; omega)
  | op_4xkk hf => exact Or.inl (by unfold writesCounter; omega)
  | op_5xy0 hf => exact Or.inl (by unfold writesCounter; omega)
  | op_9xy0 hf => exact Or.inl (by unfold writesCounter; omega)
  | op_Bnnn hf => exact Or.inl (by unfold writesCounter; omega)
  | op_Ex9E hf hc => exact Or.inl (by unfold writesCounter; omega)
  | op_ExA1 hf hc => exact Or.inl (by unfold writesCounter; omega)
  | op_Fx0A hf hc => exact Or.inl (by unfold writesCounter; omega)

/-- A completed cycle on a word whose handler does not assign `pc` ends at `pc + 2`. -/
theorem cycle_pc (s s2 : Chip8) (h : cycle s = some s2) (hw : ¬ writesCounter s.fetch) :
    s2.pc = s.pc + 2 := by
  obtain ⟨_, g, hsel, hrun⟩ := cycle_selects s s2 h
  rcases selects_pc s.fetch g { s with opcode := s.fetch, pc := s.pc + 2 } s2 hsel hrun
    with h1 | h1
  · exact absurd h1 hw
  · exact h1

/-- Every straight-line word selects a handler that cannot fail. -/
theorem straightLine_selects (w : Nat) (h : straightLine w) :
    ∃ f, Selects w (total f) := by
  unfold straightLine at h
  rcases h with ⟨h1, h2⟩ | h1 | h1 | ⟨h1, h2⟩ | h1 | h1 | ⟨h1, h2 | h2 | h2 | h2 | h2⟩
  · exact ⟨_, Selects.op_00E0 h1 h2⟩
  · exact ⟨_, Selects.op_6xkk h1⟩
  · exact ⟨_, Selects.op_7xkk h1⟩
  · have h3 : w % 16 = 0 ∨ w % 16 = 1 ∨ w % 16 = 2 ∨ w % 16 = 3 ∨ w % 16 = 4 ∨
        w % 16 = 5 ∨ w % 16 = 6 ∨ w % 16 = 7 ∨ w % 16 = 14 := by omega
    rcases h3 with h3 | h3 | h3 | h3 | h3 | h3 | h3 | h3 | h3
    · exact ⟨_, Selects.op_8xy0 h1 h3⟩
    · exact ⟨_, Selects.op_8xy1 h1 h3⟩
    · exact ⟨_, Selects.op_8xy2 h1 h3⟩
    · exact ⟨_, Selects.op_8xy3 h1 h3⟩
    · exact ⟨_, Selects.op_8xy4 h1 h3⟩
    · exact ⟨_, Selects.op_8xy5 h1 h3⟩
    · exact ⟨_, Selects.op_8xy6 h1 h3⟩
    · exact ⟨_, Selects.op_8xy7 h1 h3⟩
    · exact ⟨_, Selects.op_8xyE h1 h3⟩
  · exact ⟨_, Selects.op_Annn h1⟩
  · exact ⟨_, Selects.op_Cxkk h1⟩
  · exact ⟨_, Selects.op_Fx07 h1 h2⟩
  · exact ⟨_, Selects.op_Fx15 h1 h2⟩
  · exact ⟨_, Selects.op_Fx18 h1 h2⟩
  · exact ⟨_, Selects.op_Fx1E h1 h2⟩
  · exact ⟨_, Selects.op_Fx29 h1 h2⟩

/-- A cycle on a word dispatched to a handler that indexes `memory`, with all its accesses
inside the array, completes. -/
theorem indexed_completes (s : Chip8) (hpc : s.pc ≤ 4094) (h : indexedInBounds s s.fetch) :
    ∃ s2, cycle s = some s2 := by
  unfold indexedInBounds at h
  rcases h with ⟨h1, h2⟩ | ⟨h1, h2, h3⟩ | ⟨h1, h2 | h2, h3⟩
  · rw [selects_cycle s s.fetch _ hpc rfl (Selects.op_Dxyn h1)]
    obtain ⟨st, hrun, _⟩ := op_Dxyn_spec { s with opcode := s.fetch, pc := s.pc + 2 }
      (by rw [and_000F]; exact h2)
    exact ⟨_, hrun⟩
  · rw [selects_cycle s s.fetch _ hpc rfl (Selects.op_Fx33 h1 h2)]
    simp only [op_Fx33, h3, if_true]
    exact ⟨_, rfl⟩
  · rw [selects_cycle s s.fetch _ hpc rfl (Selects.op_Fx55 h1 h2)]
    obtain ⟨m2, hrun, _⟩ := storeRegs_spec s.registers s.index (s.fetch / 256 % 16 + 1) 0
      s.memory (by omega)
    have hVx : Vx { s with opcode := s.fetch, pc := s.pc + 2 } = s.fetch / 256 % 16 :=
      Vx_eq _
    simp only [op_Fx55, hVx, hrun]
    exact ⟨_, rfl⟩
  · rw [selects_cycle s s.fetch _ hpc rfl (Selects.op_Fx65 h1 h2)]
    obtain ⟨r2, hrun, _⟩ := loadRegs_spec s.memory s.index (s.fetch / 256 % 16 + 1) 0
      s.registers (by omega)
    have hVx : Vx { s with opcode := s.fetch, pc := s.pc + 2 } = s.fetch / 256 % 16 :=
      Vx_eq _
    simp only [op_Fx65, hVx, hrun]
    exact ⟨_, rfl⟩

/-- C22 (as amended): in a state with program counter `p ≤ 4094` (and bytes in memory), a
cycle decodes the big-endian word `256 * memory[p] + memory[p + 1]` and runs the handler
the word selects on the state whose counter is already `p + 2`.  Consequently, for every
word whose handler does not assign the counter, the counter after a completed cycle is
`p + 2`; the cycle does complete for every straight-line word (clear, load, add, the
`8xy_` arithmetic, index load, random, timer and glyph instructions) and, when their memory
accesses are inside `memory` (`index + n ≤ 4096` for the draw, `index + 2 ≤ 4095` for the
BCD store, `index + x ≤ 4095` for the range store and range load), for the draw, BCD, range
store and range load words.  A jump `1nnn` completes with the counter at `nnn`, whatever
`p` is. -/
theorem fetch_and_advance (s : Chip8) (hpc : s.pc ≤ 4094)
    (hhi : s.memory s.pc < 256) (hlo : s.memory (s.pc + 1) < 256) :
    s.fetch = 256 * s.memory s.pc + s.memory (s.pc + 1) ∧
    cycle s = call (table (s.fetch / 4096 % 16))
      { s with opcode := s.fetch, pc := s.pc + 2 } ∧
    (∀ s2, cycle s = some s2 → ¬ writesCounter s.fetch → s2.pc = s.pc + 2) ∧
    (straightLine s.fetch ∨ indexedInBounds s s.fetch →
      ∃ s2, cycle s = some s2 ∧ s2.pc = s.pc + 2) ∧
    (∀ nnn, nnn < 4096 → s.fetch = 0x1000 + nnn →
      cycle s = some { s with opcode := s.fetch, pc := nnn }) := by
  refine ⟨fetch_bytes s _ _ hhi hlo rfl rfl, cycle_table s s.fetch hpc rfl,
    fun s2 h hw => cycle_pc s s2 h hw, ?_, ?_⟩
  · intro h
    have hnw : ¬ writesCounter s.fetch := by
      unfold writesCounter
      unfold straightLine indexedInBounds at h
      omega
    have hex : ∃ s2, cycle s = some s2 := by
      rcases h with h | h
      · obtain ⟨f, hsel⟩ := straightLine_selects s.fetch h
        exact ⟨_, selects_total s s.fetch f hpc rfl hsel⟩
      · exact indexed_completes s hpc h
    obtain ⟨s2, hrun⟩ := hex
    exact ⟨s2, hrun, cycle_pc s s2 hrun hnw⟩
  · intro nnn hn hw
    rw [selects_total s s.fetch op_1nnn hpc rfl (Selects.op_1nnn (by omega))]
    have e : s.fetch % 4096 = nnn := by omega
    simp only [op_1nnn, address_eq, e]

set_option maxRecDepth 100000 in
/-- Witness for C22: the load `6A05` at `0x200` ends at `0x202`, and the jump `1ABC` at
`0x200` ends at `0xABC`. -/
theorem fetch_and_advance_witness :
    (wordDemo 0x6A 0x05).fetch = 0x6A05 ∧
    (∃ s2, cycle (wordDemo 0x6A 0x05) = some s2 ∧ s2.pc = 0x202) ∧
    cycle (wordDemo 0x1A 0xBC) = some { wordDemo 0x1A 0xBC with opcode := 0x1ABC,
                                                                pc := 0xABC } :=
  ⟨(fetch_and_advance (wordDemo 0x6A 0x05) (by decide) (by decide) (by decide)).1,
   (fetch_and_advance (wordDemo 0x6A 0x05) (by decide) (by decide) (by decide)).2.2.2.1
     (Or.inl (by unfold straightLine; decide)),
   (fetch_and_advance (wordDemo 0x1A 0xBC) (by decide) (by decide) (by decide)).2.2.2.2
     0xABC (by decide) (by decide)⟩

/-! ## Memory is written by the BCD store and the range store only -/

/-- The store loop writes inside `index + i .. index + i + todo - 1` only. -/
theorem storeRegs_outside (registers : Nat → Nat) (index : Nat) (todo : Nat) :
    ∀ (i : Nat) (memory m2 : Nat → Nat), storeRegs registers index todo i memory = some m2 →
      ∀ a, a < index + i ∨ index + i + todo ≤ a → m2 a = memory a := by
  induction todo with
  | zero =>
    intro i memory m2 h a _
    rw [← Option.some.inj h]
  | succ todo ih =>
    intro i memory m2 h a ha
    simp only [storeRegs] at h
    split at h
    · rw [ih (i + 1) _ m2 h a (by omega)]
      exact store_other _ _ _ _ (by omega)
    · exact Option.noConfusion h

/-- The BCD store writes `index`, `index + 1` and `index + 2` only. -/
theorem op_Fx33_outside (s s2 : Chip8) (h : op_Fx33 s = some s2) (a : Nat)
    (ha : a < s.index ∨ s.index + 2 < a) : s2.memory a = s.memory a := by
  simp only [op_Fx33] at h
  split at h
  · rw [← Option.some.inj h]
    show store (store (store s.memory s.index _) (s.index + 1) _) (s.index + 2) _ a = _
    rw [store_other _ _ _ _ (by omega), store_other _ _ _ _ (by omega),
      store_other _ _ _ _ (by omega)]
  · exact Option.noConfusion h

/-- The range store writes `index .. index + Vx` only. -/
theorem op_Fx55_outside (s s2 : Chip8) (h : op_Fx55 s = some s2) (a : Nat)
    (ha : a < s.index ∨ s.index + s.Vx < a) : s2.memory a = s.memory a := by
  simp only [op_Fx55] at h
  split at h
  · rename_i m hm
    rw [← Option.some.inj h]
    exact storeRegs_outside _ _ _ _ _ _ hm a (by omega)
  · exact Option.noConfusion h

/-- A completed cycle that spares the glyph table leaves it as it was. -/
theorem cycle_glyphs (s s2 : Chip8) (h : cycle s = some s2) (hs : sparesGlyphs s) (a : Nat)
    (h1 : 0x050 ≤ a) (h2 : a ≤ 0x09F) : s2.memory a = s.memory a := by
  obtain ⟨_, g, hsel, hrun⟩ := cycle_selects s s2 h
  by_cases h33 : s.fetch / 4096 % 16 = 15 ∧ s.fetch % 256 = 0x33
  · rw [selects_Fx33 s.fetch g hsel h33.1 h33.2] at hrun
    have hb := hs.1 h33
    exact op_Fx33_outside _ s2 hrun a (by show a < s.index ∨ s.index + 2 < a; omega)
  · by_cases h55 : s.fetch / 4096 % 16 = 15 ∧ s.fetch % 256 = 0x55
    · rw [selects_Fx55 s.fetch g hsel h55.1 h55.2] at hrun
      have hb := hs.2 h55
      refine op_Fx55_outside _ s2 hrun a ?_
      rw [Vx_eq]
      show a < s.index ∨ s.index + s.fetch / 256 % 16 < a
      omega
    · obtain ⟨_, _, _, hm, _⟩ :=
        selects_frame s.fetch g { s with opcode := s.fetch, pc := s.pc + 2 } s2 hsel hrun
      rcases hm with ⟨hf, hc | hc⟩ | hm
      · exact absurd ⟨hf, hc⟩ h33
      · exact absurd ⟨hf, hc⟩ h55
      · rw [hm]

/-- A run that spares the glyph table leaves it as it was. -/
theorem run_glyphs (s t : Chip8) (h : SparingRun s t) :
    ∀ a, 0x050 ≤ a → a ≤ 0x09F → t.memory a = s.memory a := by
  induction h with
  | done s => intro a _ _; rfl
  | step s s2 t hs hc _ ih =>
    intro a h1 h2
    rw [ih a h1 h2]
    exact cycle_glyphs s s2 hc hs a h1 h2
  | keys s t keypad _ ih => exact ih
  | timers s t delayTimer soundTimer _ ih => exact ih
  | frame s t _ ih => exact ih

/-- Loading a program image leaves the memory below `0x200` alone. -/
theorem loadROM_low (filename : String) (file : Option (List Nat)) (s : Chip8) (a : Nat)
    (ha : a < 0x200) : (loadROM filename file s).memory a = s.memory a := by
  cases file with
  | none => rfl
  | some buffer =>
    simp only [loadROM]
    split
    · rfl
    · exact (copyBytes_spec buffer START_ADDRESS s.memory).2 a
        (Or.inl (by simp only [START_ADDRESS]; exact ha))

/-- C30: a completed cycle on any instruction word other than `Fx33` and `Fx55` leaves
every memory byte unchanged; so a program run whose `Fx33` and `Fx55` instructions write
only ranges disjoint from `0x050..0x09F` leaves the glyph table as it was at the start of
the run, and on a newly created machine with any program image loaded that is the table
the constructor wrote. -/
theorem memory_writers (s : Chip8) :
    (∀ s2, cycle s = some s2 →
      ¬ (s.fetch / 4096 % 16 = 0xF ∧ (s.fetch % 256 = 0x33 ∨ s.fetch % 256 = 0x55)) →
      ∀ a, s2.memory a = s.memory a) ∧
    (∀ t, SparingRun s t → ∀ a, 0x050 ≤ a → a ≤ 0x09F → t.memory a = s.memory a) ∧
    (∀ drawFlag randGen filename file t,
      s = loadROM filename file (init drawFlag randGen) → SparingRun s t →
      ∀ i, i < 80 → t.memory (0x050 + i) = fontSet.getD i 0) := by
  refine ⟨?_, run_glyphs s, ?_⟩
  · intro s2 h hno a
    obtain ⟨_, _, _, hm, _⟩ := cycle_frame s s2 h
    rcases hm with hm | hm
    · exact absurd hm hno
    · rw [hm]
  · intro drawFlag randGen filename file t hs hrun i hi
    rw [run_glyphs s t hrun (0x050 + i) (by omega) (by omega), hs,
      loadROM_low filename file _ _ (by omega)]
    exact init_glyphs i hi

set_option maxRecDepth 100000 in
/-- The first cycle of `glyphRunDemo`. -/
theorem cycle_glyphRunDemo : cycle glyphRunDemo = some glyphRunDemo1 := by
  rw [selects_cycle glyphRunDemo 0xA300 (total op_Annn) (by decide) (by decide)
    (Selects.op_Annn (by decide))]
  rfl

set_option maxRecDepth 100000 in
/-- The second cycle of `glyphRunDemo`. -/
theorem cycle_glyphRunDemo1 : cycle glyphRunDemo1 = some glyphRunDemo2 := by
  rw [selects_cycle glyphRunDemo1 0xF033 op_Fx33 (by decide) (by decide)
    (Selects.op_Fx33 (by decide) (by decide))]
  rfl

/-- The two cycles of `glyphRunDemo` spare the glyph table. -/
theorem run_glyphRunDemo : SparingRun glyphRunDemo glyphRunDemo2 :=
  SparingRun.step _ _ _ ⟨fun h => absurd h.1 (by decide), fun h => absurd h.1 (by decide)⟩
    cycle_glyphRunDemo
    (SparingRun.step _ _ _ ⟨fun _ => Or.inr (by decide), fun h => absurd h.2 (by decide)⟩
      cycle_glyphRunDemo1 (SparingRun.done _))

/-- Witness for C30: the program `A3 00 F0 33` on a new machine; its first cycle leaves
memory alone, and after its BCD store at `0x300` the glyph table is still the one the
constructor wrote. -/
theorem memory_writers_witness :
    (∀ a, glyphRunDemo1.memory a = glyphRunDemo.memory a) ∧
    (∀ a, 0x050 ≤ a → a ≤ 0x09F → glyphRunDemo2.memory a = glyphRunDemo.memory a) ∧
    (∀ i, i < 80 → glyphRunDemo2.memory (0x050 + i) = fontSet.getD i 0) :=
  ⟨(memory_writers glyphRunDemo).1 glyphRunDemo1 cycle_glyphRunDemo (by decide),
   (memory_writers glyphRunDemo).2.1 glyphRunDemo2 run_glyphRunDemo,
   (memory_writers glyphRunDemo).2.2 false (fun _ => 0) "demo"
     (some [0xA3, 0x00, 0xF0, 0x33]) glyphRunDemo2 rfl run_glyphRunDemo⟩

/-! ## The stack is last-in-first-out -/

/-- The machine poised on `w` at `p` fetches `w`. -/
theorem poised_fetch (s : Chip8) (p w : Nat) (hw : w < 65536) :
    (poised s p w).fetch = w := by
  have h := fetch_bytes (poised s p w) (w / 256) (w % 256) (by omega) (by omega)
    (by show store (store s.memory p (w / 256)) (p + 1) (w % 256) p = w / 256
        rw [store_other _ _ _ _ (by omega), store_same])
    (by show store (store s.memory p (w / 256)) (p + 1) (w % 256) (p + 1) = w % 256
        rw [store_same])
  rw [h]
  omega

/-- A call executed at `p` with room on the stack. -/
theorem call_step (s : Chip8) (p nnn : Nat) (hp : p ≤ 4094) (hn : nnn < 4096)
    (hsp : s.sp < 15) :
    ∃ s1, cycle (poised s p (0x2000 + nnn)) = some s1 ∧ s1.sp = s.sp + 1 ∧
      s1.stack = store s.stack (s.sp + 1) (p + 2) ∧ s1.pc = nnn :=
  ⟨_, cycle_2nnn_push (poised s p (0x2000 + nnn)) nnn hn hp
    (poised_fetch s p _ (by omega)) hsp, rfl, rfl, rfl⟩

/-- A return executed at `q` with a stack pointer in `1..15`. -/
theorem return_step (s : Chip8) (q : Nat) (hq : q ≤ 4094) (hsp : 0 < s.sp)
    (hsp2 : s.sp ≤ 15) :
    ∃ s1, cycle (poised s q 0x00EE) = some s1 ∧ s1.sp = s.sp - 1 ∧
      s1.stack = s.stack ∧ s1.pc = s.stack s.sp :=
  ⟨_, cycle_00EE_pop (poised s q 0x00EE) hq (poised_fetch s q _ (by omega)) hsp hsp2,
    rfl, rfl, rfl⟩

/-- One more return after a sequence of returns. -/
theorem returnAll_append (qs : List Nat) (q : Nat) :
    ∀ (m t1 t2 : Chip8) (pcs : List Nat), returnAll qs m = some (pcs, t1) →
      cycle (poised t1 q 0x00EE) = some t2 →
      returnAll (qs ++ [q]) m = some (pcs ++ [t2.pc], t2) := by
  induction qs with
  | nil =>
    intro m t1 t2 pcs h hc
    simp only [returnAll] at h
    have h1 := Option.some.inj h
    have hp : pcs = [] := (congrArg Prod.fst h1).symm
    have ht : t1 = m := (congrArg Prod.snd h1).symm
    rw [hp, ← ht]
    simp only [List.nil_append, returnAll, hc]
  | cons q0 qs ih =>
    intro m t1 t2 pcs h hc
    simp only [returnAll] at h
    split at h
    · rename_i s1 hs1
      split at h
      · rename_i r hr
        have h1 := Option.some.inj h
        have hp : pcs = s1.pc :: r.1 := (congrArg Prod.fst h1).symm
        have ht : t1 = r.2 := (congrArg Prod.snd h1).symm
        have hr2 : returnAll qs s1 = some (r.1, t1) := by rw [hr, ht]
        have h2 := ih s1 t1 t2 r.1 hr2 hc
        rw [hp]
        show returnAll (q0 :: (qs ++ [q])) m = _
        simp only [returnAll, hs1, h2, List.cons_append]
      · exact Option.noConfusion h
    · exact Option.noConfusion h

/-- Calls followed by as many returns, from any stack pointer with room for the calls:
the returns yield the pushed addresses in reverse order and restore the stack pointer and
the stack entries at or below it. -/
theorem calls_then_returns (cs : List (Nat × Nat)) :
    ∀ (qs : List Nat) (s : Chip8), qs.length = cs.length → s.sp + cs.length ≤ 15 →
      (∀ c, c ∈ cs → c.1 ≤ 4094 ∧ c.2 < 4096) → (∀ q, q ∈ qs → q ≤ 4094) →
      ∃ m t, callAll cs s = some m ∧ m.sp = s.sp + cs.length ∧
        returnAll qs m = some ((cs.map (fun c => c.1 + 2)).reverse, t) ∧
        t.sp = s.sp ∧ ∀ j, j ≤ s.sp → t.stack j = s.stack j := by
  induction cs with
  | nil =>
    intro qs s hlen _ _ _
    have hq : qs = [] := List.length_eq_zero.mp hlen
    rw [hq]
    exact ⟨s, s, rfl, rfl, rfl, rfl, fun _ _ => rfl⟩
  | cons c cs ih =>
    intro qs s hlen hsp hcs hqs
    have hlen2 : qs.length = cs.length + 1 := hlen
    have hsp2 : s.sp + (cs.length + 1) ≤ 15 := hsp
    have hne : qs ≠ [] := by
      intro h0
      rw [h0] at hlen2
      exact Nat.succ_ne_zero _ hlen2.symm
    have hsplit := List.dropLast_append_getLast hne
    have hc := hcs c (List.mem_cons_self _ _)
    obtain ⟨s1, hcall, hs1sp, hs1st, _⟩ := call_step s c.1 c.2 hc.1 hc.2 (by omega)
    have hdl : qs.dropLast.length = cs.length := by
      rw [List.length_dropLast, hlen2]; rfl
    obtain ⟨m, t1, hm, hmsp, hret, ht1sp, ht1st⟩ := ih qs.dropLast s1 hdl
      (by rw [hs1sp]; omega)
      (fun c2 h2 => hcs c2 (List.mem_cons_of_mem _ h2))
      (fun q h2 => hqs q (List.dropLast_subset qs h2))
    obtain ⟨t2, hlast, ht2sp, ht2st, ht2pc⟩ := return_step t1 (qs.getLast hne)
      (hqs _ (List.getLast_mem hne)) (by omega) (by omega)
    have happ := returnAll_append qs.dropLast (qs.getLast hne) m t1 t2 _ hret hlast
    rw [hsplit] at happ
    have hpc : t2.pc = c.1 + 2 := by
      rw [ht2pc, ht1sp, ht1st _ (Nat.le_refl _), hs1sp, hs1st, store_same]
    refine ⟨m, t2, ?_, ?_, ?_, ?_, ?_⟩
    · simp only [callAll, hcall, hm]
    · rw [hmsp, hs1sp]; simp only [List.length_cons]; omega
    · rw [happ, hpc]
      simp only [List.map_cons, List.reverse_cons]
    · rw [ht2sp, ht1sp, hs1sp]; omega
    · intro j hj
      rw [ht2st, ht1st j (by omega), hs1st]
      exact store_other _ _ _ _ (by omega)

/-- C27: for `1 ≤ n ≤ 15`, starting from `sp = 0`, `n` successive calls executed at the
program counters `p_1 .. p_n` (each `≤ 4094`, with any targets) all complete and leave
`sp = n`; `n` returns executed after them (at any program counters `≤ 4094`) all complete
as well, set the program counter, in order, to `p_n + 2, ..., p_1 + 2`, and leave
`sp = 0`. -/
theorem stack_lifo (cs : List (Nat × Nat)) (qs : List Nat) (s : Chip8)
    (hn1 : 1 ≤ cs.length) (hn2 : cs.length ≤ 15) (hlen : qs.length = cs.length)
    (hsp : s.sp = 0) (hcs : ∀ c, c ∈ cs → c.1 ≤ 4094 ∧ c.2 < 4096)
    (hqs : ∀ q, q ∈ qs → q ≤ 4094) :
    ∃ m t, callAll cs s = some m ∧ m.sp = cs.length ∧
      returnAll qs m = some ((cs.map (fun c => c.1 + 2)).reverse, t) ∧ t.sp = 0 := by
  obtain ⟨m, t, h1, h2, h3, h4, _⟩ := calls_then_returns cs qs s hlen (by omega) hcs hqs
  exact ⟨m, t, h1, by omega, h3, by omega⟩

/-- Witness for C27: calls at `0x200`, `0x300` and `0x400`, then three returns, on a new
machine: the returns land on `0x402`, `0x302`, `0x202`. -/
theorem stack_lifo_witness :
    ∃ m t, callAll [(0x200, 0x300), (0x300, 0x400), (0x400, 0x500)]
        (init false (fun _ => 0)) = some m ∧ m.sp = 3 ∧
      returnAll [0x500, 0x402, 0x302] m = some ([0x402, 0x302, 0x202], t) ∧ t.sp = 0 :=
  stack_lifo [(0x200, 0x300), (0x300, 0x400), (0x400, 0x500)] [0x500, 0x402, 0x302]
    (init false (fun _ => 0)) (by decide) (by decide) (by decide) rfl (by decide)
    (by decide)

/-! ## Secondary dispatch of the families `0x0` and `0xE` -/

/-- A cycle is the fetch followed by `execute`. -/
theorem cycle_execute (s : Chip8) (hpc : s.pc ≤ 4094) : cycle s = execute s.fetch s := by
  have h : s.pc + 1 < MEMORY_SIZE := by simp only [MEMORY_SIZE]; omega
  simp only [cycle, execute, h, if_true]

/-- Decoding in family `0x0`: the slot of `table0` is chosen by the trailing nibble. -/
theorem execute_family0 (w : Nat) (s : Chip8) (hf : w / 4096 % 16 = 0) :
    execute w s = call (table0 (w % 16)) { s with opcode := w, pc := (s.pc + 2) % 65536 } := by
  have ht : table 0 = some Table0 := rfl
  simp only [execute, nibble_top, hf, ht, call, Table0, and_000F]

/-- Decoding in family `0xE`: the slot of `tableE` is chosen by the trailing nibble. -/
theorem execute_familyE (w : Nat) (s : Chip8) (hf : w / 4096 % 16 = 14) :
    execute w s = call (tableE (w % 16)) { s with opcode := w, pc := (s.pc + 2) % 65536 } := by
  have ht : table 14 = some TableE := rfl
  simp only [execute, nibble_top, hf, ht, call, TableE, and_000F]

/-- Every word `0x0nn0` runs `op_00E0`. -/
theorem execute_0nn0 (w : Nat) (s : Chip8) (hf : w / 4096 % 16 = 0) (hc : w % 16 = 0) :
    execute w s = some { s with opcode := w, pc := (s.pc + 2) % 65536,
                                video := fun _ => 0 } := by
  have ht : table0 0 = some (total op_00E0) := rfl
  rw [execute_family0 w s hf, hc, ht]
  rfl

/-- Every word `0x0nnE` runs `op_00EE`. -/
theorem execute_0nnE (w : Nat) (s : Chip8) (hf : w / 4096 % 16 = 0) (hc : w % 16 = 14) :
    execute w s = op_00EE { s with opcode := w, pc := (s.pc + 2) % 65536 } := by
  have ht : table0 14 = some op_00EE := rfl
  rw [execute_family0 w s hf, hc, ht]
  rfl

/-- Every word `0xExyE` runs `op_Ex9E`. -/
theorem execute_ExyE (w : Nat) (s : Chip8) (hf : w / 4096 % 16 = 14) (hc : w % 16 = 14) :
    execute w s = some (op_Ex9E { s with opcode := w, pc := (s.pc + 2) % 65536 }) := by
  have ht : tableE 14 = some (total op_Ex9E) := rfl
  rw [execute_familyE w s hf, hc, ht]
  rfl

/-- Every word `0xExy1` runs `op_ExA1`. -/
theorem execute_Exy1 (w : Nat) (s : Chip8) (hf : w / 4096 % 16 = 14) (hc : w % 16 = 1) :
    execute w s = some (op_ExA1 { s with opcode := w, pc := (s.pc + 2) % 65536 }) := by
  have ht : tableE 1 = some (total op_ExA1) := rfl
  rw [execute_familyE w s hf, hc, ht]
  rfl

/-- The return handler does not read the instruction word. -/
theorem op_00EE_word (s : Chip8) (w v : Nat) :
    op_00EE { s with opcode := w } =
      (op_00EE { s with opcode := v }).map (fun t => { t with opcode := w }) := by
  simp only [op_00EE]
  split
  · rfl
  · split <;> rfl

/-- The handler `op_Ex9E` reads nothing of the instruction word but the nibble `x`. -/
theorem op_Ex9E_word (s : Chip8) (w v : Nat) (h : w / 256 % 16 = v / 256 % 16) :
    op_Ex9E { s with opcode := w } = { op_Ex9E { s with opcode := v } with opcode := w } := by
  have hw : Vx { s with opcode := w } = v / 256 % 16 := by rw [Vx_eq]; exact h
  have hv : Vx { s with opcode := v } = v / 256 % 16 := Vx_eq _
  simp only [op_Ex9E, hw, hv]
  split
  · rfl
  · split <;> rfl

/-- The handler `op_ExA1` reads nothing of the instruction word but the nibble `x`. -/
theorem op_ExA1_word (s : Chip8) (w v : Nat) (h : w / 256 % 16 = v / 256 % 16) :
    op_ExA1 { s with opcode := w } = { op_ExA1 { s with opcode := v } with opcode := w } := by
  have hw : Vx { s with opcode := w } = v / 256 % 16 := by rw [Vx_eq]; exact h
  have hv : Vx { s with opcode := v } = v / 256 % 16 := Vx_eq _
  simp only [op_ExA1, hw, hv]
  split
  · rfl
  · split <;> rfl

/-- C31: a cycle is the fetch followed by `execute`, and in the families `0x0` and `0xE`
`execute` looks only at the trailing nibble.  For all values of the middle nibbles:
every word `0x0nn0` has the result of clear-screen `0x00E0`, every word `0x0nnE` the result
of return `0x00EE`, every word `0xExyE` the result of `0xEx9E` and every word `0xExy1` the
result of `0xExA1`, where "the result" is the whole state apart from the latch `opcode`
that keeps the fetched word (and no result on one side means no result on the other).  The
clear-screen and the two key skips always have a result, the return has one for `sp ≤ 15`.
In particular the word `0x0000` of never-loaded memory clears the screen.  The latch is
overwritten by the next fetch before anything reads it: a cycle does not depend on it. -/
theorem trailing_nibble_dispatch (s : Chip8) :
    (s.pc ≤ 4094 → cycle s = execute s.fetch s) ∧
    (∀ nn, nn < 256 →
      execute (0x0000 + 0x10 * nn) s =
        (execute 0x00E0 s).map (fun t => { t with opcode := 0x0000 + 0x10 * nn })) ∧
    (∀ nn, nn < 256 →
      execute (0x000E + 0x10 * nn) s =
        (execute 0x00EE s).map (fun t => { t with opcode := 0x000E + 0x10 * nn })) ∧
    (∀ x y, x < 16 → y < 16 →
      execute (0xE00E + 0x100 * x + 0x10 * y) s =
        (execute (0xE09E + 0x100 * x) s).map
          (fun t => { t with opcode := 0xE00E + 0x100 * x + 0x10 * y })) ∧
    (∀ x y, x < 16 → y < 16 →
      execute (0xE001 + 0x100 * x + 0x10 * y) s =
        (execute (0xE0A1 + 0x100 * x) s).map
          (fun t => { t with opcode := 0xE001 + 0x100 * x + 0x10 * y })) ∧
    execute 0x00E0 s = some { s with opcode := 0x00E0, pc := (s.pc + 2) % 65536,
                                     video := fun _ => 0 } ∧
    (s.sp ≤ 15 → ∃ t, execute 0x00EE s = some t) ∧
    (∀ x, x < 16 → (∃ t, execute (0xE09E + 0x100 * x) s = some t) ∧
      ∃ t, execute (0xE0A1 + 0x100 * x) s = some t) ∧
    (s.pc ≤ 4094 → s.memory s.pc = 0 → s.memory (s.pc + 1) = 0 →
      cycle s = some { s with opcode := 0x0000, pc := s.pc + 2, video := fun _ => 0 }) ∧
    (∀ v, cycle { s with opcode := v } = cycle s) := by
  refine ⟨cycle_execute s, ?_, ?_, ?_, ?_, execute_0nn0 _ s (by decide) (by decide), ?_, ?_,
    ?_, fun _ => rfl⟩
  · intro nn hn
    rw [execute_0nn0 _ s (by omega) (by omega),
      execute_0nn0 0x00E0 s (by decide) (by decide)]
    rfl
  · intro nn hn
    rw [execute_0nnE _ s (by omega) (by omega),
      execute_0nnE 0x00EE s (by decide) (by decide)]
    exact op_00EE_word { s with pc := (s.pc + 2) % 65536 } _ _
  · intro x y hx hy
    rw [execute_ExyE _ s (by omega) (by omega), execute_ExyE _ s (by omega) (by omega)]
    exact congrArg some
      (op_Ex9E_word { s with pc := (s.pc + 2) % 65536 } _ _ (by omega))
  · intro x y hx hy
    rw [execute_Exy1 _ s (by omega) (by omega), execute_Exy1 _ s (by omega) (by omega)]
    exact congrArg some
      (op_ExA1_word { s with pc := (s.pc + 2) % 65536 } _ _ (by omega))
  · intro hsp
    rw [execute_0nnE 0x00EE s (by decide) (by decide)]
    by_cases h0 : s.sp = 0
    · simp only [op_00EE, h0, if_true]
      exact ⟨_, rfl⟩
    · have h1 : s.sp < STACK_LEVELS := by simp only [STACK_LEVELS]; omega
      simp only [op_00EE, h0, h1, if_true, if_false]
      exact ⟨_, rfl⟩
  · intro x hx
    exact ⟨⟨_, execute_ExyE _ s (by omega) (by omega)⟩,
      ⟨_, execute_Exy1 _ s (by omega) (by omega)⟩⟩
  · intro hpc h1 h2
    have hf : s.fetch = 0 := by
      rw [fetch_bytes s 0 0 (by decide) (by decide) h1 h2]
    have e : (s.pc + 2) % 65536 = s.pc + 2 := by omega
    rw [cycle_execute s hpc, hf, execute_0nn0 0 s (by decide) (by decide), e]

set_option maxRecDepth 100000 in
/-- Witness for C31: on new machines, the words `0x0120` and `0x00E0` give the same state
apart from the stored word, likewise `0xE35E` and `0xE39E`; and a machine with no program
loaded executes `0x0000` at `0x200` as a clear-screen. -/
theorem trailing_nibble_dispatch_witness :
    cycle (wordDemo 0x01 0x20) = execute 0x0120 (wordDemo 0x01 0x20) ∧
    execute 0x0120 (wordDemo 0x01 0x20) =
      (execute 0x00E0 (wordDemo 0x01 0x20)).map (fun t => { t with opcode := 0x0120 }) ∧
    execute 0xE35E (wordDemo 0xE3 0x5E) =
      (execute 0xE39E (wordDemo 0xE3 0x5E)).map (fun t => { t with opcode := 0xE35E }) ∧
    cycle (init false (fun _ => 0)) =
      some { init false (fun _ => 0) with opcode := 0x0000, pc := 0x202,
                                          video := fun _ => 0 } :=
  ⟨(trailing_nibble_dispatch (wordDemo 0x01 0x20)).1 (by decide),
   (trailing_nibble_dispatch (wordDemo 0x01 0x20)).2.1 0x12 (by decide),
   (trailing_nibble_dispatch (wordDemo 0xE3 0x5E)).2.2.2.1 3 5 (by decide) (by decide),
   (trailing_nibble_dispatch (init false (fun _ => 0))).2.2.2.2.2.2.2.2.1 (by decide)
     (by decide) (by decide)⟩

/-! ## Which cycles complete -/

/-- A cycle completes when the word is fetched inside `memory` (`pc ≤ 4094`), selects an
assigned handler, the stack pointer is at most 15 and the handlers that index `memory`
from `index` stay inside it: the draw with `index + n ≤ 4096`, the BCD store with
`index + 2 ≤ 4095`, the range store and range load with `index + x ≤ 4095`. -/
theorem cycle_completes (s : Chip8) (hpc : s.pc ≤ 4094) (hsp : s.sp ≤ 15)
    (g : Chip8 → Option Chip8) (hsel : Selects s.fetch g)
    (hD : s.fetch / 4096 % 16 = 0xD → s.index + s.fetch % 16 ≤ MEMORY_SIZE)
    (h33 : s.fetch / 4096 % 16 = 0xF → s.fetch % 256 = 0x33 → s.index + 2 < MEMORY_SIZE)
    (h55 : s.fetch / 4096 % 16 = 0xF → s.fetch % 256 = 0x55 ∨ s.fetch % 256 = 0x65 →
      s.index + s.fetch / 256 % 16 < MEMORY_SIZE) :
    ∃ s2, cycle s = some s2 := by
  by_cases hm : indexedInBounds s s.fetch
  · exact indexed_completes s hpc hm
  · rw [selects_cycle s s.fetch g hpc rfl hsel]
    cases hsel with
    | op_00EE hf hc =>
      by_cases h0 : s.sp = 0
      · simp only [op_00EE, h0, if_true]
        exact ⟨_, rfl⟩
      · have h1 : s.sp < STACK_LEVELS := by simp only [STACK_LEVELS]; omega
        simp only [op_00EE, h0, h1, if_true, if_false]
        exact ⟨_, rfl⟩
    | op_Dxyn hf => exact absurd (Or.inl ⟨hf, hD hf⟩) hm
    | op_Fx33 hf hc => exact absurd (Or.inr (Or.inl ⟨hf, hc, h33 hf hc⟩)) hm
    | op_Fx55 hf hc =>
      exact absurd (Or.inr (Or.inr ⟨hf, Or.inl hc, h55 hf (Or.inl hc)⟩)) hm
    | op_Fx65 hf hc =>
      exact absurd (Or.inr (Or.inr ⟨hf, Or.inr hc, h55 hf (Or.inr hc)⟩)) hm
    | op_00E0 hf hc => exact ⟨_, rfl⟩
    | op_1nnn hf => exact ⟨_, rfl⟩
    | op_2nnn hf => exact ⟨_, rfl⟩
    | op_3xkk hf => exact ⟨_, rfl⟩
    | op_4xkk hf => exact ⟨_, rfl⟩
    | op_5xy0 hf => exact ⟨_, rfl⟩
    | op_6xkk hf => exact ⟨_, rfl⟩
    | op_7xkk hf => exact ⟨_, rfl⟩
    | op_8xy0 hf hc => exact ⟨_, rfl⟩
    | op_8xy1 hf hc => exact ⟨_, rfl⟩
    | op_8xy2 hf hc => exact ⟨_, rfl⟩
    | op_8xy3 hf hc => exact ⟨_, rfl⟩
    | op_8xy4 hf hc => exact ⟨_, rfl⟩
    | op_8xy5 hf hc => exact ⟨_, rfl⟩
    | op_8xy6 hf hc => exact ⟨_, rfl⟩
    | op_8xy7 hf hc => exact ⟨_, rfl⟩
    | op_8xyE hf hc => exact ⟨_, rfl⟩
    | op_9xy0 hf => exact ⟨_, rfl⟩
    | op_Annn hf => exact ⟨_, rfl⟩
    | op_Bnnn hf => exact ⟨_, rfl⟩
    | op_Cxkk hf => exact ⟨_, rfl⟩
    | op_ExA1 hf hc => exact ⟨_, rfl⟩
    | op_Ex9E hf hc => exact ⟨_, rfl⟩
    | op_Fx07 hf hc => exact ⟨_, rfl⟩
    | op_Fx0A hf hc => exact ⟨_, rfl⟩
    | op_Fx15 hf hc => exact ⟨_, rfl⟩
    | op_Fx18 hf hc => exact ⟨_, rfl⟩
    | op_Fx1E hf hc => exact ⟨_, rfl⟩
    | op_Fx29 hf hc => exact ⟨_, rfl⟩

/-- In a reachable state the next cycle completes under the conditions of
`cycle_completes`, the one on the stack pointer being the invariant. -/
theorem reachable_completes (s : Chip8) (h : Reachable s) (hpc : s.pc ≤ 4094)
    (g : Chip8 → Option Chip8) (hsel : Selects s.fetch g)
    (hD : s.fetch / 4096 % 16 = 0xD → s.index + s.fetch % 16 ≤ MEMORY_SIZE)
    (h33 : s.fetch / 4096 % 16 = 0xF → s.fetch % 256 = 0x33 → s.index + 2 < MEMORY_SIZE)
    (h55 : s.fetch / 4096 % 16 = 0xF → s.fetch % 256 = 0x55 ∨ s.fetch % 256 = 0x65 →
      s.index + s.fetch / 256 % 16 < MEMORY_SIZE) :
    ∃ s2, cycle s = some s2 ∧ Reachable s2 := by
  obtain ⟨s2, h2⟩ := cycle_completes s hpc (reachable_sp s h) g hsel hD h33 h55
  exact ⟨s2, h2, Reachable.step s s2 h h2⟩

/-! ## Stores past the end of `memory` -/

set_option maxRecDepth 100000 in
/-- The first four cycles of `overrunDemo` complete and leave the machine about to execute
the range store `F055` with `index = 4148`, past the end of `memory`, and `V0 = 200`. -/
theorem overrunDemo_run :
    (cycles 4 overrunDemo).map
        (fun s => (s.sp, s.pc, s.fetch, s.index, s.registers 0)) =
      some (0, 0x208, 0xF055, 4148, 200) ∧
    (cycles 5 overrunDemo).isNone = true := by
  decide!

/-- C9 as stated, at the program image `AF FF 60 35 F0 1E 60 C8 F0 55` on a new machine:
after four cycles (`sp = 0`) the machine executes the range store `F055` with
`index = 4148` and `V0 = 200`, that is `memory[4148] = 200`, a store outside `memory[]`;
the fifth cycle has no defined result, so there is no state after it in which
`stack_pointer ≤ 15` holds.  (No handler checks `index` against the size of `memory`; in
the object the byte 52 places past the end of `memory` follows `registers`, `index`, `pc`
and `stack`: it is `sp`.) -/
theorem stack_pointer_overrun :
    (cycles 4 overrunDemo).map
        (fun s => (s.sp, s.pc, s.fetch, s.index, s.registers 0)) =
      some (0, 0x208, 0xF055, 4148, 200) ∧
    MEMORY_SIZE ≤ 4148 ∧
    ¬ ∃ s, cycles 5 overrunDemo = some s ∧ s.sp ≤ 15 := by
  refine ⟨overrunDemo_run.1, by decide, ?_⟩
  intro ⟨s, hs, _⟩
  have h := overrunDemo_run.2
  rw [hs] at h
  exact Bool.noConfusion h

set_option maxRecDepth 100000 in
/-- The first five cycles of `counterDemo` complete and leave the machine at `pc = 522`
about to execute the range store `F155` with `index = 4114`, past the end of `memory`. -/
theorem counterDemo_run :
    (cycles 5 counterDemo).map
        (fun s => (s.pc, s.fetch, s.index, s.registers 0, s.registers 1)) =
      some (522, 0xF155, 4114, 0x34, 0x12) ∧
    (cycles 6 counterDemo).isNone = true := by
  decide!

/-- C22 as stated, at the program image `AF FF 60 13 F0 1E 60 34 61 12 F1 55` on a new
machine: after five cycles the machine is at `p = 522 ≤ 4094` and executes the range store
`F155`, a memory instruction that does not assign the counter, with `index = 4114`; its
stores `memory[4114] = 0x34` and `memory[4115] = 0x12` are outside `memory[]`, the cycle
has no defined result, and so there is no state after it with the counter at `p + 2`.
(In the object the two bytes 18 places past the end of `memory` follow `registers` and
`index`: they are `pc`.) -/
theorem counter_overrun :
    (cycles 5 counterDemo).map
        (fun s => (s.pc, s.fetch, s.index, s.registers 0, s.registers 1)) =
      some (522, 0xF155, 4114, 0x34, 0x12) ∧
    ¬ writesCounter 0xF155 ∧ MEMORY_SIZE ≤ 4114 ∧
    ¬ ∃ s, cycles 6 counterDemo = some s ∧ s.pc = 522 + 2 := by
  refine ⟨counterDemo_run.1, by unfold writesCounter; decide, by decide, ?_⟩
  intro ⟨s, hs, _⟩
  have h := counterDemo_run.2
  rw [hs] at h
  exact Bool.noConfusion h

end Chip8
